import Mathlib

/-!
Phase-based performance profiler of `text_generator_main.cc`.

A shallow embedding of the profiler part of `src/text_generator_main.cc`
(`get_io_stats`, `get_core_cpu_time`, `PerformanceMonitor::start_phase`,
`PerformanceMonitor::end_phase`) and theorems about it.

Modelling conventions.
* A `double` or `float` value is the rational number (`ℚ`) that it holds; the
  model covers the runs in which every value is finite. The conversion of a
  64-bit integer to `double` and the sum of two such doubles are rounded to 53
  bits (`to_double`), and every `float` operation of the sampler is rounded to
  24 bits (`to_float`). The rounding of the other `double` operations (clock
  differences, divisions by a constant, means) is not modelled.
* `uint64_t` / `unsigned long` values are naturals, reduced `% 2 ^ 64` where the
  C++ arithmetic wraps.
* Text read from a pseudo-file is a `List Char`; `none` stands for a file that
  could not be opened.
* Everything the operating system answers (clocks, `getrusage`, file contents,
  `perf_event_open`, `read`) is a field of an explicit environment record.
* A C++ exception or an access with undefined behaviour is a `Fault`.
-/

namespace TextGen

/-- Ways in which a modelled C++ operation fails to return normally: the
exceptions `std::invalid_argument`, `std::out_of_range` and `std::length_error`,
undefined behaviour, and the exit of the process by a failed `MINIMAL_CHECK`. -/
inductive Fault
  | invalid_argument
  | out_of_range
  | undefined
  | length_error
  | check_failed
  deriving DecidableEq, Repr

/-! ## Text primitives of the C++ standard library -/

/-- The function `std::string::find(needle)`: index of the first occurrence of
`needle`, `none` for `npos`. -/
def find (needle : List Char) : List Char → Option Nat
  | [] => if needle.isPrefixOf [] then some 0 else none
  | c :: cs =>
    if needle.isPrefixOf (c :: cs) then some 0 else (find needle cs).map (· + 1)

/-- The lines that repeated `std::getline` calls deliver: the text is cut at each
newline, and a final piece is delivered only when it is not empty. -/
def getlines : List Char → List (List Char)
  | [] => []
  | c :: cs =>
    if c = '\n' then [] :: getlines cs
    else
      match getlines cs with
      | [] => [[c]]
      | l :: ls => (c :: l) :: ls

/-- The predicate `isspace` in the "C" locale. -/
def isspace (c : Char) : Bool :=
  c = ' ' || c = '\t' || c = '\n' || c = '\x0b' || c = '\x0c' || c = '\r'

/-- Value of a decimal digit character. -/
def digitVal (c : Char) : Nat := c.toNat - '0'.toNat

/-- Value of a string of decimal digits, most significant first. -/
def decVal (ds : List Char) : Nat := ds.foldl (fun acc c => 10 * acc + digitVal c) 0

/-- Two to the sixty-fourth: the number of values of `uint64_t` and of
`unsigned long` on the LP64 target. -/
def U64 : Nat := 2 ^ 64

/-- The number of low bits that a natural number loses when it is stored in a
`double`: its bit length less 53, and `0` below `2 ^ 53`. The fuel covers every
number below `2 ^ 117`. -/
def excess_bits : Nat → Nat → Nat
  | 0, _ => 0
  | fuel + 1, n => if n < 2 ^ 53 then 0 else excess_bits fuel (n / 2) + 1

/-- The quotient `n / d` rounded to the nearest integer, a tie to the even one. -/
def round_half_even (n d : Nat) : Nat :=
  if 2 * (n % d) > d ∨ (2 * (n % d) = d ∧ (n / d) % 2 = 1) then n / d + 1 else n / d

/-- The conversion of an unsigned integer to `double`, and the rounding of a sum
of two doubles that hold integers: the nearest number with a significand of 53
bits, a tie to the even significand. The result is the integer that the `double`
holds. -/
def to_double (n : Nat) : Nat :=
  round_half_even n (2 ^ excess_bits 64 n) * 2 ^ excess_bits 64 n

/-- The number of binary digits of `n`, by halving; the fuel `n` in
`bit_length n n` is enough for every `n`. -/
def bit_length : Nat → Nat → Nat
  | 0, _ => 0
  | fuel + 1, n => if n = 0 then 0 else bit_length fuel (n / 2) + 1

/-- The binary exponent of the positive quotient `n / d`: the integer `e` with
`2 ^ e ≤ n / d < 2 ^ (e + 1)`. The difference of the bit lengths is `e` or
`e + 1`. -/
def log2_floor (n d : Nat) : Int :=
  let e : Int := (bit_length n n : Int) - (bit_length d d : Int)
  if (if 0 ≤ e then d * 2 ^ e.toNat ≤ n else d ≤ n * 2 ^ (-e).toNat) then e else e - 1

/-- The binary exponent of the last place of the `float` nearest to `x`: a
significand of 24 bits, and the fixed last place `2 ^ (-149)` of the subnormal
numbers below `2 ^ (-126)`. -/
def float_shift (x : ℚ) : Int := max (log2_floor x.num.natAbs x.den) (-126) - 23

/-- The rounding of a real number to `float` (IEEE 754 binary32, to nearest, a tie
to the even significand). Every result of an arithmetic operation on `float`
values is the exact result rounded in this way. Overflow to an infinity is not
modelled: the model covers the runs in which every value is finite. -/
def to_float (x : ℚ) : ℚ :=
  if x = 0 then 0
  else
    let v : ℚ :=
      ((round_half_even (x.num.natAbs * 2 ^ (-(float_shift x)).toNat)
          (x.den * 2 ^ (float_shift x).toNat) * 2 ^ (float_shift x).toNat : Nat) : ℚ) /
        ((2 ^ (-(float_shift x)).toNat : Nat) : ℚ)
    if x < 0 then -v else v

/-- A sum that a loop accumulates in a `float` variable that starts at `acc`: each
addition is rounded. -/
def float_sum (acc : ℚ) (l : List ℚ) : ℚ := l.foldl (fun c x => to_float (c + x)) acc

/-- Splits an optional sign off the front of a numeral. -/
def splitSign : List Char → Bool × List Char
  | '-' :: r => (true, r)
  | '+' :: r => (false, r)
  | s => (false, s)

/-- The function `std::stoull(s)` in base ten: leading white space is skipped, an
optional sign is accepted (a minus sign negates modulo `2 ^ 64`), then the longest
run of digits is converted. No digit raises `std::invalid_argument`; a magnitude
that does not fit 64 bits raises `std::out_of_range`. -/
def stoull (s : List Char) : Except Fault Nat :=
  let s1 := s.dropWhile isspace
  let sg := splitSign s1
  let ds := sg.2.takeWhile Char.isDigit
  if ds = [] then .error .invalid_argument
  else if U64 ≤ decVal ds then .error .out_of_range
  else .ok (if sg.1 then (U64 - decVal ds) % U64 else decVal ds)

/-! ## `get_io_stats` -/

/-- The four cumulative counters of `struct IOStats`. -/
structure IOStats where
  bytes_read : Nat
  bytes_written : Nat
  read_ops : Nat
  write_ops : Nat
  deriving DecidableEq, Repr

/-- The expression `line.substr(line.find(":") + 1)`; `npos + 1` wraps to `0`. -/
def afterColon (line : List Char) : List Char :=
  match find [':'] line with
  | some i => line.drop (i + 1)
  | none => line

/-- One iteration of the `while (std::getline(io_stat, line))` loop of
`get_io_stats`. -/
def get_io_stats_line (stats : IOStats) (line : List Char) : Except Fault IOStats :=
  if find "read_bytes:".toList line ≠ none then do
    let v ← stoull (afterColon line)
    pure { stats with bytes_read := v }
  else if find "write_bytes:".toList line ≠ none then do
    let v ← stoull (afterColon line)
    pure { stats with bytes_written := v }
  else if find "syscr:".toList line ≠ none then do
    let v ← stoull (afterColon line)
    pure { stats with read_ops := v }
  else if find "syscw:".toList line ≠ none then do
    let v ← stoull (afterColon line)
    pure { stats with write_ops := v }
  else pure stats

/-- The function `get_io_stats`, on the content of `/proc/self/io` (`none` when the
file cannot be opened). -/
def get_io_stats (proc_self_io : Option (List Char)) : Except Fault IOStats :=
  match proc_self_io with
  | none => .ok ⟨0, 0, 0, 0⟩
  | some text => (getlines text).foldlM get_io_stats_line ⟨0, 0, 0, 0⟩

/-! ## `get_core_cpu_time` -/

/-- The eight `unsigned long` variables `user, nice, system, idle, iowait, irq,
softirq, steal` of `get_core_cpu_time`. They are declared without initialiser, so
their content before extraction is whatever the caller of the model supplies. -/
structure StatFields where
  user : Nat
  nice : Nat
  system : Nat
  idle : Nat
  iowait : Nat
  irq : Nat
  softirq : Nat
  steal : Nat
  deriving DecidableEq, Repr

/-- An input string stream: the characters not yet consumed and the fail bit. -/
structure IStream where
  rest : List Char
  failed : Bool
  deriving DecidableEq, Repr

/-- The operation `iss >> word` for a `std::string`: white space is skipped and the
run of characters up to the next white space is taken; nothing to take sets the
fail bit. -/
def extract_word (st : IStream) : List Char × IStream :=
  if st.failed then ([], st)
  else
    let s1 := st.rest.dropWhile isspace
    let w := s1.takeWhile (fun c => !isspace c)
    (w, ⟨s1.dropWhile (fun c => !isspace c), w.isEmpty⟩)

/-- The operation `iss >> x` for an `unsigned long` variable holding `old`. A stream
that already failed, or that ends while white space is skipped, leaves the variable
untouched; a field without a digit stores `0`, a field too large stores the largest
value, and both set the fail bit. -/
def extract_ulong (st : IStream) (old : Nat) : Nat × IStream :=
  if st.failed then (old, st)
  else
    match st.rest.dropWhile isspace with
    | [] => (old, ⟨[], true⟩)
    | c :: cs =>
      let sg := splitSign (c :: cs)
      let ds := sg.2.takeWhile Char.isDigit
      let rest := sg.2.dropWhile Char.isDigit
      if ds = [] then (0, ⟨sg.2, true⟩)
      else if U64 ≤ decVal ds then (U64 - 1, ⟨rest, true⟩)
      else (if sg.1 then (U64 - decVal ds) % U64 else decVal ds, ⟨rest, false⟩)

/-- The statement `iss >> cpu_label >> user >> nice >> system >> idle >> iowait >>
irq >> softirq >> steal` on one line; `junk` is the prior content of the
variables. -/
def parse_stat_line (junk : StatFields) (line : List Char) : StatFields :=
  let s0 := (extract_word ⟨line, false⟩).2
  let r1 := extract_ulong s0 junk.user
  let r2 := extract_ulong r1.2 junk.nice
  let r3 := extract_ulong r2.2 junk.system
  let r4 := extract_ulong r3.2 junk.idle
  let r5 := extract_ulong r4.2 junk.iowait
  let r6 := extract_ulong r5.2 junk.irq
  let r7 := extract_ulong r6.2 junk.softirq
  let r8 := extract_ulong r7.2 junk.steal
  ⟨r1.1, r2.1, r3.1, r4.1, r5.1, r6.1, r7.1, r8.1⟩

/-- The function `std::to_string` on an `int`. -/
def to_string (n : Int) : List Char := (toString n).toList

/-- The string `"cpu" + std::to_string(core_id)` that `get_core_cpu_time` searches
for. -/
def cpu_label_of (core_id : Int) : List Char := "cpu".toList ++ to_string core_id

/-- The function `get_core_cpu_time`, on the content of `/proc/stat` (`none` when
the file cannot be opened): the first line on which `line.find(...) == 0` holds is
parsed, and the pair `(user + nice, system + irq + softirq)` of `unsigned long` sums
is returned, each sum converted to `double`. -/
def get_core_cpu_time (junk : StatFields) (proc_stat : Option (List Char))
    (core_id : Int) : ℚ × ℚ :=
  match proc_stat with
  | none => (0, 0)
  | some text =>
    match (getlines text).find? (fun line => find (cpu_label_of core_id) line = some 0) with
    | none => (0, 0)
    | some line =>
      let f := parse_stat_line junk line
      (((to_double ((f.user + f.nice) % U64) : Nat) : ℚ),
        ((to_double ((f.system + f.irq + f.softirq) % U64) : Nat) : ℚ))

/-! ## Data of the profiler -/

/-- The type `struct timeval`. -/
structure timeval where
  tv_sec : Int
  tv_usec : Int
  deriving DecidableEq, Repr

/-- The type `struct timespec`. -/
structure timespec where
  tv_sec : Int
  tv_nsec : Int
  deriving DecidableEq, Repr

/-- The two fields of `struct rusage` that the profiler reads. -/
structure rusage where
  ru_utime : timeval
  ru_stime : timeval
  deriving DecidableEq, Repr

/-- The helper `toSeconds`. -/
def toSeconds (tv : timeval) : ℚ := (tv.tv_sec : ℚ) + (tv.tv_usec : ℚ) / 1000000

/-- The helper `timespecToSeconds`. -/
def timespecToSeconds (ts : timespec) : ℚ := (ts.tv_sec : ℚ) + (ts.tv_nsec : ℚ) / 1000000000

/-- The type `struct PerfStats`. -/
structure PerfStats where
  wall_time_ms : ℚ
  user_time_sec : ℚ
  system_time_sec : ℚ
  cpu_time_sec : ℚ
  io_wait_time_ms : ℚ
  io_bytes_read : ℚ
  io_bytes_written : ℚ
  core_user_times : List ℚ
  core_system_times : List ℚ
  core_cpu_times : List ℚ
  process_cpu_time_sec : ℚ
  deriving DecidableEq, Repr

/-- The constructor `PerfStats()`: every number is `0`, every vector is empty. -/
def PerfStats.init : PerfStats :=
  { wall_time_ms := 0, user_time_sec := 0, system_time_sec := 0, cpu_time_sec := 0,
    io_wait_time_ms := 0, io_bytes_read := 0, io_bytes_written := 0,
    core_user_times := [], core_system_times := [], core_cpu_times := [],
    process_cpu_time_sec := 0 }

/-- The type `struct CoreEventFds`: one descriptor per monitored core and counter
kind, `-1` for a counter that is not open. -/
structure CoreEventFds where
  user_time_fds : List Int
  system_time_fds : List Int
  io_wait_fds : List Int
  cpu_cycles_fds : List Int
  cpu_instructions_fds : List Int
  cpu_ref_cycles_fds : List Int
  deriving DecidableEq, Repr

/-- The type `struct CoreTimespec`. -/
structure CoreTimespec where
  start_times : List timespec
  deriving DecidableEq, Repr

/-- A `std::unordered_map<std::string, α>`. -/
abbrev PhaseMap (α : Type) := String → Option α

/-- The empty map. -/
def PhaseMap.empty {α : Type} : PhaseMap α := fun _ => none

/-- The assignment `m[key] = v`. -/
def PhaseMap.insert {α : Type} (m : PhaseMap α) (key : String) (v : α) : PhaseMap α :=
  fun k => if k = key then some v else m k

/-- The call `m.erase(it)` for the iterator of `key`. -/
def PhaseMap.erase {α : Type} (m : PhaseMap α) (key : String) : PhaseMap α :=
  fun k => if k = key then none else m k

/-- The data members of `class PerformanceMonitor`. A `steady_clock::time_point` is
its count of nanoseconds. -/
structure PerformanceMonitor where
  phase_start_process_time : PhaseMap timespec
  phase_start_times : PhaseMap Int
  phase_start_rusage : PhaseMap rusage
  phase_start_io : PhaseMap IOStats
  phase_start_core_times : PhaseMap (List (ℚ × ℚ))
  phase_core_fds : PhaseMap CoreEventFds
  monitored_cores : List Int
  phase_core_timespec : PhaseMap CoreTimespec

/-- The six `setup_*_counter` members. -/
inductive CounterKind
  | user_time
  | system_time
  | io_wait
  | cpu_cycles
  | cpu_instructions
  | cpu_ref_cycles
  deriving DecidableEq, Repr

/-- The three `PERF_EVENT_IOC_*` requests in use. -/
inductive IoctlReq
  | RESET
  | ENABLE
  | DISABLE
  deriving DecidableEq, Repr

/-- The messages written to `std::cerr`. -/
inductive Warning
  | time_not_found
  | rusage_not_found
  | io_not_found
  | core_times_not_found
  | core_fds_not_found
  | process_cputime_failed
  | perf_open_failed (kind : CounterKind) (core_id : Int)
  deriving DecidableEq, Repr

/-- What the profiler does to the outside world, in program order. -/
inductive Event
  | warning (w : Warning)
  | perf_event_open (kind : CounterKind) (core_id : Int) (fd : Int)
  | ioctl (fd : Int) (req : IoctlReq)
  | read (fd : Int) (nbytes : Nat) (ret : Int)
  | close (fd : Int)
  deriving DecidableEq, Repr

/-- The local `struct read_format` of `end_phase`. -/
structure read_format where
  value : Nat
  time_enabled : Nat
  time_running : Nat
  deriving DecidableEq, Repr

/-- Everything the operating system answers during one `start_phase` or `end_phase`
call. Per-core answers are indexed by the position of the core in
`monitored_cores`. -/
structure Env where
  /-- The value `steady_clock::now()`, in nanoseconds. -/
  now : Int
  /-- The result of `getrusage(RUSAGE_SELF, _)`. -/
  self_rusage : rusage
  /-- The content of `/proc/self/io`. -/
  proc_self_io : Option (List Char)
  /-- The result of `clock_gettime(CLOCK_PROCESS_CPUTIME_ID, _)`, `none` when the
  call does not return `0`. -/
  process_cputime : Option timespec
  /-- The content of `/proc/stat` when it is opened for the `i`-th core. -/
  proc_stat : Nat → Option (List Char)
  /-- The prior content of the local variables of the `i`-th `get_core_cpu_time`
  call. -/
  junk : Nat → StatFields
  /-- The result of `clock_gettime(CLOCK_MONOTONIC, _)` for the `i`-th core. -/
  monotonic : Nat → timespec
  /-- The descriptor (or `-1`) that `perf_event_open` returns for a counter kind
  and the `i`-th core. -/
  perf_open : CounterKind → Nat → Int
  /-- The call `read(fd, buf, nbytes)`: its return value and the record left in
  the buffer. -/
  read : Int → Nat → Int × read_format

/-- Subscript `v[i]` of a `std::vector`; out of bounds is undefined behaviour. -/
def idx {α : Type} (v : List α) (i : Nat) : Except Fault α :=
  match v[i]? with
  | some x => .ok x
  | none => .error .undefined

/-- The call `v.resize(n, x)`. -/
def resize {α : Type} (v : List α) (n : Nat) (x : α) : List α :=
  v.take n ++ List.replicate (n - v.length) x

/-- Conversion of a `double` to `uint64_t`: truncation toward zero, undefined when
the truncated value is not representable. -/
def double_to_u64 (x : ℚ) : Except Fault Nat :=
  if -1 < x ∧ x < (U64 : ℚ) then .ok x.floor.toNat else .error .undefined

/-- Subtraction of two `uint64_t` values. -/
def u64_sub (a b : Nat) : Nat := (((a : Int) - (b : Int)) % (U64 : Int)).toNat

/-- The constructor of `PerformanceMonitor`; `detected` is what
`detect_active_cores()` returns. -/
def PerformanceMonitor.create (detected : List Int) (cores : List Int) : PerformanceMonitor :=
  { phase_start_process_time := PhaseMap.empty
    phase_start_times := PhaseMap.empty
    phase_start_rusage := PhaseMap.empty
    phase_start_io := PhaseMap.empty
    phase_start_core_times := PhaseMap.empty
    phase_core_fds := PhaseMap.empty
    monitored_cores :=
      if cores.isEmpty then (if detected.isEmpty then [0] else detected) else cores
    phase_core_timespec := PhaseMap.empty }

/-- The loop `for (int core_id : monitored_cores)
v.push_back(get_core_cpu_time(core_id))`, used by `start_phase` and `end_phase`. -/
def core_times_now (env : Env) (monitored_cores : List Int) : List (ℚ × ℚ) :=
  monitored_cores.enum.map
    (fun p => get_core_cpu_time (env.junk p.1) (env.proc_stat p.1) p.2)

/-! ## `PerformanceMonitor::start_phase` -/

/-- A call `setup_*_counter(core_id)` for the `i`-th core: `perf_event_open`, and a
warning when it returns `-1`. -/
def setup_counter (env : Env) (kind : CounterKind) (i : Nat) (core_id : Int) :
    Int × List Event :=
  let fd := env.perf_open kind i
  (fd, Event.perf_event_open kind core_id fd ::
    (if fd = -1 then [Event.warning (Warning.perf_open_failed kind core_id)] else []))

/-- The block `if (fd != -1) { ioctl(fd, RESET); ioctl(fd, ENABLE); }`. -/
def activate (fd : Int) : List Event :=
  if fd ≠ -1 then [Event.ioctl fd IoctlReq.RESET, Event.ioctl fd IoctlReq.ENABLE] else []

/-- One iteration of the loop `for (size_t i = 0; i < monitored_cores.size(); ++i)`
that sets the counters up: user time, system time, I/O wait and instructions; the
cycle and reference-cycle blocks are commented out in the source. -/
def start_phase_core (env : Env) (monitored_cores : List Int)
    (st : CoreEventFds × List Event) (i : Nat) : Except Fault (CoreEventFds × List Event) := do
  let core_id ← idx monitored_cores i
  let u := setup_counter env CounterKind.user_time i core_id
  let fds := { st.1 with user_time_fds := st.1.user_time_fds.set i u.1 }
  let ufd ← idx fds.user_time_fds i
  let ev := st.2 ++ u.2 ++ activate ufd
  let sy := setup_counter env CounterKind.system_time i core_id
  let fds := { fds with system_time_fds := fds.system_time_fds.set i sy.1 }
  let sfd ← idx fds.system_time_fds i
  let ev := ev ++ sy.2 ++ activate sfd
  let w := setup_counter env CounterKind.io_wait i core_id
  let fds := { fds with io_wait_fds := fds.io_wait_fds.set i w.1 }
  let wfd ← idx fds.io_wait_fds i
  let ev := ev ++ w.2 ++ activate wfd
  let ins := setup_counter env CounterKind.cpu_instructions i core_id
  let fds := { fds with cpu_instructions_fds := fds.cpu_instructions_fds.set i ins.1 }
  let ifd ← idx fds.cpu_instructions_fds i
  let ev := ev ++ ins.2 ++ activate ifd
  pure (fds, ev)

/-- The member `start_phase(phase_name)`: the new monitor and the events, or the
exception that `get_io_stats` raises. -/
def start_phase (env : Env) (m : PerformanceMonitor) (phase_name : String) :
    Except Fault (PerformanceMonitor × List Event) := do
  let n := m.monitored_cores.length
  let m := { m with phase_start_times := m.phase_start_times.insert phase_name env.now }
  let m := { m with phase_start_rusage := m.phase_start_rusage.insert phase_name env.self_rusage }
  let io ← get_io_stats env.proc_self_io
  let m := { m with phase_start_io := m.phase_start_io.insert phase_name io }
  let (m, ev) :=
    match env.process_cputime with
    | some process_ts =>
      ({ m with phase_start_process_time :=
          m.phase_start_process_time.insert phase_name process_ts }, [])
    | none => (m, [Event.warning Warning.process_cputime_failed])
  let core_start_times := core_times_now env m.monitored_cores
  let m := { m with phase_start_core_times :=
    m.phase_start_core_times.insert phase_name core_start_times }
  let start_times := (List.range n).foldl (fun v i => v.set i (env.monotonic i))
    (resize [] n (⟨0, 0⟩ : timespec))
  let m := { m with phase_core_timespec :=
    m.phase_core_timespec.insert phase_name ⟨start_times⟩ }
  let core_fds : CoreEventFds :=
    { user_time_fds := resize [] n (-1)
      system_time_fds := resize [] n (-1)
      io_wait_fds := resize [] n (-1)
      cpu_cycles_fds := resize [] n (-1)
      cpu_instructions_fds := resize [] n (-1)
      cpu_ref_cycles_fds := resize [] n (-1) }
  let r ← (List.range n).foldlM (start_phase_core env m.monitored_cores) (core_fds, ev)
  pure ({ m with phase_core_fds := m.phase_core_fds.insert phase_name r.1 }, r.2)

/-! ## `PerformanceMonitor::end_phase` -/

/-- The variables that `end_phase` updates: the result under construction, the
monitor, and the events so far. -/
structure EndState where
  stats : PerfStats
  monitor : PerformanceMonitor
  events : List Event

/-- Adds events to the record. -/
def EndState.log (s : EndState) (ev : List Event) : EndState :=
  { s with events := s.events ++ ev }

/-- Wall clock block: `duration_cast<milliseconds>(end_time - start).count()`. -/
def end_wall_clock (env : Env) (phase_name : String) (time_it : Option Int)
    (s : EndState) : EndState :=
  match time_it with
  | none => s.log [Event.warning Warning.time_not_found]
  | some start =>
    { s with
      stats := { s.stats with wall_time_ms := ((Int.tdiv (env.now - start) 1000000 : Int) : ℚ) }
      monitor := { s.monitor with
        phase_start_times := s.monitor.phase_start_times.erase phase_name } }

/-- The `rusage` block. -/
def end_rusage (env : Env) (phase_name : String) (rusage_it : Option rusage)
    (s : EndState) : EndState :=
  match rusage_it with
  | none => s.log [Event.warning Warning.rusage_not_found]
  | some start =>
    let user_time_sec := toSeconds env.self_rusage.ru_utime - toSeconds start.ru_utime
    let system_time_sec := toSeconds env.self_rusage.ru_stime - toSeconds start.ru_stime
    { s with
      stats := { s.stats with
        user_time_sec := user_time_sec
        system_time_sec := system_time_sec
        cpu_time_sec := user_time_sec + system_time_sec }
      monitor := { s.monitor with
        phase_start_rusage := s.monitor.phase_start_rusage.erase phase_name } }

/-- The heuristic `if (total_io_bytes > 0) { ... }`: the volume at 100 MB/s, in
milliseconds, limited to nine tenths of the wall time when that is positive. -/
def estimate_io_wait (stats : PerfStats) (total_io_bytes : Nat) : PerfStats :=
  if total_io_bytes > 0 then
    let io_throughput : ℚ := 100 * 1024 * 1024
    let stats := { stats with io_wait_time_ms := ((total_io_bytes : ℚ) / io_throughput) * 1000 }
    if stats.wall_time_ms > 0 then
      { stats with io_wait_time_ms := min stats.io_wait_time_ms (stats.wall_time_ms * (9 / 10)) }
    else stats
  else stats

/-- The I/O block. Each `uint64_t` difference is converted to the `double` field
that receives it; the sum of the two fields is a `double` sum, rounded once more,
and is converted back to `uint64_t`. The local `total_io_ops` of the source is
computed and never used; it is left out. -/
def end_io (env : Env) (phase_name : String) (io_it : Option IOStats)
    (s : EndState) : Except Fault EndState :=
  match io_it with
  | none => pure (s.log [Event.warning Warning.io_not_found])
  | some start => do
    let end_io ← get_io_stats env.proc_self_io
    let io_bytes_read : Nat := to_double (u64_sub end_io.bytes_read start.bytes_read)
    let io_bytes_written : Nat := to_double (u64_sub end_io.bytes_written start.bytes_written)
    let stats := { s.stats with
      io_bytes_read := (io_bytes_read : ℚ)
      io_bytes_written := (io_bytes_written : ℚ) }
    let total_io_bytes ←
      double_to_u64 ((to_double (io_bytes_read + io_bytes_written) : Nat) : ℚ)
    let stats := estimate_io_wait stats total_io_bytes
    pure { s with
      stats := stats
      monitor := { s.monitor with
        phase_start_io := s.monitor.phase_start_io.erase phase_name } }

/-- The process clock block. -/
def end_process_time (env : Env) (phase_name : String) (process_time_it : Option timespec)
    (s : EndState) : EndState :=
  match process_time_it with
  | none => s
  | some start =>
    let stats :=
      match env.process_cputime with
      | some end_process_ts =>
        { s.stats with process_cpu_time_sec :=
            timespecToSeconds end_process_ts - timespecToSeconds start }
      | none => s.stats
    { s with
      stats := stats
      monitor := { s.monitor with
        phase_start_process_time := s.monitor.phase_start_process_time.erase phase_name } }

/-- One iteration of the loop that turns tick pairs into seconds
(`JIFFIES_PER_SEC = 100`). -/
def end_core_times_step (core_end_times start : List (ℚ × ℚ)) (stats : PerfStats) (i : Nat) :
    Except Fault PerfStats := do
  let e ← idx core_end_times i
  let b ← idx start i
  let user_delta := e.1 - b.1
  let system_delta := e.2 - b.2
  pure { stats with
    core_user_times := stats.core_user_times ++ [user_delta / 100]
    core_system_times := stats.core_system_times ++ [system_delta / 100] }

/-- The per-core tick block. -/
def end_core_times (env : Env) (phase_name : String)
    (core_times_it : Option (List (ℚ × ℚ))) (s : EndState) : Except Fault EndState :=
  match core_times_it with
  | none => pure (s.log [Event.warning Warning.core_times_not_found])
  | some start => do
    let n := s.monitor.monitored_cores.length
    let core_end_times := core_times_now env s.monitor.monitored_cores
    let stats ← (List.range n).foldlM (end_core_times_step core_end_times start) s.stats
    pure { s with
      stats := stats
      monitor := { s.monitor with
        phase_start_core_times := s.monitor.phase_start_core_times.erase phase_name } }

/-- Reading the user time counter of core `i`: a full record replaces
`core_user_times[i]` by `rf.value / 1e9`; the descriptor is closed in any case. -/
def read_user_time (env : Env) (fd : Int) (i : Nat) (s : EndState) : EndState :=
  if fd ≠ -1 then
    let r := env.read fd 24
    let s := s.log [Event.read fd 24 r.1]
    let s :=
      if r.1 = 24 then
        let s := s.log [Event.ioctl fd IoctlReq.DISABLE]
        let core_user_time : ℚ := (r.2.value : ℚ) / 1000000000
        if i < s.stats.core_user_times.length then
          { s with stats := { s.stats with
              core_user_times := s.stats.core_user_times.set i core_user_time } }
        else s
      else s
    s.log [Event.close fd]
  else s

/-- Reading the system time counter of core `i`. -/
def read_system_time (env : Env) (fd : Int) (i : Nat) (s : EndState) : EndState :=
  if fd ≠ -1 then
    let r := env.read fd 24
    let s := s.log [Event.read fd 24 r.1]
    let s :=
      if r.1 = 24 then
        let s := s.log [Event.ioctl fd IoctlReq.DISABLE]
        let core_system_time : ℚ := (r.2.value : ℚ) / 1000000000
        if i < s.stats.core_system_times.length then
          { s with stats := { s.stats with
              core_system_times := s.stats.core_system_times.set i core_system_time } }
        else s
      else s
    s.log [Event.close fd]
  else s

/-- The statement `core_cpu_times[i] = core_user_times[i] + core_system_times[i]`
under its guard `i < core_cpu_times.size()`. -/
def update_core_cpu (i : Nat) (s : EndState) : Except Fault EndState :=
  if i < s.stats.core_cpu_times.length then do
    let u ← idx s.stats.core_user_times i
    let sy ← idx s.stats.core_system_times i
    pure { s with stats := { s.stats with
      core_cpu_times := s.stats.core_cpu_times.set i (u + sy) } }
  else pure s

/-- Reading the I/O wait counter of core `i` into a single `uint64_t count` (eight
bytes requested): a positive count adds `count * 10.0` to `io_wait_time_ms`. -/
def read_io_wait (env : Env) (fd : Int) (s : EndState) : EndState :=
  if fd ≠ -1 then
    let r := env.read fd 8
    let s := s.log [Event.read fd 8 r.1]
    let s :=
      if r.1 = 8 then
        let s := s.log [Event.ioctl fd IoctlReq.DISABLE]
        let count := r.2.value
        if count > 0 then
          { s with stats := { s.stats with
              io_wait_time_ms := s.stats.io_wait_time_ms + (count : ℚ) * 10 } }
        else s
      else s
    s.log [Event.close fd]
  else s

/-- Reading the cycle counter of core `i`: with `time_enabled > 0` and a ratio
`time_running / time_enabled` below one, `core_cpu_times[i]` is scaled by it. -/
def read_cpu_cycles (env : Env) (fd : Int) (i : Nat) (s : EndState) : Except Fault EndState :=
  if fd ≠ -1 then do
    let r := env.read fd 24
    let s := s.log [Event.read fd 24 r.1]
    let s ←
      if r.1 = 24 then do
        let s := s.log [Event.ioctl fd IoctlReq.DISABLE]
        if r.2.time_enabled > 0 then do
          let scaling_factor : ℚ := (r.2.time_running : ℚ) / (r.2.time_enabled : ℚ)
          if scaling_factor < 1 ∧ i < s.stats.core_cpu_times.length then do
            let c ← idx s.stats.core_cpu_times i
            pure { s with stats := { s.stats with
              core_cpu_times := s.stats.core_cpu_times.set i (c * scaling_factor) } }
          else pure s
        else pure s
      else pure s
    pure (s.log [Event.close fd])
  else pure s

/-- Reading a counter whose value is not used (instructions, reference cycles). -/
def read_unused (env : Env) (fd : Int) (s : EndState) : EndState :=
  if fd ≠ -1 then
    let r := env.read fd 24
    let s := s.log [Event.read fd 24 r.1]
    let s := if r.1 = 24 then s.log [Event.ioctl fd IoctlReq.DISABLE] else s
    s.log [Event.close fd]
  else s

/-- One iteration of the loop over the monitored cores in the perf event block. -/
def end_phase_core (env : Env) (core_fds : CoreEventFds) (s : EndState) (i : Nat) :
    Except Fault EndState := do
  let ufd ← idx core_fds.user_time_fds i
  let s := read_user_time env ufd i s
  let sfd ← idx core_fds.system_time_fds i
  let s := read_system_time env sfd i s
  let s ← update_core_cpu i s
  let wfd ← idx core_fds.io_wait_fds i
  let s := read_io_wait env wfd s
  let cfd ← idx core_fds.cpu_cycles_fds i
  let s ← read_cpu_cycles env cfd i s
  let ifd ← idx core_fds.cpu_instructions_fds i
  let s := read_unused env ifd s
  let rfd ← idx core_fds.cpu_ref_cycles_fds i
  let s := read_unused env rfd s
  pure s

/-- The perf event block. -/
def end_core_fds (env : Env) (phase_name : String) (core_fds_it : Option CoreEventFds)
    (s : EndState) : Except Fault EndState :=
  match core_fds_it with
  | none => pure (s.log [Event.warning Warning.core_fds_not_found])
  | some core_fds => do
    let n := s.monitor.monitored_cores.length
    let s ← (List.range n).foldlM (end_phase_core env core_fds) s
    pure { s with monitor := { s.monitor with
      phase_core_fds := s.monitor.phase_core_fds.erase phase_name } }

/-- The final clean-up of `phase_core_timespec`. -/
def end_core_timespec (phase_name : String) (core_timespec_it : Option CoreTimespec)
    (s : EndState) : EndState :=
  match core_timespec_it with
  | none => s
  | some _ =>
    { s with monitor := { s.monitor with
      phase_core_timespec := s.monitor.phase_core_timespec.erase phase_name } }

/-- The member `end_phase(phase_name)`: the statistics, the new monitor and the
events, or the fault that stops it. The seven `find` calls come first, as in the
source. -/
def end_phase (env : Env) (m : PerformanceMonitor) (phase_name : String) :
    Except Fault (PerfStats × PerformanceMonitor × List Event) := do
  let s : EndState := ⟨PerfStats.init, m, []⟩
  let time_it := m.phase_start_times phase_name
  let rusage_it := m.phase_start_rusage phase_name
  let io_it := m.phase_start_io phase_name
  let core_fds_it := m.phase_core_fds phase_name
  let core_times_it := m.phase_start_core_times phase_name
  let core_timespec_it := m.phase_core_timespec phase_name
  let process_time_it := m.phase_start_process_time phase_name
  let s := end_wall_clock env phase_name time_it s
  let s := end_rusage env phase_name rusage_it s
  let s ← end_io env phase_name io_it s
  let s := end_process_time env phase_name process_time_it s
  let s ← end_core_times env phase_name core_times_it s
  let s := { s with stats := { s.stats with
    core_cpu_times := resize s.stats.core_cpu_times s.monitor.monitored_cores.length 0 } }
  let s ← end_core_fds env phase_name core_fds_it s
  let s := end_core_timespec phase_name core_timespec_it s
  pure (s.stats, s.monitor, s.events)

/-! ## Well-formed lines of the per-CPU table -/

/-- A numeric field of a `/proc/stat` line: white space `w`, not empty, followed by
a decimal numeral `d`, not empty, whose value fits an `unsigned long`. -/
structure IsField (w d : List Char) : Prop where
  ws_ne : w ≠ []
  ws : ∀ c ∈ w, isspace c = true
  digits_ne : d ≠ []
  digits : ∀ c ∈ d, c.isDigit = true
  fits : decVal d < U64

/-- The text of a table line: a label, numeric fields given as pairs of white space
and numeral, and whatever follows the last field. -/
def stat_line (label : List Char) (fields : List (List Char × List Char))
    (rest : List Char) : List Char :=
  label ++ fields.foldr (fun f acc => f.1 ++ (f.2 ++ acc)) rest

/-! ## Closed forms of the loops of `end_phase`

These definitions do not embed source code: they name the values that the loops of
`end_phase` are proved to compute. -/

/-- First `k` entries of `a`, the remaining entries of `b`. -/
def splice {α : Type} (k : Nat) (a b : List α) : List α := a.take k ++ b.drop k

/-- Tick deltas of the user column, in seconds. -/
def tick_user_times (ends starts : List (ℚ × ℚ)) : List ℚ :=
  List.zipWith (fun e b => (e.1 - b.1) / 100) ends starts

/-- Tick deltas of the system column, in seconds. -/
def tick_system_times (ends starts : List (ℚ × ℚ)) : List ℚ :=
  List.zipWith (fun e b => (e.2 - b.2) / 100) ends starts

/-- A counter was opened and its read delivered the number of bytes asked for. -/
def counter_read_ok (env : Env) (fd : Int) (nbytes : Nat) : Prop :=
  fd ≠ -1 ∧ (env.read fd nbytes).1 = (nbytes : Int)

instance (env : Env) (fd : Int) (nbytes : Nat) : Decidable (counter_read_ok env fd nbytes) := by
  unfold counter_read_ok; infer_instance

/-- Per-core time after the counter block: the counter value in seconds when the
24-byte record was read, the tick value otherwise. -/
def counter_seconds (env : Env) (fd : Int) (tick : ℚ) : ℚ :=
  if counter_read_ok env fd 24 then ((env.read fd 24).2.value : ℚ) / 1000000000 else tick

/-- Per-core total after the cycle counter block. -/
def cycles_scaled (env : Env) (fd : Int) (c : ℚ) : ℚ :=
  if counter_read_ok env fd 24 ∧ 0 < (env.read fd 24).2.time_enabled ∧
      ((env.read fd 24).2.time_running : ℚ) / ((env.read fd 24).2.time_enabled : ℚ) < 1 then
    c * (((env.read fd 24).2.time_running : ℚ) / ((env.read fd 24).2.time_enabled : ℚ))
  else c

/-- Milliseconds that the I/O wait counter of one core adds. -/
def migration_ms (env : Env) (fd : Int) : ℚ :=
  if counter_read_ok env fd 8 ∧ 0 < (env.read fd 8).2.value then
    ((env.read fd 8).2.value : ℚ) * 10
  else 0

/-- Events of one counter slot in `end_phase`. -/
def counter_events (env : Env) (fd : Int) (nbytes : Nat) : List Event :=
  if fd ≠ -1 then
    [Event.read fd nbytes (env.read fd nbytes).1] ++
      (if (env.read fd nbytes).1 = (nbytes : Int) then [Event.ioctl fd IoctlReq.DISABLE] else []) ++
      [Event.close fd]
  else []

/-- Events of one iteration of the perf event loop of `end_phase`. -/
def core_events (env : Env) (fds : CoreEventFds) (i : Nat) : List Event :=
  counter_events env (fds.user_time_fds.getD i (-1)) 24 ++
  counter_events env (fds.system_time_fds.getD i (-1)) 24 ++
  counter_events env (fds.io_wait_fds.getD i (-1)) 8 ++
  counter_events env (fds.cpu_cycles_fds.getD i (-1)) 24 ++
  counter_events env (fds.cpu_instructions_fds.getD i (-1)) 24 ++
  counter_events env (fds.cpu_ref_cycles_fds.getD i (-1)) 24

/-- The `double` that `end_phase` stores for a byte counter: the difference of the
end and the start value in `uint64_t`, converted. -/
def io_delta (ending start : Nat) : Nat := to_double (u64_sub ending start)

/-- The `double` sum of the two byte fields, which `end_phase` converts to
`uint64_t`. -/
def io_total (io0 io1 : IOStats) : Nat :=
  to_double (io_delta io1.bytes_read io0.bytes_read +
    io_delta io1.bytes_written io0.bytes_written)

/-- The volume estimate of the I/O wait, before any counter adds to it. -/
def io_wait_volume (wall_time_ms : ℚ) (total_io_bytes : Nat) : ℚ :=
  if total_io_bytes > 0 then
    if wall_time_ms > 0 then
      min (((total_io_bytes : ℚ) / (100 * 1024 * 1024)) * 1000) (wall_time_ms * (9 / 10))
    else ((total_io_bytes : ℚ) / (100 * 1024 * 1024)) * 1000
  else 0

/-- The process clock delta when both readings exist, the previous value `old`
otherwise. -/
def process_cpu_delta (start now : Option timespec) (old : ℚ) : ℚ :=
  match start, now with
  | some a, some b => timespecToSeconds b - timespecToSeconds a
  | _, _ => old

/-- The statistics that `end_phase` returns for a started phase: `start`, `ru`,
`io0`, `ticks` and `fds` are the stored snapshot, `io1` the I/O counters read at
the end. -/
def end_stats (env : Env) (m : PerformanceMonitor) (phase_name : String) (start : Int)
    (ru : rusage) (io0 io1 : IOStats) (ticks : List (ℚ × ℚ)) (fds : CoreEventFds) : PerfStats :=
  let ends := core_times_now env m.monitored_cores
  let U := List.zipWith (counter_seconds env) fds.user_time_fds (tick_user_times ends ticks)
  let S := List.zipWith (counter_seconds env) fds.system_time_fds (tick_system_times ends ticks)
  let rd := io_delta io1.bytes_read io0.bytes_read
  let wr := io_delta io1.bytes_written io0.bytes_written
  let wall : ℚ := ((Int.tdiv (env.now - start) 1000000 : Int) : ℚ)
  let user := toSeconds env.self_rusage.ru_utime - toSeconds ru.ru_utime
  let sys := toSeconds env.self_rusage.ru_stime - toSeconds ru.ru_stime
  { wall_time_ms := wall
    user_time_sec := user
    system_time_sec := sys
    cpu_time_sec := user + sys
    io_wait_time_ms :=
      io_wait_volume wall (io_total io0 io1) + (fds.io_wait_fds.map (migration_ms env)).sum
    io_bytes_read := (rd : ℚ)
    io_bytes_written := (wr : ℚ)
    core_user_times := U
    core_system_times := S
    core_cpu_times := List.zipWith (cycles_scaled env) fds.cpu_cycles_fds (List.zipWith (· + ·) U S)
    process_cpu_time_sec :=
      process_cpu_delta (m.phase_start_process_time phase_name) env.process_cputime 0 }

/-- The events of `end_phase` for a started phase. -/
def end_events (env : Env) (m : PerformanceMonitor) (fds : CoreEventFds) : List Event :=
  (List.range m.monitored_cores.length).flatMap (core_events env fds)

/-- The monitor after `end_phase(phase_name)` ran through all its blocks. -/
def erase_phase (m : PerformanceMonitor) (phase_name : String) : PerformanceMonitor :=
  { phase_start_process_time := m.phase_start_process_time.erase phase_name
    phase_start_times := m.phase_start_times.erase phase_name
    phase_start_rusage := m.phase_start_rusage.erase phase_name
    phase_start_io := m.phase_start_io.erase phase_name
    phase_start_core_times := m.phase_start_core_times.erase phase_name
    phase_core_fds := m.phase_core_fds.erase phase_name
    monitored_cores := m.monitored_cores
    phase_core_timespec := m.phase_core_timespec.erase phase_name }

/-- The snapshot that a started phase has in the maps of the monitor, with every
per-core vector as long as `monitored_cores`. -/
structure StartedWith (m : PerformanceMonitor) (phase_name : String) (start : Int)
    (ru : rusage) (io : IOStats) (ticks : List (ℚ × ℚ)) (fds : CoreEventFds) : Prop where
  time : m.phase_start_times phase_name = some start
  rusage : m.phase_start_rusage phase_name = some ru
  io : m.phase_start_io phase_name = some io
  core_times : m.phase_start_core_times phase_name = some ticks
  core_fds : m.phase_core_fds phase_name = some fds
  len_ticks : ticks.length = m.monitored_cores.length
  len_user : fds.user_time_fds.length = m.monitored_cores.length
  len_system : fds.system_time_fds.length = m.monitored_cores.length
  len_io_wait : fds.io_wait_fds.length = m.monitored_cores.length
  len_cycles : fds.cpu_cycles_fds.length = m.monitored_cores.length
  len_instructions : fds.cpu_instructions_fds.length = m.monitored_cores.length
  len_ref_cycles : fds.cpu_ref_cycles_fds.length = m.monitored_cores.length

/-- No map of the monitor has an entry for the phase. -/
structure NeverStarted (m : PerformanceMonitor) (phase_name : String) : Prop where
  time : m.phase_start_times phase_name = none
  rusage : m.phase_start_rusage phase_name = none
  io : m.phase_start_io phase_name = none
  process_time : m.phase_start_process_time phase_name = none
  core_times : m.phase_start_core_times phase_name = none
  core_fds : m.phase_core_fds phase_name = none
  core_timespec : m.phase_core_timespec phase_name = none

/-- The descriptors that the set-up loop of `start_phase` stores for `n` cores. -/
def opened_fds (env : Env) (n : Nat) : CoreEventFds :=
  { user_time_fds := (List.range n).map (env.perf_open CounterKind.user_time)
    system_time_fds := (List.range n).map (env.perf_open CounterKind.system_time)
    io_wait_fds := (List.range n).map (env.perf_open CounterKind.io_wait)
    cpu_cycles_fds := List.replicate n (-1)
    cpu_instructions_fds := (List.range n).map (env.perf_open CounterKind.cpu_instructions)
    cpu_ref_cycles_fds := List.replicate n (-1) }

/-- Events of one iteration of the set-up loop of `start_phase`. -/
def start_core_events (env : Env) (cores : List Int) (i : Nat) : List Event :=
  (setup_counter env CounterKind.user_time i (cores.getD i 0)).2 ++
  activate (env.perf_open CounterKind.user_time i) ++
  (setup_counter env CounterKind.system_time i (cores.getD i 0)).2 ++
  activate (env.perf_open CounterKind.system_time i) ++
  (setup_counter env CounterKind.io_wait i (cores.getD i 0)).2 ++
  activate (env.perf_open CounterKind.io_wait i) ++
  (setup_counter env CounterKind.cpu_instructions i (cores.getD i 0)).2 ++
  activate (env.perf_open CounterKind.cpu_instructions i)

/-- The monitor after `start_phase(phase_name)`, when `get_io_stats` returned
`io`. -/
def started_monitor (env : Env) (m : PerformanceMonitor) (phase_name : String)
    (io : IOStats) : PerformanceMonitor :=
  { phase_start_process_time :=
      match env.process_cputime with
      | some process_ts => m.phase_start_process_time.insert phase_name process_ts
      | none => m.phase_start_process_time
    phase_start_times := m.phase_start_times.insert phase_name env.now
    phase_start_rusage := m.phase_start_rusage.insert phase_name env.self_rusage
    phase_start_io := m.phase_start_io.insert phase_name io
    phase_start_core_times :=
      m.phase_start_core_times.insert phase_name (core_times_now env m.monitored_cores)
    phase_core_fds :=
      m.phase_core_fds.insert phase_name (opened_fds env m.monitored_cores.length)
    monitored_cores := m.monitored_cores
    phase_core_timespec := m.phase_core_timespec.insert phase_name
      ⟨(List.range m.monitored_cores.length).foldl (fun v i => v.set i (env.monotonic i))
        (resize [] m.monitored_cores.length (⟨0, 0⟩ : timespec))⟩ }

/-- The events of `start_phase`. -/
def start_events (env : Env) (m : PerformanceMonitor) : List Event :=
  (match env.process_cputime with
    | some _ => []
    | none => [Event.warning Warning.process_cputime_failed]) ++
  (List.range m.monitored_cores.length).flatMap (start_core_events env m.monitored_cores)

/-- All four counters fit 64 bits. -/
def IOStats.Fits (io : IOStats) : Prop :=
  io.bytes_read < U64 ∧ io.bytes_written < U64 ∧ io.read_ops < U64 ∧ io.write_ops < U64

/-! ## Concrete scenarios

One monitored core, phase `"A"`. At the start the process has read 4096 bytes and core
0 has accumulated 5 user ticks and 3 system ticks. -/

/-- Prior content of the parser variables: all zero. -/
def junk0 : StatFields := ⟨0, 0, 0, 0, 0, 0, 0, 0⟩

/-- The start of phase `"A"` when no counter can be opened. -/
def envStart : Env :=
  { now := 0
    self_rusage := ⟨⟨0, 0⟩, ⟨0, 0⟩⟩
    proc_self_io := some "rchar: 9\nread_bytes: 4096\nwrite_bytes: 0\n".toList
    process_cputime := some ⟨0, 0⟩
    proc_stat := fun _ => some "cpu  5 0 3 0 0 0 0 0\ncpu0 5 0 3 0 0 0 0 0\n".toList
    junk := fun _ => junk0
    monotonic := fun _ => ⟨0, 0⟩
    perf_open := fun _ _ => -1
    read := fun _ _ => (-1, ⟨0, 0, 0⟩) }

/-- The start of phase `"A"` when the user time counter opens as descriptor 3 and
the system time counter as descriptor 4. -/
def envStartCounters : Env :=
  { envStart with
    perf_open := fun kind _ =>
      match kind with
      | CounterKind.user_time => 3
      | CounterKind.system_time => 4
      | _ => -1 }

/-- A fresh monitor for core 0. -/
def mon0 : PerformanceMonitor := PerformanceMonitor.create [] [0]

/-- The monitor after `start_phase("A")` under `envStart`. -/
def monA : PerformanceMonitor :=
  { phase_start_process_time := PhaseMap.empty.insert "A" ⟨0, 0⟩
    phase_start_times := PhaseMap.empty.insert "A" 0
    phase_start_rusage := PhaseMap.empty.insert "A" ⟨⟨0, 0⟩, ⟨0, 0⟩⟩
    phase_start_io := PhaseMap.empty.insert "A" ⟨4096, 0, 0, 0⟩
    phase_start_core_times := PhaseMap.empty.insert "A" [(5, 3)]
    phase_core_fds := PhaseMap.empty.insert "A" ⟨[-1], [-1], [-1], [-1], [-1], [-1]⟩
    monitored_cores := [0]
    phase_core_timespec := PhaseMap.empty.insert "A" ⟨[⟨0, 0⟩]⟩ }

/-- The monitor after `start_phase("A")` under `envStartCounters`. -/
def monB : PerformanceMonitor :=
  { monA with phase_core_fds := PhaseMap.empty.insert "A" ⟨[3], [4], [-1], [-1], [-1], [-1]⟩ }

/-- An end of phase `"A"` two milliseconds later at which `/proc/self/io` cannot be
opened and `/proc/stat` has lost the line of core 0. -/
def envEndLost : Env :=
  { envStart with
    now := 2000000
    proc_self_io := none
    proc_stat := fun _ => some "cpu  7 0 4 0 0 0 0 0\ncpu1 7 0 4 0 0 0 0 0\n".toList }

/-- An end of phase `"A"` half a millisecond later, after one mebibyte was read. -/
def envEndFast : Env :=
  { envStart with
    now := 500000
    proc_self_io := some "rchar: 9\nread_bytes: 1052672\nwrite_bytes: 0\n".toList }

/-- An end of phase `"A"` two milliseconds later with all counters grown: 100 bytes
read, 20 written, 2 more user ticks and 1 more system tick; the user time counter
delivers 1.5 s, the read of the system time counter is short. -/
def envEndGrown : Env :=
  { envStart with
    now := 2000000
    proc_self_io := some "rchar: 9\nread_bytes: 4196\nwrite_bytes: 20\n".toList
    proc_stat := fun _ => some "cpu  7 0 4 0 0 0 0 0\ncpu0 7 0 4 0 0 0 0 0\n".toList
    read := fun fd nbytes =>
      if fd = 3 ∧ nbytes = 24 then (24, ⟨1500000000, 10, 10⟩) else (-1, ⟨0, 0, 0⟩) }

/-- A usual content of `/proc/self/io`: seven lines, the last one with the key
`cancelled_write_bytes`. -/
def procSelfIo : List Char :=
  ("rchar: 3000\nwchar: 2000\nsyscr: 30\nsyscw: 20\nread_bytes: 4096\n" ++
    "write_bytes: 8192\ncancelled_write_bytes: 512\n").toList

/-- A per-CPU table of a machine on which core 1 is offline: the lines of cores
0, 2 and 10 are present, no line is labelled `cpu1`. -/
def procStatNoCpu1 : List Char :=
  ("cpu  30 6 12 400 8 2 4 0 0 0\ncpu0 10 2 4 100 2 0 1 0 0 0\n" ++
    "cpu2 9 1 3 180 3 1 1 0 0 0\ncpu10 11 3 5 120 3 1 2 0 0 0\nintr 12345\n").toList

/-- A table of a machine with eleven cores, in the ascending order in which the
kernel writes it: the aggregate line, the lines of cores 0 to 10, then other
lines. -/
def procStatKernel : List Char :=
  ("cpu  3 3 3 3 3 3 3 3\ncpu0 4 4 4 4 4 4 4 4\ncpu1 2 2 2 2 2 2 2 2\n" ++
    "cpu2 1 1 1 1 1 1 1 1\ncpu3 1 1 1 1 1 1 1 1\ncpu4 1 1 1 1 1 1 1 1\n" ++
    "cpu5 1 1 1 1 1 1 1 1\ncpu6 1 1 1 1 1 1 1 1\ncpu7 1 1 1 1 1 1 1 1\n" ++
    "cpu8 1 1 1 1 1 1 1 1\ncpu9 1 1 1 1 1 1 1 1\ncpu10 1 1 1 1 1 1 1 1\n" ++
    "intr 5\n").toList

/-- The field `" 2"`. -/
def fieldTwo : List Char × List Char := (" ".toList, "2".toList)

/-! ## Snapshots, handles and counter attributes -/

/-- The maps of `b` hold for `phase_name` what the maps of `a` hold, and both
monitors watch the same cores: nothing started or ended that phase between `a` and
`b`. -/
structure SameSnapshot (a b : PerformanceMonitor) (phase_name : String) : Prop where
  time : b.phase_start_times phase_name = a.phase_start_times phase_name
  rusage : b.phase_start_rusage phase_name = a.phase_start_rusage phase_name
  io : b.phase_start_io phase_name = a.phase_start_io phase_name
  process_time : b.phase_start_process_time phase_name = a.phase_start_process_time phase_name
  core_times : b.phase_start_core_times phase_name = a.phase_start_core_times phase_name
  core_fds : b.phase_core_fds phase_name = a.phase_core_fds phase_name
  core_timespec : b.phase_core_timespec phase_name = a.phase_core_timespec phase_name
  cores : b.monitored_cores = a.monitored_cores

/-- An end of phase `"A"` at which the user time counter (descriptor 3) delivers
1.5 s with `time_running = 5` and `time_enabled = 10`. -/
def envEndMultiplexed : Env :=
  { envEndGrown with
    read := fun fd nbytes =>
      if fd = 3 ∧ nbytes = 24 then (24, ⟨1500000000, 10, 5⟩) else (-1, ⟨0, 0, 0⟩) }


/-! ## Descriptors in an event record -/

/-- The descriptor on which an event operates: that of an `ioctl`, a `read` or a
`close`; a warning and `perf_event_open` operate on none. -/
def Event.fd? : Event → Option Int
  | Event.ioctl fd _ => some fd
  | Event.read fd _ _ => some fd
  | Event.close fd => some fd
  | _ => none

/-- The descriptors that the events open, in order: the results of the
`perf_event_open` calls that did not fail. -/
def opened_of : List Event → List Int
  | [] => []
  | Event.perf_event_open _ _ fd :: ev => if fd ≠ -1 then fd :: opened_of ev else opened_of ev
  | _ :: ev => opened_of ev

/-- The descriptors that the events close, in order. -/
def closed_of : List Event → List Int
  | [] => []
  | Event.close fd :: ev => fd :: closed_of ev
  | _ :: ev => closed_of ev

/-- The open counter descriptors of the process after the events, from `h` before
them: a successful `perf_event_open` adds its descriptor, `close` removes one. -/
def open_handles (h : Multiset Int) : List Event → Multiset Int
  | [] => h
  | Event.perf_event_open _ _ fd :: ev =>
    open_handles (if fd ≠ -1 then Multiset.cons fd h else h) ev
  | Event.close fd :: ev => open_handles (h.erase fd) ev
  | _ :: ev => open_handles h ev

/-- The values of `perf_event_attr::type` in use. -/
inductive PerfType
  | SOFTWARE
  | HARDWARE
  deriving DecidableEq, Repr

/-- The values of `perf_event_attr::config` in use. -/
inductive PerfConfig
  | SW_TASK_CLOCK
  | SW_CPU_MIGRATIONS
  | HW_CPU_CYCLES
  | HW_INSTRUCTIONS
  | HW_REF_CPU_CYCLES
  deriving DecidableEq, Repr

/-- The fields of `struct perf_event_attr` that the `setup_*_counter` members set
after `memset`; `read_format` is the pair of its two flags
`PERF_FORMAT_TOTAL_TIME_ENABLED` and `PERF_FORMAT_TOTAL_TIME_RUNNING`. -/
structure perf_event_attr where
  type : PerfType
  config : PerfConfig
  exclude_kernel : Bool
  exclude_user : Bool
  exclude_hv : Bool
  disabled : Bool
  format_total_time_enabled : Bool
  format_total_time_running : Bool
  deriving DecidableEq, Repr

/-- The attributes that each `setup_*_counter` member passes to
`perf_event_open`. -/
def perf_attr : CounterKind → perf_event_attr
  | CounterKind.user_time =>
    ⟨PerfType.SOFTWARE, PerfConfig.SW_TASK_CLOCK, true, false, true, true, true, true⟩
  | CounterKind.system_time =>
    ⟨PerfType.SOFTWARE, PerfConfig.SW_TASK_CLOCK, false, true, true, true, true, true⟩
  | CounterKind.io_wait =>
    ⟨PerfType.SOFTWARE, PerfConfig.SW_CPU_MIGRATIONS, false, false, false, true, true, true⟩
  | CounterKind.cpu_cycles =>
    ⟨PerfType.HARDWARE, PerfConfig.HW_CPU_CYCLES, false, false, false, true, true, true⟩
  | CounterKind.cpu_instructions =>
    ⟨PerfType.HARDWARE, PerfConfig.HW_INSTRUCTIONS, false, false, false, true, true, true⟩
  | CounterKind.cpu_ref_cycles =>
    ⟨PerfType.HARDWARE, PerfConfig.HW_REF_CPU_CYCLES, false, false, false, true, true, true⟩

/-- Events of one counter slot in `start_phase`: the `setup_*_counter` call and the
reset and enable requests. -/
def slot_start_events (env : Env) (kind : CounterKind) (i : Nat) (c : Int) : List Event :=
  (setup_counter env kind i c).2 ++ activate (env.perf_open kind i)

/-- The descriptors that one iteration of the set-up loop of `start_phase` tries to
open for core `i`, in order. -/
def slot_fds (env : Env) (i : Nat) : List Int :=
  [env.perf_open CounterKind.user_time i, env.perf_open CounterKind.system_time i,
    env.perf_open CounterKind.io_wait i, env.perf_open CounterKind.cpu_instructions i]

/-- A start of phase `"A"` at which the hardware instructions counter opens as
descriptor 5 and the three software counters fail. -/
def envStartHardware : Env :=
  { envStart with
    perf_open := fun kind _ =>
      match kind with
      | CounterKind.cpu_instructions => 5
      | _ => -1 }


/-- A second start of phase `"A"` at which the user time counter opens as
descriptor 6 and the system time counter as descriptor 7. -/
def envStartAgain : Env :=
  { envStart with
    now := 1000000
    perf_open := fun kind _ =>
      match kind with
      | CounterKind.user_time => 6
      | CounterKind.system_time => 7
      | _ => -1 }


/-- A line on which `get_io_stats` converts a value: it contains one of the four
labels `read_bytes:`, `write_bytes:`, `syscr:`, `syscw:`. -/
def io_label (line : List Char) : Bool :=
  decide (find "read_bytes:".toList line ≠ none) ||
  decide (find "write_bytes:".toList line ≠ none) ||
  decide (find "syscr:".toList line ≠ none) ||
  decide (find "syscw:".toList line ≠ none)

/-- A start or end of phase `"A"` at which `/proc/self/io` carries a `read_bytes:`
line whose value is not a number. -/
def envIoMalformed : Env :=
  { envStart with proc_self_io := some "rchar: 9\nread_bytes: abc\n".toList }


/-! ## `PerformanceMetrics` -/

/-- The data member of `class PerformanceMetrics`: the samples recorded for each
phase, oldest first. -/
structure PerformanceMetrics where
  phase_stats : PhaseMap (List PerfStats)

/-- The implicit default constructor: no phase has a history. -/
def PerformanceMetrics.init : PerformanceMetrics := ⟨PhaseMap.empty⟩

/-- The member `RecordStats(phase, stats)`. -/
def RecordStats (pm : PerformanceMetrics) (phase : String) (stats : PerfStats) :
    PerformanceMetrics :=
  let ps :=
    if (pm.phase_stats phase).isNone then pm.phase_stats.insert phase [] else pm.phase_stats
  ⟨ps.insert phase ((ps phase).getD [] ++ [stats])⟩

/-- One thing handed to `std::cout`: a piece of text, a finite `double`, the
`double` results of a division by zero, or a `size_t`. -/
inductive OutItem
  | text (s : String)
  | num (x : ℚ)
  | inf
  | neg_inf
  | nan
  | size (n : Nat)
  deriving DecidableEq, Repr

/-- The `double` quotient `a / b` as it is handed to `std::cout`: a zero divisor
gives an infinity or a NaN. -/
def div_out (a b : ℚ) : OutItem :=
  if b = 0 then
    if 0 < a then OutItem.inf else if a < 0 then OutItem.neg_inf else OutItem.nan
  else OutItem.num (a / b)

/-- One iteration of the per-core loop of `PrintSinglePhaseStat`; `pfx` is the
parameter that the source calls prefix. -/
def PrintSinglePhaseStat_core (stats : PerfStats) (pfx : String) (i : Nat) :
    Except Fault (List OutItem) := do
  let u ← idx stats.core_user_times i
  let s ← idx stats.core_system_times i
  let u2 ← idx stats.core_user_times i
  let s2 ← idx stats.core_system_times i
  pure [OutItem.text pfx, OutItem.text "  Core ", OutItem.size i, OutItem.text ": ",
    OutItem.text "User=", OutItem.num u, OutItem.text "s, ",
    OutItem.text "System=", OutItem.num s, OutItem.text "s, ",
    OutItem.text "Total=", OutItem.num (u2 + s2), OutItem.text "s\n"]

/-- The member `PrintSinglePhaseStat(stats, prefix)`: what it hands to `std::cout`. -/
def PrintSinglePhaseStat (stats : PerfStats) (pfx : String) : Except Fault (List OutItem) := do
  let out :=
    [OutItem.text pfx, OutItem.text "Wall clock time: ", OutItem.num stats.wall_time_ms,
      OutItem.text " ms\n",
     OutItem.text pfx, OutItem.text "User time: ", OutItem.num stats.user_time_sec,
      OutItem.text " sec\n",
     OutItem.text pfx, OutItem.text "System time: ", OutItem.num stats.system_time_sec,
      OutItem.text " sec\n",
     OutItem.text pfx, OutItem.text "Total CPU time (user+system): ",
      OutItem.num stats.cpu_time_sec, OutItem.text " sec\n",
     OutItem.text pfx, OutItem.text "Process CPU time (timespec): ",
      OutItem.num stats.process_cpu_time_sec, OutItem.text " sec\n",
     OutItem.text pfx, OutItem.text "I/O wait time: ", OutItem.num stats.io_wait_time_ms,
      OutItem.text " ms\n",
     OutItem.text pfx, OutItem.text "I/O bytes read: ",
      OutItem.num (stats.io_bytes_read / (1024 * 1024)), OutItem.text " MB\n",
     OutItem.text pfx, OutItem.text "I/O bytes written: ",
      OutItem.num (stats.io_bytes_written / (1024 * 1024)), OutItem.text " MB\n",
     OutItem.text pfx, OutItem.text "CPU utilization: ",
      div_out (stats.cpu_time_sec * 1000 * 100) stats.wall_time_ms, OutItem.text "%\n"]
  if ¬ stats.core_user_times.isEmpty then
    let out := out ++ [OutItem.text pfx, OutItem.text "Per-core statistics:\n"]
    (List.range stats.core_user_times.length).foldlM
      (fun out i => do
        let line ← PrintSinglePhaseStat_core stats pfx i
        pure (out ++ line)) out
  else pure out

/-- The seven local accumulators `avg_*` of `PrintStats`. -/
structure Averages where
  avg_wall_time : ℚ
  avg_user_time : ℚ
  avg_system_time : ℚ
  avg_cpu_time : ℚ
  avg_io_wait_time : ℚ
  avg_io_bytes_read : ℚ
  avg_io_bytes_written : ℚ

/-- One iteration of the summing loop of `PrintStats`. -/
def Averages.add (a : Averages) (stats : PerfStats) : Averages :=
  { avg_wall_time := a.avg_wall_time + stats.wall_time_ms
    avg_user_time := a.avg_user_time + stats.user_time_sec
    avg_system_time := a.avg_system_time + stats.system_time_sec
    avg_cpu_time := a.avg_cpu_time + stats.cpu_time_sec
    avg_io_wait_time := a.avg_io_wait_time + stats.io_wait_time_ms
    avg_io_bytes_read := a.avg_io_bytes_read + stats.io_bytes_read
    avg_io_bytes_written := a.avg_io_bytes_written + stats.io_bytes_written }

/-- The seven assignments `avg_* /= count`. They are reached with `count ≥ 2`
only. -/
def Averages.div (a : Averages) (count : Nat) : Averages :=
  { avg_wall_time := a.avg_wall_time / (count : ℚ)
    avg_user_time := a.avg_user_time / (count : ℚ)
    avg_system_time := a.avg_system_time / (count : ℚ)
    avg_cpu_time := a.avg_cpu_time / (count : ℚ)
    avg_io_wait_time := a.avg_io_wait_time / (count : ℚ)
    avg_io_bytes_read := a.avg_io_bytes_read / (count : ℚ)
    avg_io_bytes_written := a.avg_io_bytes_written / (count : ℚ) }

/-- One iteration of the per-step loop of `PrintStats`. -/
def PrintStats_step (stats_vec : List PerfStats) (i : Nat) : Except Fault (List OutItem) := do
  let stats ← idx stats_vec i
  let single ← PrintSinglePhaseStat stats "  "
  pure ([OutItem.text "Step ", OutItem.size i, OutItem.text ":\n"] ++ single)

/-- The body of the range-for loop of `PrintStats` for one entry
`[phase, stats_vec]` of the map. -/
def PrintStats_phase (phase : String) (stats_vec : List PerfStats) :
    Except Fault (List OutItem) :=
  if stats_vec.isEmpty then pure []
  else do
    let out := [OutItem.text "\n=== Performance Statistics for Phase: ", OutItem.text phase,
      OutItem.text " ===\n"]
    if stats_vec.length = 1 then do
      let stats ← idx stats_vec 0
      let single ← PrintSinglePhaseStat stats ""
      pure (out ++ single)
    else do
      let sums := stats_vec.foldl Averages.add ⟨0, 0, 0, 0, 0, 0, 0⟩
      let count := stats_vec.length
      let avg := sums.div count
      let out := out ++
        [OutItem.text "Number of measurements: ", OutItem.size count, OutItem.text "\n",
         OutItem.text "Average wall clock time: ", OutItem.num avg.avg_wall_time,
          OutItem.text " ms\n",
         OutItem.text "Average user time: ", OutItem.num avg.avg_user_time,
          OutItem.text " sec\n",
         OutItem.text "Average system time: ", OutItem.num avg.avg_system_time,
          OutItem.text " sec\n",
         OutItem.text "Average CPU time (user+system): ", OutItem.num avg.avg_cpu_time,
          OutItem.text " sec\n",
         OutItem.text "Average I/O wait time: ", OutItem.num avg.avg_io_wait_time,
          OutItem.text " ms\n",
         OutItem.text "Average I/O bytes read: ",
          OutItem.num (avg.avg_io_bytes_read / (1024 * 1024)), OutItem.text " MB\n",
         OutItem.text "Average I/O bytes written: ",
          OutItem.num (avg.avg_io_bytes_written / (1024 * 1024)), OutItem.text " MB\n",
         OutItem.text "CPU utilization: ",
          div_out (avg.avg_cpu_time * 1000 * 100) avg.avg_wall_time, OutItem.text "%\n"]
      if stats_vec.length ≤ 10 then
        let out := out ++ [OutItem.text "\nPer-step details:\n"]
        (List.range stats_vec.length).foldlM
          (fun out i => do
            let step ← PrintStats_step stats_vec i
            pure (out ++ step)) out
      else pure out

/-- The history of a phase, empty when the phase has none. -/
def history (pm : PerformanceMetrics) (phase : String) : List PerfStats :=
  (pm.phase_stats phase).getD []

/-- The member `PrintStats()`. The iteration order of the `std::unordered_map` is
not fixed by the language: `order` lists the keys in the order in which the loop
visits them. A name in `order` that is not a key has the empty history, for which
the loop body prints nothing. -/
def PrintStats (pm : PerformanceMetrics) (order : List String) : Except Fault (List OutItem) :=
  order.foldlM
    (fun out phase => do
      let report ← PrintStats_phase phase (history pm phase)
      pure (out ++ report)) []

/-- A call of a public member of `PerformanceMetrics`. -/
inductive MetricsCall
  | record (phase : String) (stats : PerfStats)
  | print (order : List String)

/-- The aggregator after a call: `PrintStats` is a `const` member. -/
def MetricsCall.run (pm : PerformanceMetrics) : MetricsCall → PerformanceMetrics
  | MetricsCall.record phase stats => RecordStats pm phase stats
  | MetricsCall.print _ => pm

/-- The aggregator after a sequence of calls. -/
def run_calls (pm : PerformanceMetrics) (calls : List MetricsCall) : PerformanceMetrics :=
  calls.foldl MetricsCall.run pm

/-! ### What `PrintStats` is proved to emit

These definitions do not embed source code: they name the output. -/

/-- The banner line of a phase. -/
def phase_header (phase : String) : List OutItem :=
  [OutItem.text "\n=== Performance Statistics for Phase: ", OutItem.text phase,
    OutItem.text " ===\n"]

/-- The nine lines with the fields of one sample. -/
def single_lines (stats : PerfStats) (pfx : String) : List OutItem :=
  [OutItem.text pfx, OutItem.text "Wall clock time: ", OutItem.num stats.wall_time_ms,
    OutItem.text " ms\n",
   OutItem.text pfx, OutItem.text "User time: ", OutItem.num stats.user_time_sec,
    OutItem.text " sec\n",
   OutItem.text pfx, OutItem.text "System time: ", OutItem.num stats.system_time_sec,
    OutItem.text " sec\n",
   OutItem.text pfx, OutItem.text "Total CPU time (user+system): ",
    OutItem.num stats.cpu_time_sec, OutItem.text " sec\n",
   OutItem.text pfx, OutItem.text "Process CPU time (timespec): ",
    OutItem.num stats.process_cpu_time_sec, OutItem.text " sec\n",
   OutItem.text pfx, OutItem.text "I/O wait time: ", OutItem.num stats.io_wait_time_ms,
    OutItem.text " ms\n",
   OutItem.text pfx, OutItem.text "I/O bytes read: ",
    OutItem.num (stats.io_bytes_read / (1024 * 1024)), OutItem.text " MB\n",
   OutItem.text pfx, OutItem.text "I/O bytes written: ",
    OutItem.num (stats.io_bytes_written / (1024 * 1024)), OutItem.text " MB\n",
   OutItem.text pfx, OutItem.text "CPU utilization: ",
    div_out (stats.cpu_time_sec * 1000 * 100) stats.wall_time_ms, OutItem.text "%\n"]

/-- The line of core `i` in the per-core block of one sample. -/
def core_line (stats : PerfStats) (pfx : String) (i : Nat) : List OutItem :=
  [OutItem.text pfx, OutItem.text "  Core ", OutItem.size i, OutItem.text ": ",
    OutItem.text "User=", OutItem.num (stats.core_user_times.getD i 0), OutItem.text "s, ",
    OutItem.text "System=", OutItem.num (stats.core_system_times.getD i 0),
    OutItem.text "s, ",
    OutItem.text "Total=",
    OutItem.num (stats.core_user_times.getD i 0 + stats.core_system_times.getD i 0),
    OutItem.text "s\n"]

/-- The per-core block of one sample: nothing when `core_user_times` is empty. -/
def per_core_lines (stats : PerfStats) (pfx : String) : List OutItem :=
  if stats.core_user_times.isEmpty then []
  else
    [OutItem.text pfx, OutItem.text "Per-core statistics:\n"] ++
      (List.range stats.core_user_times.length).flatMap (core_line stats pfx)

/-- Everything that is printed for one sample. -/
def single_report (stats : PerfStats) (pfx : String) : List OutItem :=
  single_lines stats pfx ++ per_core_lines stats pfx

/-- The arithmetic mean of a field over the samples of a phase. -/
def mean (field : PerfStats → ℚ) (stats_vec : List PerfStats) : ℚ :=
  (stats_vec.map field).sum / (stats_vec.length : ℚ)

/-- The lines with the number of samples, the seven means and the utilization. -/
def average_lines (stats_vec : List PerfStats) : List OutItem :=
  [OutItem.text "Number of measurements: ", OutItem.size stats_vec.length, OutItem.text "\n",
   OutItem.text "Average wall clock time: ",
    OutItem.num (mean PerfStats.wall_time_ms stats_vec), OutItem.text " ms\n",
   OutItem.text "Average user time: ",
    OutItem.num (mean PerfStats.user_time_sec stats_vec), OutItem.text " sec\n",
   OutItem.text "Average system time: ",
    OutItem.num (mean PerfStats.system_time_sec stats_vec), OutItem.text " sec\n",
   OutItem.text "Average CPU time (user+system): ",
    OutItem.num (mean PerfStats.cpu_time_sec stats_vec), OutItem.text " sec\n",
   OutItem.text "Average I/O wait time: ",
    OutItem.num (mean PerfStats.io_wait_time_ms stats_vec), OutItem.text " ms\n",
   OutItem.text "Average I/O bytes read: ",
    OutItem.num (mean PerfStats.io_bytes_read stats_vec / (1024 * 1024)),
    OutItem.text " MB\n",
   OutItem.text "Average I/O bytes written: ",
    OutItem.num (mean PerfStats.io_bytes_written stats_vec / (1024 * 1024)),
    OutItem.text " MB\n",
   OutItem.text "CPU utilization: ",
    div_out (mean PerfStats.cpu_time_sec stats_vec * 1000 * 100)
      (mean PerfStats.wall_time_ms stats_vec),
    OutItem.text "%\n"]

/-- The block of sample `i` in the per-step details. -/
def step_lines (stats_vec : List PerfStats) (i : Nat) : List OutItem :=
  match stats_vec[i]? with
  | some stats =>
    [OutItem.text "Step ", OutItem.size i, OutItem.text ":\n"] ++ single_report stats "  "
  | none => []

/-- The per-step details: present for at most ten samples. -/
def step_details (stats_vec : List PerfStats) : List OutItem :=
  if stats_vec.length ≤ 10 then
    [OutItem.text "\nPer-step details:\n"] ++
      (List.range stats_vec.length).flatMap (step_lines stats_vec)
  else []

/-- A sample whose per-core loop stays inside `core_system_times`. -/
def PerCoreInBounds (stats : PerfStats) : Prop :=
  stats.core_user_times.length ≤ stats.core_system_times.length

/-- A sample of 10 ms wall time and 0.004 s CPU time, 2 MiB read. -/
def sampleA : PerfStats :=
  { PerfStats.init with
    wall_time_ms := 10, user_time_sec := 3 / 1000, system_time_sec := 1 / 1000,
    cpu_time_sec := 4 / 1000, io_bytes_read := 2097152 }

/-- A sample of 30 ms wall time and 0.008 s CPU time, with one core. -/
def sampleB : PerfStats :=
  { PerfStats.init with
    wall_time_ms := 30, user_time_sec := 5 / 1000, system_time_sec := 3 / 1000,
    cpu_time_sec := 8 / 1000, core_user_times := [5 / 1000],
    core_system_times := [3 / 1000], core_cpu_times := [8 / 1000] }

/-- The aggregator after `RecordStats("Decode_Token", sampleA)` and
`RecordStats("Decode_Token", sampleB)` on a fresh one. -/
def metricsAB : PerformanceMetrics :=
  RecordStats (RecordStats PerformanceMetrics.init "Decode_Token" sampleA) "Decode_Token" sampleB


/-! ## `GetParallelEfficiency` -/

/-- The quotient `a / b` of two finite doubles, `none` when the divisor is zero and
the result is an infinity or a NaN. -/
def double_div (a b : ℚ) : Option ℚ := if b = 0 then none else some (a / b)

/-- The function `GetParallelEfficiency(stats)`. -/
def GetParallelEfficiency (stats : PerfStats) : Option ℚ :=
  if stats.wall_time_ms ≤ 0 then some 0
  else double_div (stats.cpu_time_sec * 1000) stats.wall_time_ms

/-- The constant `CPU_SETSIZE` of the C library. -/
def CPU_SETSIZE : Nat := 1024

/-- The function `detect_active_cores()`; `affinity` is the mask that
`sched_getaffinity` delivers, `none` when the call fails. -/
def detect_active_cores (affinity : Option (Nat → Bool)) : List Int :=
  match affinity with
  | none => []
  | some mask => ((List.range CPU_SETSIZE).filter mask).map (fun i => (i : Int))

/-- The monitors that calls of `start_phase` and `end_phase` lead to from `m0`.
Only calls that return count: an exception leaves the program, which has no
handler. -/
inductive ReachableFrom (m0 : PerformanceMonitor) : PerformanceMonitor → Prop
  | init : ReachableFrom m0 m0
  | start (env : Env) (m m1 : PerformanceMonitor) (phase_name : String) (ev : List Event) :
      ReachableFrom m0 m → start_phase env m phase_name = .ok (m1, ev) → ReachableFrom m0 m1
  | stop (env : Env) (m m1 : PerformanceMonitor) (phase_name : String) (stats : PerfStats)
      (ev : List Event) :
      ReachableFrom m0 m → end_phase env m phase_name = .ok (stats, m1, ev) →
      ReachableFrom m0 m1

/-- A monitor reachable through the constructor, `start_phase` and `end_phase`. -/
def Reachable (m : PerformanceMonitor) : Prop :=
  ∃ affinity cores,
    ReachableFrom (PerformanceMonitor.create (detect_active_cores affinity) cores) m

/-- The phase has a complete snapshot: an entry in each of the six maps that
`start_phase` always writes, with every per-core vector as long as
`monitored_cores`. -/
def Snapshot (m : PerformanceMonitor) (phase_name : String) : Prop :=
  ∃ start ru io ticks fds ts, StartedWith m phase_name start ru io ticks fds ∧
    m.phase_core_timespec phase_name = some ts ∧
    ts.start_times.length = m.monitored_cores.length

/-- Every phase name has either no entry at all or a complete snapshot. -/
def Consistent (m : PerformanceMonitor) : Prop :=
  ∀ phase_name, NeverStarted m phase_name ∨ Snapshot m phase_name

/-- A warning of the family "not found". -/
def Warning.not_found : Warning → Bool
  | Warning.time_not_found => true
  | Warning.rusage_not_found => true
  | Warning.io_not_found => true
  | Warning.core_times_not_found => true
  | Warning.core_fds_not_found => true
  | _ => false


/-- The start of phase `"A"` when only the I/O wait counter opens, as
descriptor 5. -/
def envStartIoWait : Env :=
  { envStart with
    perf_open := fun kind _ =>
      match kind with
      | CounterKind.io_wait => 5
      | _ => -1 }

/-- What the decoding loop gets from outside the profiler in iteration `i`: the
operating system at the `start_phase` and at the `end_phase` call, whether
`decode_runner->Invoke()` and `sp_processor->Decode` succeed, and the token that
the sampler returns. -/
structure DecodeWorld where
  env_start : Nat → Env
  env_end : Nat → Env
  invoke_ok : Nat → Bool
  sampled : Nat → Int
  decode_ok : Nat → Bool

/-- The variables of `main` that the decoding loop changes, and the events of the
profiler in program order. -/
structure DecodeState where
  perf_monitor : PerformanceMonitor
  metrics : PerformanceMetrics
  decode_stats_vec : List PerfStats
  next_token : Int
  next_position : Int
  events : List Event

/-- The loop `for (int i = 0; i < decode_steps; ++i)` of `main`, from iteration
`i` on, with `remaining = decode_steps - i` iterations to go. -/
def decode_loop (w : DecodeWorld) (stop_token_id : Int) :
    Nat → Nat → DecodeState → Except Fault DecodeState
  | 0, _, s => pure s
  | remaining + 1, i, s => do
    let started ← start_phase (w.env_start i) s.perf_monitor ("Decode_Token_" ++ toString i)
    if !w.invoke_ok i then .error .check_failed
    else
      let next_token := w.sampled i
      let next_position := s.next_position + 1
      if next_token = stop_token_id then
        pure { s with
          perf_monitor := started.1
          next_token := next_token
          next_position := next_position
          events := s.events ++ started.2 }
      else if !w.decode_ok i then .error .check_failed
      else do
        let ended ← end_phase (w.env_end i) started.1 ("Decode_Token_" ++ toString i)
        decode_loop w stop_token_id remaining (i + 1)
          { perf_monitor := ended.2.1
            metrics := RecordStats s.metrics "Decode_Token" ended.1
            decode_stats_vec := s.decode_stats_vec ++ [ended.1]
            next_token := next_token
            next_position := next_position
            events := s.events ++ started.2 ++ ended.2.2 }

/-- The decoding stage of `main` from `MINIMAL_CHECK(decode_steps > 0)` to the end
of the loop. -/
def decoding_stage (w : DecodeWorld) (stop_token_id : Int) (decode_steps : Int)
    (s : DecodeState) : Except Fault DecodeState :=
  if decode_steps > 0 then decode_loop w stop_token_id decode_steps.toNat 0 s
  else .error .check_failed

/-- A run in which every sampled token is 2, every phase starts under
`envStartCounters` and ends under `envEndGrown`, and every check passes. -/
def worldStop : DecodeWorld :=
  { env_start := fun _ => envStartCounters
    env_end := fun _ => envEndGrown
    invoke_ok := fun _ => true
    sampled := fun _ => 2
    decode_ok := fun _ => true }

/-- The variables of `main` before the decoding loop, with a fresh profiler for
core 0 and an empty aggregator. -/
def decodeStart : DecodeState :=
  { perf_monitor := mon0
    metrics := PerformanceMetrics.init
    decode_stats_vec := []
    next_token := 1
    next_position := 0
    events := [] }


/-! ## `Sampler::TemperatureTopKTopPSampler`

A `float` is the rational number that it holds, and every arithmetic operation of
the sampler is followed by the rounding `to_float`; the model covers the runs in
which every value is finite. The function `std::exp` on `float` and the draw of
`std::discrete_distribution` are parameters. -/

/-- The order in which `std::sort` with `std::greater<std::pair<float, int>>`
leaves two pairs: `a` may stand before `b` when `b` is not greater than `a` in
the lexicographic order of pairs. -/
def pair_ge (a b : ℚ × Int) : Prop := b.1 < a.1 ∨ (b.1 = a.1 ∧ b.2 ≤ a.2)

instance : DecidableRel pair_ge := fun a b => by unfold pair_ge; infer_instance

/-- The expression `*std::max_element(v.begin(), v.end())`; on an empty vector the
iterator is `end()` and dereferencing it is undefined. -/
def max_element (v : List ℚ) : Except Fault ℚ :=
  match v with
  | [] => .error .undefined
  | x :: xs => .ok (xs.foldl max x)

/-- The loop of step 5: the first index at which the running sum of the
probabilities, accumulated in the `float` variable `cumulative_prob`, exceeds
`p`; `none` when the loop ends without `break`. -/
def top_p_cutoff (p : ℚ) : List (ℚ × Int) → ℚ → Nat → Option Nat
  | [], _, _ => none
  | x :: xs, cumulative_prob, i =>
    if to_float (cumulative_prob + x.1) > p then some i
    else top_p_cutoff p xs (to_float (cumulative_prob + x.1)) (i + 1)

/-- Steps 1 and 2 of the sampler and the pairing of step 2: each probability with
its index in the vocabulary. The quotient by the temperature, the difference to
the maximum, the sum `sum_exp` and the quotient by it are `float` operations. -/
def softmax_pairs (expf : ℚ → ℚ) (logits : List ℚ) (temperature : ℚ) :
    Except Fault (List (ℚ × Int)) := do
  let scaled_logits := logits.map (fun x => to_float (x / temperature))
  let max_logit ← max_element scaled_logits
  let exps := scaled_logits.map (fun x => expf (to_float (x - max_logit)))
  let sum_exp := float_sum 0 exps
  let probs := exps.map (fun x => to_float (x / sum_exp))
  pure (probs.enum.map (fun ix => (ix.2, (ix.1 : Int))))

/-- Steps 1 to 5 of the sampler: the vector `sorted_logits` after the second
`resize`, from which the token is drawn. A negative `top_k` converts to a size
beyond `max_size()`, for which `resize` throws `std::length_error`. -/
def sampler_candidates (expf : ℚ → ℚ) (logits : List ℚ) (temperature : ℚ) (k : Int)
    (p : ℚ) : Except Fault (List (ℚ × Int)) := do
  let vocab_size := logits.length
  let pairs ← softmax_pairs expf logits temperature
  let sorted_logits := pairs.insertionSort pair_ge
  let top_k := min k (vocab_size : Int)
  if top_k < 0 then .error .length_error
  else
    let sorted_logits := resize sorted_logits top_k.toNat (0, 0)
    let cutoff_index : Int :=
      match top_p_cutoff p sorted_logits 0 0 with
      | some i => (i : Int)
      | none => top_k - 1
    pure (resize sorted_logits (cutoff_index + 1).toNat (0, 0))

/-- The function `Sampler::TemperatureTopKTopPSampler`; `dist` is the index that
`dist(gen)` delivers for the given weights. -/
def TemperatureTopKTopPSampler (expf : ℚ → ℚ) (dist : List ℚ → Nat) (logits : List ℚ)
    (temperature : ℚ) (k : Int) (p : ℚ) : Except Fault Int := do
  let sorted_logits ← sampler_candidates expf logits temperature k p
  let new_sum := float_sum 0 (sorted_logits.map Prod.fst)
  let final_probs := sorted_logits.map (fun pair => to_float (pair.1 / new_sum))
  let chosen ← idx sorted_logits (dist final_probs)
  pure chosen.2

/-- A stand-in for `std::exp` on the rationals: `2` to the integer part. -/
def exp2floor (x : ℚ) : ℚ := (2 : ℚ) ^ (Int.floor x)

/-- A draw that always delivers index 0. -/
def drawFirst : List ℚ → Nat := fun _ => 0


/-! ## `GetPrefillRunner` -/

/-- The function `absl::StrContains(haystack, needle)`. -/
def StrContains (haystack needle : String) : Bool :=
  decide (find needle.toList haystack.toList ≠ none)

/-- The value `std::numeric_limits<int>::max()` of a 32-bit `int`. -/
def INT_MAX : Int := 2147483647

/-- The least value of a 32-bit `int`. -/
def INT_MIN : Int := -2147483648

/-- The conversion `static_cast<int>(n)` of a `size_t`: the low 32 bits in two's
complement. -/
def size_to_int (n : Nat) : Int := ((n : Int) + 2147483648) % 4294967296 - 2147483648

/-- The conversion `static_cast<size_t>(x)` of an `int`: the value modulo
`2 ^ 64`. -/
def int_to_size (x : Int) : Nat := (x % (U64 : Int)).toNat

/-- Subtraction of two `int` values; overflow is undefined behaviour. -/
def int_sub (a b : Int) : Except Fault Int :=
  if INT_MIN ≤ a - b ∧ a - b ≤ INT_MAX then .ok (a - b) else .error .undefined

/-- The locals `runner`, `best_seq_size` and `delta` of `GetPrefillRunner`. A
runner is named by the signature key it was obtained for; `none` is `nullptr`. -/
structure PrefillChoice where
  runner : Option String
  best_seq_size : Int
  delta : Int
  deriving DecidableEq, Repr

/-- One iteration of the loop over `interpreter->signature_keys()`. An entry of
the list is a key with the first dimension of the `input_pos` tensor of its
signature runner; `lora` tells whether the LoRA pointer is not null. -/
def GetPrefillRunner_step (num_input_tokens : Nat) (lora : Bool) (s : PrefillChoice)
    (key : String × Int) : Except Fault PrefillChoice :=
  if !StrContains key.1 "prefill" || StrContains key.1 "lora" then pure s
  else
    let seq_size := key.2
    if num_input_tokens ≤ int_to_size seq_size then do
      let d ← int_sub seq_size (size_to_int num_input_tokens)
      if d < s.delta then do
        let d2 ← int_sub seq_size (size_to_int num_input_tokens)
        pure { runner := if lora then s.runner else some key.1
               best_seq_size := seq_size
               delta := d2 }
      else pure s
    else pure s

/-- The function `GetPrefillRunner`. The parameter `lora` is the member
`GetPrefillRunner` of the LoRA object when there is one, and `PrepareRunner` is
the function of this name, which sets the allocations of the chosen runner and
leaves the process when one of its checks fails. -/
def GetPrefillRunner (signature_keys : List (String × Int)) (num_input_tokens : Nat)
    (lora : Option (Int → Option String)) (PrepareRunner : String → Except Fault Unit) :
    Except Fault String := do
  let s ← signature_keys.foldlM (GetPrefillRunner_step num_input_tokens lora.isSome)
    ⟨none, -1, INT_MAX⟩
  let runner :=
    match lora with
    | some lora_runner => lora_runner s.best_seq_size
    | none => s.runner
  match runner with
  | none => .error .check_failed
  | some r => do
    PrepareRunner r
    pure r

/-- A key that the loop of `GetPrefillRunner` can choose for `num_input_tokens`
tokens: it contains `prefill`, does not contain `lora`, and its sequence size is
at least the number of tokens. -/
def Eligible (num_input_tokens : Nat) (key : String × Int) : Prop :=
  StrContains key.1 "prefill" = true ∧ StrContains key.1 "lora" = false ∧
    (num_input_tokens : Int) ≤ key.2

instance (n : Nat) (key : String × Int) : Decidable (Eligible n key) := by
  unfold Eligible; infer_instance

/-- A `PrepareRunner` whose checks all pass. -/
def prepareOk : String → Except Fault Unit := fun _ => .ok ()

/-- Signature keys of a model with three prefill sizes, a decode signature and a
LoRA prefill signature. -/
def keysUsual : List (String × Int) :=
  [("decode", 1), ("prefill_128", 128), ("prefill_lora_8", 8), ("prefill_32", 32),
    ("prefill_32_b", 32), ("prefill_8", 8)]


/-! # Theorems -/

/-! ## List facts -/

theorem idx_ok {α : Type} (v : List α) (i : Nat) (h : i < v.length) : idx v i = .ok v[i] := by
  simp [idx, List.getElem?_eq_getElem h]

theorem idx_of_getElem? {α : Type} (v : List α) (i : Nat) (x : α) (h : v[i]? = some x) :
    idx v i = .ok x := by
  simp [idx, h]

theorem exists_getElem? {α : Type} (l : List α) (k : Nat) (h : k < l.length) :
    ∃ x, l[k]? = some x :=
  ⟨l[k], List.getElem?_eq_getElem h⟩

theorem resize_nil {α : Type} (n : Nat) (x : α) : resize [] n x = List.replicate n x := by
  simp [resize]

theorem set_of_getElem? {α : Type} (l : List α) (i : Nat) (x : α) (h : l[i]? = some x) :
    l.set i x = l := by
  apply List.ext_getElem?
  intro j
  rw [List.getElem?_set]
  by_cases hj : i = j
  · subst hj
    have hi : i < l.length := by
      by_contra hc
      rw [List.getElem?_eq_none (by omega)] at h
      cases h
    simp [hi, h]
  · simp [hj]

theorem splice_zero {α : Type} (a b : List α) : splice 0 a b = b := by simp [splice]

theorem splice_length {α : Type} (k : Nat) (a b : List α) (h : a.length = b.length) :
    (splice k a b).length = b.length := by
  simp [splice]; omega

theorem splice_full {α : Type} (a b : List α) (h : a.length = b.length) :
    splice b.length a b = a := by
  simp [splice, ← h]

theorem splice_of_length {α : Type} (k : Nat) (a b : List α) (ha : a.length = k)
    (hb : b.length = k) : splice k a b = a := by
  unfold splice
  rw [List.take_of_length_le (le_of_eq ha), List.drop_of_length_le (le_of_eq hb),
    List.append_nil]

theorem splice_getElem? {α : Type} (k : Nat) (a b : List α) (h : a.length = b.length) :
    (splice k a b)[k]? = b[k]? := by
  by_cases hk : k ≤ a.length
  · simp [splice, List.getElem?_append_right, List.length_take, Nat.min_eq_left hk]
  · have h1 : b.length ≤ k := by omega
    have h2 : (splice k a b).length ≤ k := by rw [splice_length k a b h]; exact h1
    rw [List.getElem?_eq_none h2, List.getElem?_eq_none h1]

theorem splice_set {α : Type} (k : Nat) (a b : List α) (h : a.length = b.length) (x : α)
    (hx : a[k]? = some x) : (splice k a b).set k x = splice (k + 1) a b := by
  have hk : k < a.length := by
    by_contra hc
    rw [List.getElem?_eq_none (by omega)] at hx
    cases hx
  apply List.ext_getElem?
  intro i
  simp only [splice, List.getElem?_set, List.getElem?_append, List.length_take,
    List.getElem?_take, List.getElem?_drop]
  rw [Nat.min_eq_left (le_of_lt hk), Nat.min_eq_left (by omega : k + 1 ≤ a.length)]
  by_cases h1 : k = i
  · subst h1
    simp [hx, hk]
    omega
  · by_cases h2 : i < k
    · simp [h1, h2, Nat.lt_succ_of_lt h2]
    · have h3 : ¬ i < k + 1 := by omega
      simp [h1, h2, h3]
      congr 1
      omega

/-! ## The counter blocks of `end_phase`, one slot at a time -/

theorem read_user_time_eq (env : Env) (fd : Int) (i : Nat) (s : EndState) (x : ℚ)
    (hx : s.stats.core_user_times[i]? = some x) :
    read_user_time env fd i s =
      { s with
        stats := { s.stats with
          core_user_times := s.stats.core_user_times.set i (counter_seconds env fd x) }
        events := s.events ++ counter_events env fd 24 } := by
  have hi : i < s.stats.core_user_times.length := by
    by_contra hc
    rw [List.getElem?_eq_none (by omega)] at hx
    cases hx
  unfold read_user_time counter_seconds counter_events counter_read_ok EndState.log
  by_cases h1 : fd = -1
  · simp [h1, set_of_getElem? _ _ _ hx]
  · by_cases h2 : (env.read fd 24).1 = 24
    · simp [h1, h2, hi]
    · simp [h1, h2, set_of_getElem? _ _ _ hx]

theorem read_system_time_eq (env : Env) (fd : Int) (i : Nat) (s : EndState) (x : ℚ)
    (hx : s.stats.core_system_times[i]? = some x) :
    read_system_time env fd i s =
      { s with
        stats := { s.stats with
          core_system_times := s.stats.core_system_times.set i (counter_seconds env fd x) }
        events := s.events ++ counter_events env fd 24 } := by
  have hi : i < s.stats.core_system_times.length := by
    by_contra hc
    rw [List.getElem?_eq_none (by omega)] at hx
    cases hx
  unfold read_system_time counter_seconds counter_events counter_read_ok EndState.log
  by_cases h1 : fd = -1
  · simp [h1, set_of_getElem? _ _ _ hx]
  · by_cases h2 : (env.read fd 24).1 = 24
    · simp [h1, h2, hi]
    · simp [h1, h2, set_of_getElem? _ _ _ hx]

theorem read_io_wait_eq (env : Env) (fd : Int) (s : EndState) :
    read_io_wait env fd s =
      { s with
        stats := { s.stats with
          io_wait_time_ms := s.stats.io_wait_time_ms + migration_ms env fd }
        events := s.events ++ counter_events env fd 8 } := by
  unfold read_io_wait migration_ms counter_events counter_read_ok EndState.log
  by_cases h1 : fd = -1
  · simp [h1]
  · by_cases h2 : (env.read fd 8).1 = 8
    · by_cases h3 : 0 < (env.read fd 8).2.value
      · simp [h1, h2, h3]
      · simp [h1, h2, h3]
    · simp [h1, h2]

theorem read_unused_eq (env : Env) (fd : Int) (s : EndState) :
    read_unused env fd s = { s with events := s.events ++ counter_events env fd 24 } := by
  unfold read_unused counter_events EndState.log
  by_cases h1 : fd = -1
  · simp [h1]
  · by_cases h2 : (env.read fd 24).1 = 24
    · simp [h1, h2]
    · simp [h1, h2]

theorem read_cpu_cycles_eq (env : Env) (fd : Int) (i : Nat) (s : EndState) (c : ℚ)
    (hc : s.stats.core_cpu_times[i]? = some c) :
    read_cpu_cycles env fd i s =
      .ok { s with
        stats := { s.stats with
          core_cpu_times := s.stats.core_cpu_times.set i (cycles_scaled env fd c) }
        events := s.events ++ counter_events env fd 24 } := by
  have hi : i < s.stats.core_cpu_times.length := by
    by_contra hcon
    rw [List.getElem?_eq_none (by omega)] at hc
    cases hc
  unfold read_cpu_cycles cycles_scaled counter_events counter_read_ok EndState.log
  by_cases h1 : fd = -1
  · simp [h1, set_of_getElem? _ _ _ hc]; rfl
  · by_cases h2 : (env.read fd 24).1 = 24
    · by_cases h3 : 0 < (env.read fd 24).2.time_enabled
      · by_cases h4 : ((env.read fd 24).2.time_running : ℚ) / ((env.read fd 24).2.time_enabled : ℚ) < 1
        · simp [h1, h2, h3, h4, hi, idx, hc]
        · simp [h1, h2, h3, h4, set_of_getElem? _ _ _ hc]; rfl
      · simp [h1, h2, h3, set_of_getElem? _ _ _ hc]; rfl
    · simp [h1, h2, set_of_getElem? _ _ _ hc]; rfl

theorem update_core_cpu_eq (i : Nat) (s : EndState) (u sy c : ℚ)
    (hu : s.stats.core_user_times[i]? = some u) (hs : s.stats.core_system_times[i]? = some sy)
    (hc : s.stats.core_cpu_times[i]? = some c) :
    update_core_cpu i s =
      .ok { s with stats := { s.stats with
        core_cpu_times := s.stats.core_cpu_times.set i (u + sy) } } := by
  have hi : i < s.stats.core_cpu_times.length := by
    by_contra hcon
    rw [List.getElem?_eq_none (by omega)] at hc
    cases hc
  simp [update_core_cpu, hi, idx, hu, hs]
  rfl

/-- One iteration of the perf event loop, when every vector has an entry `i`. -/
theorem end_phase_core_eq (env : Env) (fds : CoreEventFds) (s : EndState) (i : Nat)
    (ufd sfd wfd cfd ifd rfd : Int) (u sy c : ℚ)
    (h1 : fds.user_time_fds[i]? = some ufd) (h2 : fds.system_time_fds[i]? = some sfd)
    (h3 : fds.io_wait_fds[i]? = some wfd) (h4 : fds.cpu_cycles_fds[i]? = some cfd)
    (h5 : fds.cpu_instructions_fds[i]? = some ifd) (h6 : fds.cpu_ref_cycles_fds[i]? = some rfd)
    (hu : s.stats.core_user_times[i]? = some u) (hs : s.stats.core_system_times[i]? = some sy)
    (hc : s.stats.core_cpu_times[i]? = some c) :
    end_phase_core env fds s i =
      .ok { s with
        stats := { s.stats with
          core_user_times := s.stats.core_user_times.set i (counter_seconds env ufd u)
          core_system_times := s.stats.core_system_times.set i (counter_seconds env sfd sy)
          core_cpu_times := s.stats.core_cpu_times.set i
            (cycles_scaled env cfd (counter_seconds env ufd u + counter_seconds env sfd sy))
          io_wait_time_ms := s.stats.io_wait_time_ms + migration_ms env wfd }
        events := s.events ++ core_events env fds i } := by
  have hi : i < s.stats.core_cpu_times.length := by
    by_contra hcon
    rw [List.getElem?_eq_none (by omega)] at hc
    cases hc
  have hiu : i < s.stats.core_user_times.length := by
    by_contra hcon
    rw [List.getElem?_eq_none (by omega)] at hu
    cases hu
  have his : i < s.stats.core_system_times.length := by
    by_contra hcon
    rw [List.getElem?_eq_none (by omega)] at hs
    cases hs
  simp only [end_phase_core, idx_of_getElem? _ _ _ h1, idx_of_getElem? _ _ _ h2,
    idx_of_getElem? _ _ _ h3, idx_of_getElem? _ _ _ h4, idx_of_getElem? _ _ _ h5,
    idx_of_getElem? _ _ _ h6, bind, Except.bind, pure, Except.pure]
  rw [read_user_time_eq env ufd i s u hu]
  rw [read_system_time_eq env sfd i _ sy (by simpa using hs)]
  rw [update_core_cpu_eq i _ (counter_seconds env ufd u) (counter_seconds env sfd sy) c
    (by simp [hiu]) (by simp [his]) (by simpa using hc)]
  simp only []
  rw [read_io_wait_eq]
  rw [read_cpu_cycles_eq env cfd i _ (counter_seconds env ufd u + counter_seconds env sfd sy)
    (by simp [hi])]
  simp only []
  rw [read_unused_eq, read_unused_eq]
  simp [core_events, h1, h2, h3, h4, h5, h6, List.getD]

/-- The perf event loop after `k` iterations. -/
theorem end_core_fds_loop (env : Env) (fds : CoreEventFds) (s : EndState) (n : Nat)
    (l1 : fds.user_time_fds.length = n) (l2 : fds.system_time_fds.length = n)
    (l3 : fds.io_wait_fds.length = n) (l4 : fds.cpu_cycles_fds.length = n)
    (l5 : fds.cpu_instructions_fds.length = n) (l6 : fds.cpu_ref_cycles_fds.length = n)
    (lu : s.stats.core_user_times.length = n) (ls : s.stats.core_system_times.length = n)
    (lc : s.stats.core_cpu_times.length = n) (U S C : List ℚ)
    (hU : U = List.zipWith (counter_seconds env) fds.user_time_fds s.stats.core_user_times)
    (hS : S = List.zipWith (counter_seconds env) fds.system_time_fds s.stats.core_system_times)
    (hC : C = List.zipWith (cycles_scaled env) fds.cpu_cycles_fds (List.zipWith (· + ·) U S))
    (k : Nat) (hk : k ≤ n) :
    (List.range k).foldlM (end_phase_core env fds) s =
      .ok { s with
        stats := { s.stats with
          core_user_times := splice k U s.stats.core_user_times
          core_system_times := splice k S s.stats.core_system_times
          core_cpu_times := splice k C s.stats.core_cpu_times
          io_wait_time_ms := s.stats.io_wait_time_ms +
            ((fds.io_wait_fds.take k).map (migration_ms env)).sum }
        events := s.events ++ (List.range k).flatMap (core_events env fds) } := by
  have lU : U.length = s.stats.core_user_times.length := by simp [hU, l1, lu]
  have lS : S.length = s.stats.core_system_times.length := by simp [hS, l2, ls]
  have lC : C.length = s.stats.core_cpu_times.length := by
    simp [hC, hU, hS, l1, l2, l4, lu, ls, lc]
  induction k with
  | zero => simp [splice_zero]; rfl
  | succ k ih =>
    have hkn : k < n := hk
    rw [List.range_succ, List.foldlM_append, ih (le_of_lt hkn)]
    obtain ⟨ufd, e1⟩ := exists_getElem? fds.user_time_fds k (by omega)
    obtain ⟨sfd, e2⟩ := exists_getElem? fds.system_time_fds k (by omega)
    obtain ⟨wfd, e3⟩ := exists_getElem? fds.io_wait_fds k (by omega)
    obtain ⟨cfd, e4⟩ := exists_getElem? fds.cpu_cycles_fds k (by omega)
    obtain ⟨ifd, e5⟩ := exists_getElem? fds.cpu_instructions_fds k (by omega)
    obtain ⟨rfd, e6⟩ := exists_getElem? fds.cpu_ref_cycles_fds k (by omega)
    obtain ⟨u, eu⟩ := exists_getElem? s.stats.core_user_times k (by omega)
    obtain ⟨sy, es⟩ := exists_getElem? s.stats.core_system_times k (by omega)
    obtain ⟨c, ec⟩ := exists_getElem? s.stats.core_cpu_times k (by omega)
    have eU : U[k]? = some (counter_seconds env ufd u) := by
      rw [hU, List.getElem?_zipWith, e1, eu]
    have eS : S[k]? = some (counter_seconds env sfd sy) := by
      rw [hS, List.getElem?_zipWith, e2, es]
    have eC : C[k]? = some (cycles_scaled env cfd
        (counter_seconds env ufd u + counter_seconds env sfd sy)) := by
      rw [hC, List.getElem?_zipWith, e4, List.getElem?_zipWith, eU, eS]
    simp only [bind, Except.bind, List.foldlM, pure, Except.pure]
    rw [end_phase_core_eq env fds _ k ufd sfd wfd cfd ifd rfd u sy c e1 e2 e3 e4 e5 e6
      (by rw [splice_getElem? k U _ lU]; exact eu)
      (by rw [splice_getElem? k S _ lS]; exact es)
      (by rw [splice_getElem? k C _ lC]; exact ec)]
    simp only []
    rw [splice_set k U _ lU _ eU, splice_set k S _ lS _ eS, splice_set k C _ lC _ eC]
    simp [List.take_succ, e3, List.flatMap_append, add_assoc]

/-! ## The blocks of `end_phase` -/

theorem PhaseMap.erase_of_none {α : Type} (m : PhaseMap α) (key : String) (h : m key = none) :
    m.erase key = m := by
  funext k
  unfold PhaseMap.erase
  by_cases hk : k = key
  · simp [hk, h]
  · simp [hk]

theorem double_to_u64_natCast (n : Nat) (h : n < U64) : double_to_u64 (n : ℚ) = .ok n := by
  have h1 : (-1 : ℚ) < (n : ℚ) := by
    have : (0 : ℚ) ≤ (n : ℚ) := Nat.cast_nonneg n
    linarith
  have h2 : (n : ℚ) < (U64 : ℚ) := by exact_mod_cast h
  have h3 : (n : ℚ).floor = (n : Int) := Int.floor_natCast (α := ℚ) n
  simp [double_to_u64, h1, h2, h3]

theorem estimate_io_wait_eq (stats : PerfStats) (total : Nat) :
    estimate_io_wait stats total =
      { stats with io_wait_time_ms :=
          if total > 0 then io_wait_volume stats.wall_time_ms total else stats.io_wait_time_ms } := by
  unfold estimate_io_wait io_wait_volume
  by_cases h1 : total > 0
  · by_cases h2 : stats.wall_time_ms > 0
    · simp [h1, h2]
    · simp [h1, h2]
  · simp [h1]

theorem core_times_now_length (env : Env) (cores : List Int) :
    (core_times_now env cores).length = cores.length := by
  simp [core_times_now, List.enum_length]

/-- The tick loop after `k` iterations. -/
theorem end_core_times_loop (ends starts : List (ℚ × ℚ)) (stats : PerfStats) (n : Nat)
    (le : ends.length = n) (lb : starts.length = n) (k : Nat) (hk : k ≤ n) :
    (List.range k).foldlM (end_core_times_step ends starts) stats =
      .ok { stats with
        core_user_times := stats.core_user_times ++ (tick_user_times ends starts).take k
        core_system_times := stats.core_system_times ++ (tick_system_times ends starts).take k } := by
  induction k with
  | zero => simp; rfl
  | succ k ih =>
    have hkn : k < n := hk
    obtain ⟨e, he⟩ := exists_getElem? ends k (by omega)
    obtain ⟨b, hb⟩ := exists_getElem? starts k (by omega)
    rw [List.range_succ, List.foldlM_append, ih (le_of_lt hkn)]
    simp only [bind, Except.bind, List.foldlM, pure, Except.pure, end_core_times_step,
      idx_of_getElem? _ _ _ he, idx_of_getElem? _ _ _ hb]
    simp [List.take_succ, tick_user_times, tick_system_times, List.getElem?_zipWith, he, hb]

theorem end_process_time_eq (env : Env) (phase_name : String) (it : Option timespec)
    (s : EndState) (h : s.monitor.phase_start_process_time phase_name = it) :
    end_process_time env phase_name it s =
      { s with
        stats := { s.stats with
          process_cpu_time_sec :=
            process_cpu_delta it env.process_cputime s.stats.process_cpu_time_sec }
        monitor := { s.monitor with
          phase_start_process_time := s.monitor.phase_start_process_time.erase phase_name } } := by
  unfold end_process_time process_cpu_delta
  cases it with
  | none => simp [PhaseMap.erase_of_none _ _ h]
  | some a =>
    cases hc : env.process_cputime with
    | none => simp
    | some b => simp

theorem end_core_timespec_eq (phase_name : String) (it : Option CoreTimespec)
    (s : EndState) (h : s.monitor.phase_core_timespec phase_name = it) :
    end_core_timespec phase_name it s =
      { s with monitor := { s.monitor with
          phase_core_timespec := s.monitor.phase_core_timespec.erase phase_name } } := by
  unfold end_core_timespec
  cases it with
  | none => simp [PhaseMap.erase_of_none _ _ h]
  | some a => simp

theorem end_core_times_eq (env : Env) (phase_name : String) (ticks : List (ℚ × ℚ))
    (s : EndState) (h : ticks.length = s.monitor.monitored_cores.length) :
    end_core_times env phase_name (some ticks) s =
      .ok { s with
        stats := { s.stats with
          core_user_times := s.stats.core_user_times ++
            tick_user_times (core_times_now env s.monitor.monitored_cores) ticks
          core_system_times := s.stats.core_system_times ++
            tick_system_times (core_times_now env s.monitor.monitored_cores) ticks }
        monitor := { s.monitor with
          phase_start_core_times := s.monitor.phase_start_core_times.erase phase_name } } := by
  have hl := core_times_now_length env s.monitor.monitored_cores
  simp only [end_core_times, bind, Except.bind, pure, Except.pure]
  rw [end_core_times_loop _ ticks s.stats _ hl h _ le_rfl]
  have t1 : (tick_user_times (core_times_now env s.monitor.monitored_cores) ticks).length
      = s.monitor.monitored_cores.length := by
    simp [tick_user_times, hl, h]
  have t2 : (tick_system_times (core_times_now env s.monitor.monitored_cores) ticks).length
      = s.monitor.monitored_cores.length := by
    simp [tick_system_times, hl, h]
  simp only []
  rw [List.take_of_length_le (le_of_eq t1), List.take_of_length_le (le_of_eq t2)]

theorem end_core_fds_eq (env : Env) (phase_name : String) (fds : CoreEventFds) (s : EndState)
    (l1 : fds.user_time_fds.length = s.monitor.monitored_cores.length)
    (l2 : fds.system_time_fds.length = s.monitor.monitored_cores.length)
    (l3 : fds.io_wait_fds.length = s.monitor.monitored_cores.length)
    (l4 : fds.cpu_cycles_fds.length = s.monitor.monitored_cores.length)
    (l5 : fds.cpu_instructions_fds.length = s.monitor.monitored_cores.length)
    (l6 : fds.cpu_ref_cycles_fds.length = s.monitor.monitored_cores.length)
    (lu : s.stats.core_user_times.length = s.monitor.monitored_cores.length)
    (ls : s.stats.core_system_times.length = s.monitor.monitored_cores.length)
    (lc : s.stats.core_cpu_times.length = s.monitor.monitored_cores.length) :
    end_core_fds env phase_name (some fds) s =
      .ok { s with
        stats := { s.stats with
          core_user_times :=
            List.zipWith (counter_seconds env) fds.user_time_fds s.stats.core_user_times
          core_system_times :=
            List.zipWith (counter_seconds env) fds.system_time_fds s.stats.core_system_times
          core_cpu_times :=
            List.zipWith (cycles_scaled env) fds.cpu_cycles_fds
              (List.zipWith (· + ·)
                (List.zipWith (counter_seconds env) fds.user_time_fds s.stats.core_user_times)
                (List.zipWith (counter_seconds env) fds.system_time_fds
                  s.stats.core_system_times))
          io_wait_time_ms := s.stats.io_wait_time_ms +
            (fds.io_wait_fds.map (migration_ms env)).sum }
        monitor := { s.monitor with
          phase_core_fds := s.monitor.phase_core_fds.erase phase_name }
        events := s.events ++
          (List.range s.monitor.monitored_cores.length).flatMap (core_events env fds) } := by
  simp only [end_core_fds, bind, Except.bind, pure, Except.pure]
  rw [end_core_fds_loop env fds s _ l1 l2 l3 l4 l5 l6 lu ls lc _ _ _ rfl rfl rfl _ le_rfl]
  simp only []
  have e1 := splice_full (List.zipWith (counter_seconds env) fds.user_time_fds
    s.stats.core_user_times) s.stats.core_user_times (by simp [l1, lu])
  have e2 := splice_full (List.zipWith (counter_seconds env) fds.system_time_fds
    s.stats.core_system_times) s.stats.core_system_times (by simp [l2, ls])
  have e3 := splice_full (List.zipWith (cycles_scaled env) fds.cpu_cycles_fds
    (List.zipWith (· + ·)
      (List.zipWith (counter_seconds env) fds.user_time_fds s.stats.core_user_times)
      (List.zipWith (counter_seconds env) fds.system_time_fds s.stats.core_system_times)))
    s.stats.core_cpu_times (by simp [l1, l2, l4, lu, ls, lc])
  rw [lu] at e1
  rw [ls] at e2
  rw [lc] at e3
  rw [e1, e2, e3, List.take_of_length_le (le_of_eq l3)]

theorem end_io_eq (env : Env) (phase_name : String) (io0 io1 : IOStats) (s : EndState)
    (hio : get_io_stats env.proc_self_io = .ok io1)
    (hub : io_total io0 io1 < U64) :
    end_io env phase_name (some io0) s =
      .ok { s with
        stats := { s.stats with
          io_bytes_read := ((io_delta io1.bytes_read io0.bytes_read : Nat) : ℚ)
          io_bytes_written := ((io_delta io1.bytes_written io0.bytes_written : Nat) : ℚ)
          io_wait_time_ms :=
            if io_total io0 io1 > 0 then
              io_wait_volume s.stats.wall_time_ms
                (io_total io0 io1)
            else s.stats.io_wait_time_ms }
        monitor := { s.monitor with
          phase_start_io := s.monitor.phase_start_io.erase phase_name } } := by
  have hconv := double_to_u64_natCast _ hub
  unfold io_total io_delta at hconv
  simp only [end_io, hio, bind, Except.bind, pure, Except.pure, hconv]
  simp only [estimate_io_wait_eq]
  rfl

theorem io_wait_volume_zero (w : ℚ) : io_wait_volume w 0 = 0 := by
  simp [io_wait_volume]

/-- The result of `end_phase` for a started phase whose I/O counters can be read
and whose byte total fits 64 bits. -/
theorem end_phase_started (env : Env) (m : PerformanceMonitor) (phase_name : String)
    (start : Int) (ru : rusage) (io0 io1 : IOStats) (ticks : List (ℚ × ℚ)) (fds : CoreEventFds)
    (hs : StartedWith m phase_name start ru io0 ticks fds)
    (hio : get_io_stats env.proc_self_io = .ok io1)
    (hub : io_total io0 io1 < U64) :
    end_phase env m phase_name =
      .ok (end_stats env m phase_name start ru io0 io1 ticks fds, erase_phase m phase_name,
        end_events env m fds) := by
  unfold end_phase
  simp only [hs.time, hs.rusage, hs.io, hs.core_times, hs.core_fds]
  simp only [end_wall_clock, end_rusage]
  rw [end_io_eq env phase_name io0 io1 _ hio hub]
  simp only [bind, Except.bind, pure, Except.pure]
  rw [end_process_time_eq env phase_name (m.phase_start_process_time phase_name) _ rfl]
  rw [end_core_times_eq env phase_name ticks _ hs.len_ticks]
  simp only []
  rw [end_core_fds_eq env phase_name fds _ hs.len_user hs.len_system hs.len_io_wait
    hs.len_cycles hs.len_instructions hs.len_ref_cycles
    (by simp [PerfStats.init, tick_user_times, core_times_now_length, hs.len_ticks])
    (by simp [PerfStats.init, tick_system_times, core_times_now_length, hs.len_ticks])
    (by simp [PerfStats.init, resize])]
  simp only []
  rw [end_core_timespec_eq phase_name (m.phase_core_timespec phase_name) _ rfl]
  simp only [PerfStats.init, List.nil_append, end_stats, erase_phase, end_events, List.nil_append]
  by_cases h0 : io_total io0 io1 > 0
  · simp only [h0, if_true]
  · have h1 : io_total io0 io1 = 0 := by omega
    simp only [h1, io_wait_volume_zero]
    simp

/-- The result of `end_phase` for a phase without any snapshot. -/
theorem end_phase_never_started (env : Env) (m : PerformanceMonitor) (phase_name : String)
    (h : NeverStarted m phase_name) :
    end_phase env m phase_name =
      .ok ({ PerfStats.init with core_cpu_times := List.replicate m.monitored_cores.length 0 }, m,
        [Event.warning Warning.time_not_found, Event.warning Warning.rusage_not_found,
          Event.warning Warning.io_not_found, Event.warning Warning.core_times_not_found,
          Event.warning Warning.core_fds_not_found]) := by
  unfold end_phase
  simp only [h.time, h.rusage, h.io, h.process_time, h.core_times, h.core_fds, h.core_timespec,
    end_wall_clock, end_rusage, end_io, end_process_time, end_core_times, end_core_fds,
    end_core_timespec, EndState.log, bind, Except.bind, pure, Except.pure, PerfStats.init,
    resize_nil, List.nil_append, List.cons_append]

/-! ## Text parsing facts -/

theorem isspace_not_isDigit (c : Char) (h : c.isDigit = true) : isspace c = false := by
  by_contra hc
  have hs : isspace c = true := by simpa using hc
  simp only [isspace, Bool.or_eq_true, decide_eq_true_eq] at hs
  rcases hs with ((((h1 | h1) | h1) | h1) | h1) | h1 <;> (subst h1; revert h; decide)

theorem sign_not_isDigit (c : Char) (h : c.isDigit = true) : c ≠ '-' ∧ c ≠ '+' := by
  constructor <;> (intro hc; subst hc; revert h; decide)

theorem dropWhile_append_all {α : Type} (p : α → Bool) (w r : List α)
    (hw : ∀ c ∈ w, p c = true) : (w ++ r).dropWhile p = r.dropWhile p := by
  induction w with
  | nil => rfl
  | cons c w ih =>
    have hc : p c = true := hw c (List.mem_cons_self c w)
    simp only [List.cons_append, List.dropWhile_cons, hc, if_true]
    exact ih (fun x hx => hw x (List.mem_cons_of_mem c hx))

theorem takeWhile_append_all {α : Type} (p : α → Bool) (w r : List α)
    (hw : ∀ c ∈ w, p c = true) : (w ++ r).takeWhile p = w ++ r.takeWhile p := by
  induction w with
  | nil => rfl
  | cons c w ih =>
    have hc : p c = true := hw c (List.mem_cons_self c w)
    simp only [List.cons_append, List.takeWhile_cons, hc, if_true]
    rw [ih (fun x hx => hw x (List.mem_cons_of_mem c hx))]

theorem dropWhile_head_neg {α : Type} (p : α → Bool) (r : List α)
    (hr : ∀ c ∈ r.head?, p c = false) : r.dropWhile p = r := by
  cases r with
  | nil => rfl
  | cons c r =>
    have hc : p c = false := hr c (by simp)
    simp [List.dropWhile_cons, hc]

theorem takeWhile_head_neg {α : Type} (p : α → Bool) (r : List α)
    (hr : ∀ c ∈ r.head?, p c = false) : r.takeWhile p = [] := by
  cases r with
  | nil => rfl
  | cons c r =>
    have hc : p c = false := hr c (by simp)
    simp [List.takeWhile_cons, hc]

theorem splitSign_digit (c : Char) (r : List Char) (h : c.isDigit = true) :
    splitSign (c :: r) = (false, c :: r) := by
  have hs := sign_not_isDigit c h
  unfold splitSign
  split
  · rename_i heq
    simp only [List.cons.injEq] at heq
    exact absurd heq.1.symm (by intro hh; exact hs.1 hh.symm)
  · rename_i heq
    simp only [List.cons.injEq] at heq
    exact absurd heq.1.symm (by intro hh; exact hs.2 hh.symm)
  · rfl

/-- A numeric field of a table line: white space, then a decimal numeral that fits
an `unsigned long`. -/
theorem extract_ulong_field (w d r : List Char) (old : Nat)
    (hw : ∀ c ∈ w, isspace c = true) (hd : d ≠ []) (hdig : ∀ c ∈ d, c.isDigit = true)
    (hv : decVal d < U64) (hr : ∀ c ∈ r.head?, c.isDigit = false) :
    extract_ulong ⟨w ++ (d ++ r), false⟩ old = (decVal d, ⟨r, false⟩) := by
  obtain ⟨c, d', rfl⟩ := List.exists_cons_of_ne_nil hd
  have hc : c.isDigit = true := hdig c (List.mem_cons_self c d')
  have h1 : (w ++ (c :: d' ++ r)).dropWhile isspace = c :: (d' ++ r) := by
    rw [dropWhile_append_all isspace w _ hw]
    exact dropWhile_head_neg isspace _ (by
      intro x hx
      simp at hx
      subst hx
      exact isspace_not_isDigit _ hc)
  have h2 : (c :: (d' ++ r)).takeWhile Char.isDigit = c :: d' := by
    have := takeWhile_append_all Char.isDigit (c :: d') r hdig
    rw [takeWhile_head_neg Char.isDigit r hr] at this
    simpa using this
  have h3 : (c :: (d' ++ r)).dropWhile Char.isDigit = r := by
    have := dropWhile_append_all Char.isDigit (c :: d') r hdig
    rw [dropWhile_head_neg Char.isDigit r hr] at this
    simpa using this
  unfold extract_ulong
  simp only [Bool.false_eq_true, if_false, h1, splitSign_digit c _ hc, h2, h3]
  simp [Nat.not_le.mpr hv]

theorem digitChar_isDigit (n : Nat) (h : n < 10) : (Nat.digitChar n).isDigit = true := by
  interval_cases n <;> decide

theorem toDigitsCore_isDigit (fuel : Nat) : ∀ (n : Nat) (ds : List Char),
    (∀ c ∈ ds, c.isDigit = true) → ∀ c ∈ Nat.toDigitsCore 10 fuel n ds, c.isDigit = true := by
  induction fuel with
  | zero => intro n ds hds; simpa [Nat.toDigitsCore] using hds
  | succ fuel ih =>
    intro n ds hds
    have hd : (Nat.digitChar (n % 10)).isDigit = true :=
      digitChar_isDigit _ (Nat.mod_lt _ (by decide))
    have hds2 : ∀ c ∈ Nat.digitChar (n % 10) :: ds, c.isDigit = true := by
      intro c hc
      rcases List.mem_cons.mp hc with h | h
      · rw [h]; exact hd
      · exact hds c h
    simp only [Nat.toDigitsCore]
    split
    · exact hds2
    · exact ih _ _ hds2

theorem repr_isDigit (n : Nat) : ∀ c ∈ (Nat.repr n).toList, c.isDigit = true := by
  intro c hc
  have : (Nat.repr n).toList = Nat.toDigits 10 n := by
    simp [Nat.repr, List.asString, String.toList]
  rw [this] at hc
  exact toDigitsCore_isDigit _ _ _ (by simp) c hc

/-- No character of `"cpu" + std::to_string(core_id)` is white space. -/
theorem cpu_label_of_no_space (core_id : Int) : ∀ c ∈ cpu_label_of core_id, isspace c = false := by
  intro c hc
  unfold cpu_label_of to_string at hc
  rcases List.mem_append.mp hc with h | h
  · have h3 : c = 'c' ∨ c = 'p' ∨ c = 'u' := by simpa [String.toList] using h
    rcases h3 with h3 | h3 | h3 <;> (subst h3; decide)
  · cases core_id with
    | ofNat m =>
      have h2 : c ∈ (Nat.repr m).toList := h
      exact isspace_not_isDigit c (repr_isDigit m c h2)
    | negSucc m =>
      have h2 : c ∈ ("-" ++ Nat.repr (m + 1)).toList := h
      rw [String.toList, String.data_append] at h2
      rcases List.mem_append.mp h2 with h3 | h3
      · have h4 : c = '-' := by simpa using h3
        subst h4; decide
      · exact isspace_not_isDigit c (repr_isDigit (m + 1) c h3)

theorem cpu_label_of_ne_nil (core_id : Int) : cpu_label_of core_id ≠ [] := by
  simp [cpu_label_of, String.toList]

/-- Extraction of the label of a table line. -/
theorem extract_word_label (label r : List Char) (hl : label ≠ [])
    (hns : ∀ c ∈ label, isspace c = false) (hr : ∀ c ∈ r.head?, isspace c = true) :
    extract_word ⟨label ++ r, false⟩ = (label, ⟨r, false⟩) := by
  obtain ⟨c, l', rfl⟩ := List.exists_cons_of_ne_nil hl
  have hc : isspace c = false := hns c (List.mem_cons_self c l')
  have hneg : ∀ x ∈ c :: l', (fun y => !isspace y) x = true := by
    intro x hx
    simp [hns x hx]
  have hrn : ∀ x ∈ r.head?, (fun y => !isspace y) x = false := by
    intro x hx
    simp [hr x hx]
  have h1 : (c :: l' ++ r).dropWhile isspace = c :: l' ++ r := by
    simp [List.dropWhile_cons, hc]
  have h2 : (c :: l' ++ r).takeWhile (fun y => !isspace y) = c :: l' := by
    have := takeWhile_append_all (fun y => !isspace y) (c :: l') r hneg
    rw [takeWhile_head_neg _ r hrn] at this
    simpa using this
  have h3 : (c :: l' ++ r).dropWhile (fun y => !isspace y) = r := by
    have := dropWhile_append_all (fun y => !isspace y) (c :: l') r hneg
    rw [dropWhile_head_neg _ r hrn] at this
    exact this
  unfold extract_word
  simp only [Bool.false_eq_true, if_false, h1, h2, h3]
  simp

theorem IsField.head_space {w d : List Char} (h : IsField w d) (x : List Char) :
    ∀ c ∈ (w ++ x).head?, isspace c = true := by
  obtain ⟨c0, w', rfl⟩ := List.exists_cons_of_ne_nil h.ws_ne
  intro c hc
  simp at hc
  subst hc
  exact h.ws _ (List.mem_cons_self _ _)

theorem IsField.head_not_digit {w d : List Char} (h : IsField w d) (x : List Char) :
    ∀ c ∈ (w ++ x).head?, c.isDigit = false := by
  intro c hc
  have hs := h.head_space x c hc
  by_contra hd
  have hd2 : c.isDigit = true := by simpa using hd
  rw [isspace_not_isDigit c hd2] at hs
  cases hs

theorem IsField.extract {w d : List Char} (h : IsField w d) (r : List Char) (old : Nat)
    (hr : ∀ c ∈ r.head?, c.isDigit = false) :
    extract_ulong ⟨w ++ (d ++ r), false⟩ old = (decVal d, ⟨r, false⟩) :=
  extract_ulong_field w d r old h.ws h.digits_ne h.digits h.fits hr

/-- Parsing a line that has a label and eight numeric fields. -/
theorem parse_stat_line_fields (junk : StatFields) (label rest : List Char)
    (f1 f2 f3 f4 f5 f6 f7 f8 : List Char × List Char)
    (hl : label ≠ []) (hns : ∀ c ∈ label, isspace c = false)
    (h1 : IsField f1.1 f1.2) (h2 : IsField f2.1 f2.2) (h3 : IsField f3.1 f3.2)
    (h4 : IsField f4.1 f4.2) (h5 : IsField f5.1 f5.2) (h6 : IsField f6.1 f6.2)
    (h7 : IsField f7.1 f7.2) (h8 : IsField f8.1 f8.2)
    (hrest : ∀ c ∈ rest.head?, c.isDigit = false) :
    parse_stat_line junk (stat_line label [f1, f2, f3, f4, f5, f6, f7, f8] rest) =
      ⟨decVal f1.2, decVal f2.2, decVal f3.2, decVal f4.2, decVal f5.2, decVal f6.2,
        decVal f7.2, decVal f8.2⟩ := by
  simp only [stat_line, List.foldr, parse_stat_line]
  rw [extract_word_label label _ hl hns (h1.head_space _)]
  simp only []
  rw [h1.extract _ _ (h2.head_not_digit _)]
  simp only []
  rw [h2.extract _ _ (h3.head_not_digit _)]
  simp only []
  rw [h3.extract _ _ (h4.head_not_digit _)]
  simp only []
  rw [h4.extract _ _ (h5.head_not_digit _)]
  simp only []
  rw [h5.extract _ _ (h6.head_not_digit _)]
  simp only []
  rw [h6.extract _ _ (h7.head_not_digit _)]
  simp only []
  rw [h7.extract _ _ (h8.head_not_digit _)]
  simp only []
  rw [h8.extract _ _ hrest]

theorem find_eq_zero_iff (p l : List Char) : find p l = some 0 ↔ p <+: l := by
  cases l with
  | nil =>
    unfold find
    by_cases h : p.isPrefixOf [] = true
    · simp [h, List.isPrefixOf_iff_prefix.mp h]
    · have h2 : ¬ p <+: [] := fun hh => h (List.isPrefixOf_iff_prefix.mpr hh)
      simp only [h, if_false]
      constructor
      · intro hh; cases hh
      · intro hh; exact absurd hh h2
  | cons c cs =>
    unfold find
    by_cases h : p.isPrefixOf (c :: cs) = true
    · simp [h, List.isPrefixOf_iff_prefix.mp h]
    · have h2 : ¬ p <+: c :: cs := fun hh => h (List.isPrefixOf_iff_prefix.mpr hh)
      simp only [h, if_false]
      constructor
      · intro hh
        cases hf : find p cs with
        | none => rw [hf] at hh; cases hh
        | some v => rw [hf] at hh; simp at hh
      · intro hh; exact absurd hh h2

theorem find?_first {α : Type} (q : α → Bool) (pre post : List α) (x : α)
    (hpre : ∀ l ∈ pre, q l = false) (hx : q x = true) :
    (pre ++ x :: post).find? q = some x := by
  induction pre with
  | nil => simp [List.find?_cons, hx]
  | cons a pre ih =>
    have ha : q a = false := hpre a (List.mem_cons_self a pre)
    simp only [List.cons_append, List.find?_cons, ha]
    exact ih (fun l hl => hpre l (List.mem_cons_of_mem a hl))

/-- The line that `get_core_cpu_time` parses is the first line that begins with the
characters of `"cpu" + std::to_string(core_id)`. -/
theorem get_core_cpu_time_first (junk : StatFields) (text : List Char) (core_id : Int)
    (pre post : List (List Char)) (line : List Char)
    (hl : getlines text = pre ++ line :: post)
    (hpre : ∀ l ∈ pre, ¬ cpu_label_of core_id <+: l)
    (hline : cpu_label_of core_id <+: line) :
    get_core_cpu_time junk (some text) core_id =
      (((to_double (((parse_stat_line junk line).user +
          (parse_stat_line junk line).nice) % U64) : Nat) : ℚ),
        ((to_double (((parse_stat_line junk line).system + (parse_stat_line junk line).irq +
          (parse_stat_line junk line).softirq) % U64) : Nat) : ℚ)) := by
  unfold get_core_cpu_time
  simp only [hl]
  rw [find?_first _ pre post line
    (by
      intro l hlm
      have := hpre l hlm
      simp [find_eq_zero_iff, this])
    (by simp [find_eq_zero_iff, hline])]

/-! ## 64-bit counters -/

theorem round_half_even_one (n : Nat) : round_half_even n 1 = n := by
  simp [round_half_even, Nat.mod_one]

theorem excess_bits_of_lt (fuel n : Nat) (h : n < 2 ^ 53) : excess_bits fuel n = 0 := by
  cases fuel with
  | zero => rfl
  | succ k =>
    unfold excess_bits
    rw [if_pos h]

/-- A `double` holds every integer below `2 ^ 53` exactly. -/
theorem to_double_of_lt (n : Nat) (h : n < 2 ^ 53) : to_double n = n := by
  unfold to_double
  rw [excess_bits_of_lt 64 n h]
  simp [round_half_even_one]

theorem two_pow_excess_bits_le (fuel n : Nat) (h : 0 < n) : 2 ^ excess_bits fuel n ≤ n := by
  induction fuel generalizing n with
  | zero => simpa [excess_bits] using h
  | succ k ih =>
    unfold excess_bits
    split
    · simpa using h
    · rename_i hn
      have h53 : (2 : Nat) ^ 53 = 9007199254740992 := by norm_num
      have h2 : 0 < n / 2 := by omega
      have h3 := ih (n / 2) h2
      rw [pow_succ]
      omega

theorem round_half_even_ge (n d : Nat) : n / d ≤ round_half_even n d := by
  unfold round_half_even
  split <;> omega

/-- A positive integer is not rounded to zero. -/
theorem to_double_pos (n : Nat) (h : 0 < n) : 0 < to_double n := by
  unfold to_double
  have hd := two_pow_excess_bits_le 64 n h
  have hpos : 0 < 2 ^ excess_bits 64 n := by positivity
  have h1 : 0 < n / 2 ^ excess_bits 64 n := Nat.div_pos hd hpos
  exact Nat.mul_pos (lt_of_lt_of_le h1 (round_half_even_ge _ _)) hpos

/-- Byte counts whose sum is below `2 ^ 53` go through the `double` fields of
`PerfStats` unchanged. -/
theorem io_total_of_lt (io0 io1 : IOStats)
    (h : u64_sub io1.bytes_read io0.bytes_read +
      u64_sub io1.bytes_written io0.bytes_written < 2 ^ 53) :
    io_delta io1.bytes_read io0.bytes_read = u64_sub io1.bytes_read io0.bytes_read ∧
    io_delta io1.bytes_written io0.bytes_written =
      u64_sub io1.bytes_written io0.bytes_written ∧
    io_total io0 io1 = u64_sub io1.bytes_read io0.bytes_read +
      u64_sub io1.bytes_written io0.bytes_written := by
  have h1 : io_delta io1.bytes_read io0.bytes_read = u64_sub io1.bytes_read io0.bytes_read :=
    to_double_of_lt _ (by omega)
  have h2 : io_delta io1.bytes_written io0.bytes_written =
      u64_sub io1.bytes_written io0.bytes_written := to_double_of_lt _ (by omega)
  refine ⟨h1, h2, ?_⟩
  unfold io_total
  rw [h1, h2]
  exact to_double_of_lt _ h

theorem u64_sub_lt (a b : Nat) : u64_sub a b < U64 := by
  unfold u64_sub U64
  have h := Int.emod_lt_of_pos ((a : Int) - (b : Int)) (by norm_num : (0 : Int) < ((2 ^ 64 : Nat) : Int))
  have h0 := Int.emod_nonneg ((a : Int) - (b : Int)) (by norm_num : ((2 ^ 64 : Nat) : Int) ≠ 0)
  omega

theorem u64_sub_of_le (a b : Nat) (hba : b ≤ a) (ha : a < U64) : u64_sub a b = a - b := by
  unfold u64_sub
  unfold U64 at ha ⊢
  have h : ((a : Int) - (b : Int)) % ((2 ^ 64 : Nat) : Int) = (a : Int) - (b : Int) :=
    Int.emod_eq_of_lt (by omega) (by push_cast; omega)
  rw [h]
  omega

theorem u64_sub_of_lt (a b : Nat) (hab : a < b) (hb : b < U64) :
    u64_sub a b = U64 - (b - a) := by
  unfold u64_sub
  unfold U64 at hb ⊢
  have h : ((a : Int) - (b : Int)) % ((2 ^ 64 : Nat) : Int) =
      (a : Int) - (b : Int) + ((2 ^ 64 : Nat) : Int) := by
    rw [← Int.add_emod_self]
    exact Int.emod_eq_of_lt (by push_cast; omega) (by push_cast; omega)
  rw [h]
  push_cast
  omega

theorem stoull_lt (s : List Char) (v : Nat) (h : stoull s = .ok v) : v < U64 := by
  unfold stoull at h
  simp only at h
  split at h
  · cases h
  · split at h
    · cases h
    · rename_i h1 h2
      simp only [Except.ok.injEq] at h
      subst h
      split
      · exact Nat.mod_lt _ (by unfold U64; norm_num)
      · omega

theorem get_io_stats_line_fits (stats stats' : IOStats) (line : List Char)
    (hs : stats.Fits) (h : get_io_stats_line stats line = .ok stats') : stats'.Fits := by
  unfold get_io_stats_line at h
  obtain ⟨h1, h2, h3, h4⟩ := hs
  split at h
  · cases hv : stoull (afterColon line) with
    | error e => simp [hv, bind, Except.bind] at h
    | ok v =>
      simp [hv, bind, Except.bind, pure, Except.pure] at h
      subst h
      exact ⟨stoull_lt _ _ hv, h2, h3, h4⟩
  · split at h
    · cases hv : stoull (afterColon line) with
      | error e => simp [hv, bind, Except.bind] at h
      | ok v =>
        simp [hv, bind, Except.bind, pure, Except.pure] at h
        subst h
        exact ⟨h1, stoull_lt _ _ hv, h3, h4⟩
    · split at h
      · cases hv : stoull (afterColon line) with
        | error e => simp [hv, bind, Except.bind] at h
        | ok v =>
          simp [hv, bind, Except.bind, pure, Except.pure] at h
          subst h
          exact ⟨h1, h2, stoull_lt _ _ hv, h4⟩
      · split at h
        · cases hv : stoull (afterColon line) with
          | error e => simp [hv, bind, Except.bind] at h
          | ok v =>
            simp [hv, bind, Except.bind, pure, Except.pure] at h
            subst h
            exact ⟨h1, h2, h3, stoull_lt _ _ hv⟩
        · simp [pure, Except.pure] at h
          subst h
          exact ⟨h1, h2, h3, h4⟩

theorem foldlM_fits (lines : List (List Char)) : ∀ (stats stats' : IOStats),
    stats.Fits → lines.foldlM get_io_stats_line stats = .ok stats' → stats'.Fits := by
  induction lines with
  | nil =>
    intro stats stats' hs h
    simp [List.foldlM, pure, Except.pure] at h
    subst h
    exact hs
  | cons l ls ih =>
    intro stats stats' hs h
    simp only [List.foldlM, bind, Except.bind] at h
    cases hl : get_io_stats_line stats l with
    | error e => rw [hl] at h; cases h
    | ok s1 =>
      rw [hl] at h
      exact ih s1 stats' (get_io_stats_line_fits stats s1 l hs hl) h

/-- Every counter that `get_io_stats` returns fits 64 bits. -/
theorem get_io_stats_fits (text : Option (List Char)) (io : IOStats)
    (h : get_io_stats text = .ok io) : io.Fits := by
  unfold get_io_stats at h
  have h0 : (⟨0, 0, 0, 0⟩ : IOStats).Fits := by
    unfold IOStats.Fits U64
    norm_num
  cases text with
  | none =>
    simp only [Except.ok.injEq] at h
    subst h
    exact h0
  | some t => exact foldlM_fits _ _ _ h0 h

/-! ## Entries of the per-core vectors -/

theorem core_times_now_getElem? (env : Env) (cores : List Int) (i : Nat) (c : Int)
    (h : cores[i]? = some c) :
    (core_times_now env cores)[i]? =
      some (get_core_cpu_time (env.junk i) (env.proc_stat i) c) := by
  simp [core_times_now, List.getElem?_map, List.getElem?_enum, h]

theorem zipWith_getElem?_some {α β γ : Type} (f : α → β → γ) (a : List α) (b : List β)
    (i : Nat) (x : α) (y : β) (hx : a[i]? = some x) (hy : b[i]? = some y) :
    (List.zipWith f a b)[i]? = some (f x y) := by
  rw [List.getElem?_zipWith, hx, hy]

theorem zipWith_forall {α β γ : Type} (f : α → β → γ) (a : List α) (b : List β)
    (P : γ → Prop)
    (h : ∀ (i : Nat) (x : α) (y : β), a[i]? = some x → b[i]? = some y → P (f x y)) :
    ∀ z ∈ List.zipWith f a b, P z := by
  intro z hz
  obtain ⟨i, hi⟩ := List.mem_iff_getElem?.mp hz
  rw [List.getElem?_zipWith] at hi
  cases hx : a[i]? with
  | none => rw [hx] at hi; cases hi
  | some x =>
    cases hy : b[i]? with
    | none => rw [hx, hy] at hi; cases hi
    | some y =>
      rw [hx, hy] at hi
      simp only [Option.some.injEq] at hi
      rw [← hi]
      exact h i x y hx hy

theorem end_stats_core_user (env : Env) (m : PerformanceMonitor) (phase_name : String)
    (start : Int) (ru : rusage) (io0 io1 : IOStats) (ticks : List (ℚ × ℚ)) (fds : CoreEventFds)
    (i : Nat) (c : Int) (b : ℚ × ℚ) (ufd : Int)
    (hc : m.monitored_cores[i]? = some c) (hb : ticks[i]? = some b)
    (hu : fds.user_time_fds[i]? = some ufd) :
    (end_stats env m phase_name start ru io0 io1 ticks fds).core_user_times[i]? =
      some (counter_seconds env ufd
        (((get_core_cpu_time (env.junk i) (env.proc_stat i) c).1 - b.1) / 100)) := by
  simp only [end_stats, tick_user_times]
  exact zipWith_getElem?_some _ _ _ i _ _ hu
    (zipWith_getElem?_some _ _ _ i _ _ (core_times_now_getElem? env _ i c hc) hb)

theorem end_stats_core_system (env : Env) (m : PerformanceMonitor) (phase_name : String)
    (start : Int) (ru : rusage) (io0 io1 : IOStats) (ticks : List (ℚ × ℚ)) (fds : CoreEventFds)
    (i : Nat) (c : Int) (b : ℚ × ℚ) (sfd : Int)
    (hc : m.monitored_cores[i]? = some c) (hb : ticks[i]? = some b)
    (hu : fds.system_time_fds[i]? = some sfd) :
    (end_stats env m phase_name start ru io0 io1 ticks fds).core_system_times[i]? =
      some (counter_seconds env sfd
        (((get_core_cpu_time (env.junk i) (env.proc_stat i) c).2 - b.2) / 100)) := by
  simp only [end_stats, tick_system_times]
  exact zipWith_getElem?_some _ _ _ i _ _ hu
    (zipWith_getElem?_some _ _ _ i _ _ (core_times_now_getElem? env _ i c hc) hb)

theorem end_stats_lengths (env : Env) (m : PerformanceMonitor) (phase_name : String)
    (start : Int) (ru : rusage) (io0 io1 : IOStats) (ticks : List (ℚ × ℚ)) (fds : CoreEventFds)
    (hs : StartedWith m phase_name start ru io0 ticks fds) :
    (end_stats env m phase_name start ru io0 io1 ticks fds).core_user_times.length =
        m.monitored_cores.length ∧
      (end_stats env m phase_name start ru io0 io1 ticks fds).core_system_times.length =
        m.monitored_cores.length ∧
      (end_stats env m phase_name start ru io0 io1 ticks fds).core_cpu_times.length =
        m.monitored_cores.length := by
  simp [end_stats, tick_user_times, tick_system_times, core_times_now_length, hs.len_ticks,
    hs.len_user, hs.len_system, hs.len_cycles]

theorem counter_seconds_of_ok (env : Env) (fd : Int) (tick : ℚ)
    (h : fd ≠ -1 ∧ (env.read fd 24).1 = 24) :
    counter_seconds env fd tick = ((env.read fd 24).2.value : ℚ) / 1000000000 := by
  unfold counter_seconds counter_read_ok
  rw [if_pos (by simpa using h)]

theorem counter_seconds_of_not_ok (env : Env) (fd : Int) (tick : ℚ)
    (h : ¬ (fd ≠ -1 ∧ (env.read fd 24).1 = 24)) :
    counter_seconds env fd tick = tick := by
  unfold counter_seconds counter_read_ok
  rw [if_neg (by simpa using h)]

theorem counter_seconds_nonneg (env : Env) (fd : Int) (tick : ℚ) (h : 0 ≤ tick) :
    0 ≤ counter_seconds env fd tick := by
  unfold counter_seconds
  split
  · positivity
  · exact h

theorem monA_started : StartedWith monA "A" 0 ⟨⟨0, 0⟩, ⟨0, 0⟩⟩ ⟨4096, 0, 0, 0⟩ [(5, 3)]
    ⟨[-1], [-1], [-1], [-1], [-1], [-1]⟩ :=
  ⟨rfl, rfl, rfl, rfl, rfl, rfl, rfl, rfl, rfl, rfl, rfl, rfl⟩

theorem end_stats_monA_envEndLost :
    end_stats envEndLost monA "A" 0 ⟨⟨0, 0⟩, ⟨0, 0⟩⟩ ⟨4096, 0, 0, 0⟩ ⟨0, 0, 0, 0⟩ [(5, 3)]
      ⟨[-1], [-1], [-1], [-1], [-1], [-1]⟩ =
    { wall_time_ms := 2, user_time_sec := 0, system_time_sec := 0, cpu_time_sec := 0,
      io_wait_time_ms := 9 / 5, io_bytes_read := 18446744073709547520, io_bytes_written := 0,
      core_user_times := [-1 / 20], core_system_times := [-3 / 100],
      core_cpu_times := [-2 / 25], process_cpu_time_sec := 0 } := by
  have hct : core_times_now envEndLost monA.monitored_cores = [(0, 0)] := rfl
  have hr : io_delta 0 4096 = 18446744073709547520 := by decide
  have hw : io_delta 0 0 = 0 := by decide
  have ht : io_total ⟨4096, 0, 0, 0⟩ ⟨0, 0, 0, 0⟩ = 18446744073709547520 := by decide
  have hwall : Int.tdiv (envEndLost.now - 0) 1000000 = 2 := by decide
  have hru : envEndLost.self_rusage = ⟨⟨0, 0⟩, ⟨0, 0⟩⟩ := rfl
  have hpt : process_cpu_delta (monA.phase_start_process_time "A") envEndLost.process_cputime 0
      = 0 := by
    have h1 : monA.phase_start_process_time "A" = some ⟨0, 0⟩ := rfl
    have h2 : envEndLost.process_cputime = some ⟨0, 0⟩ := rfl
    rw [h1, h2]
    simp [process_cpu_delta, timespecToSeconds]
  simp only [end_stats, hct, hr, hw, ht, hwall, hru, hpt]
  simp [tick_user_times, tick_system_times, counter_seconds, counter_read_ok, cycles_scaled,
    migration_ms, io_wait_volume, toSeconds]
  norm_num

theorem monB_started : StartedWith monB "A" 0 ⟨⟨0, 0⟩, ⟨0, 0⟩⟩ ⟨4096, 0, 0, 0⟩ [(5, 3)]
    ⟨[3], [4], [-1], [-1], [-1], [-1]⟩ :=
  ⟨rfl, rfl, rfl, rfl, rfl, rfl, rfl, rfl, rfl, rfl, rfl, rfl⟩

theorem end_stats_monA_envEndFast :
    end_stats envEndFast monA "A" 0 ⟨⟨0, 0⟩, ⟨0, 0⟩⟩ ⟨4096, 0, 0, 0⟩ ⟨1052672, 0, 0, 0⟩ [(5, 3)]
      ⟨[-1], [-1], [-1], [-1], [-1], [-1]⟩ =
    { wall_time_ms := 0, user_time_sec := 0, system_time_sec := 0, cpu_time_sec := 0,
      io_wait_time_ms := 10, io_bytes_read := 1048576, io_bytes_written := 0,
      core_user_times := [0], core_system_times := [0],
      core_cpu_times := [0], process_cpu_time_sec := 0 } := by
  have hct : core_times_now envEndFast monA.monitored_cores = [(5, 3)] := rfl
  have hr : io_delta 1052672 4096 = 1048576 := by decide
  have hw : io_delta 0 0 = 0 := by decide
  have ht : io_total ⟨4096, 0, 0, 0⟩ ⟨1052672, 0, 0, 0⟩ = 1048576 := by decide
  have hwall : Int.tdiv (envEndFast.now - 0) 1000000 = 0 := by decide
  have hru : envEndFast.self_rusage = ⟨⟨0, 0⟩, ⟨0, 0⟩⟩ := rfl
  have hpt : process_cpu_delta (monA.phase_start_process_time "A") envEndFast.process_cputime 0
      = 0 := by
    have h1 : monA.phase_start_process_time "A" = some ⟨0, 0⟩ := rfl
    have h2 : envEndFast.process_cputime = some ⟨0, 0⟩ := rfl
    rw [h1, h2]
    simp [process_cpu_delta, timespecToSeconds]
  simp only [end_stats, hct, hr, hw, ht, hwall, hru, hpt]
  simp [tick_user_times, tick_system_times, counter_seconds, counter_read_ok, cycles_scaled,
    migration_ms, io_wait_volume, toSeconds]
  norm_num

theorem io_wait_volume_le (wall : ℚ) (total : Nat) (h : 0 < wall) :
    io_wait_volume wall total ≤ wall * (9 / 10) := by
  unfold io_wait_volume
  by_cases ht : total > 0
  · simp only [ht, if_true, gt_iff_lt, h]
    exact min_le_right _ _
  · simp only [ht, if_false]
    positivity

theorem io_wait_volume_uncapped (wall : ℚ) (total : Nat) (h : wall ≤ 0) :
    io_wait_volume wall total = ((total : ℚ) / (100 * 1024 * 1024)) * 1000 := by
  unfold io_wait_volume
  have hw : ¬ wall > 0 := not_lt.mpr h
  by_cases ht : total > 0
  · simp only [ht, if_true, hw, if_false]
  · have h0 : total = 0 := by omega
    simp [h0]

theorem tick_times_nonneg (env : Env) (cores : List Int) (ticks : List (ℚ × ℚ))
    (sel : ℚ × ℚ → ℚ)
    (hticks : ∀ (i : Nat) (c : Int) (b : ℚ × ℚ), cores[i]? = some c → ticks[i]? = some b →
      sel b ≤ sel (get_core_cpu_time (env.junk i) (env.proc_stat i) c))
    (f : ℚ × ℚ → ℚ × ℚ → ℚ) (hf : ∀ e b, sel b ≤ sel e → 0 ≤ f e b) :
    ∀ t ∈ List.zipWith f (core_times_now env cores) ticks, 0 ≤ t := by
  apply zipWith_forall
  intro j e b he hb
  have hj : j < cores.length := by
    by_contra hcon
    rw [List.getElem?_eq_none (by rw [core_times_now_length]; omega)] at he
    cases he
  obtain ⟨c, hc⟩ := exists_getElem? cores j hj
  rw [core_times_now_getElem? env _ j c hc] at he
  simp only [Option.some.injEq] at he
  rw [← he]
  exact hf _ _ (hticks j c b hc hb)

theorem idx_set_self {α : Type} (l : List α) (i : Nat) (x : α) (h : i < l.length) :
    idx (l.set i x) i = .ok x := by
  simp [idx, List.getElem?_set, h]

/-- The set-up loop of `start_phase` after `k` iterations. -/
theorem start_phase_loop (env : Env) (cores : List Int) (ev0 : List Event) (k : Nat)
    (hk : k ≤ cores.length) :
    (List.range k).foldlM (start_phase_core env cores)
        ((⟨List.replicate cores.length (-1), List.replicate cores.length (-1),
          List.replicate cores.length (-1), List.replicate cores.length (-1),
          List.replicate cores.length (-1), List.replicate cores.length (-1)⟩ : CoreEventFds),
          ev0) =
      .ok ((⟨splice k (opened_fds env cores.length).user_time_fds
              (List.replicate cores.length (-1)),
            splice k (opened_fds env cores.length).system_time_fds
              (List.replicate cores.length (-1)),
            splice k (opened_fds env cores.length).io_wait_fds
              (List.replicate cores.length (-1)),
            List.replicate cores.length (-1),
            splice k (opened_fds env cores.length).cpu_instructions_fds
              (List.replicate cores.length (-1)),
            List.replicate cores.length (-1)⟩ : CoreEventFds),
        ev0 ++ (List.range k).flatMap (start_core_events env cores)) := by
  induction k with
  | zero => simp [splice_zero]; rfl
  | succ k ih =>
    have hkn : k < cores.length := hk
    obtain ⟨c, hc⟩ := exists_getElem? cores k hkn
    have hR : (List.replicate cores.length (-1 : Int)).length = cores.length := by simp
    rw [List.range_succ, List.foldlM_append, ih (le_of_lt hkn)]
    simp only [bind, Except.bind, List.foldlM, pure, Except.pure, start_phase_core,
      idx_of_getElem? _ _ _ hc]
    rw [idx_set_self _ _ _ (by rw [splice_length _ _ _ (by simp [opened_fds])]; simpa using hkn)]
    simp only []
    rw [idx_set_self _ _ _ (by rw [splice_length _ _ _ (by simp [opened_fds])]; simpa using hkn)]
    simp only []
    rw [idx_set_self _ _ _ (by rw [splice_length _ _ _ (by simp [opened_fds])]; simpa using hkn)]
    simp only []
    rw [idx_set_self _ _ _ (by rw [splice_length _ _ _ (by simp [opened_fds])]; simpa using hkn)]
    simp only []
    rw [splice_set k (opened_fds env cores.length).user_time_fds _ (by simp [opened_fds]) _
        (by simp [opened_fds, List.getElem?_range hkn, setup_counter]),
      splice_set k (opened_fds env cores.length).system_time_fds _ (by simp [opened_fds]) _
        (by simp [opened_fds, List.getElem?_range hkn, setup_counter]),
      splice_set k (opened_fds env cores.length).io_wait_fds _ (by simp [opened_fds]) _
        (by simp [opened_fds, List.getElem?_range hkn, setup_counter]),
      splice_set k (opened_fds env cores.length).cpu_instructions_fds _ (by simp [opened_fds]) _
        (by simp [opened_fds, List.getElem?_range hkn, setup_counter])]
    simp [List.flatMap_append, start_core_events, hc, setup_counter]

/-- The result of `start_phase` when `get_io_stats` returns. -/
theorem start_phase_eq (env : Env) (m : PerformanceMonitor) (phase_name : String)
    (io : IOStats) (hio : get_io_stats env.proc_self_io = .ok io) :
    start_phase env m phase_name =
      .ok (started_monitor env m phase_name io, start_events env m) := by
  unfold start_phase
  simp only [hio, bind, Except.bind, pure, Except.pure, resize_nil]
  have e1 := splice_of_length m.monitored_cores.length
    (opened_fds env m.monitored_cores.length).user_time_fds
    (List.replicate m.monitored_cores.length (-1)) (by simp [opened_fds]) (by simp)
  have e2 := splice_of_length m.monitored_cores.length
    (opened_fds env m.monitored_cores.length).system_time_fds
    (List.replicate m.monitored_cores.length (-1)) (by simp [opened_fds]) (by simp)
  have e3 := splice_of_length m.monitored_cores.length
    (opened_fds env m.monitored_cores.length).io_wait_fds
    (List.replicate m.monitored_cores.length (-1)) (by simp [opened_fds]) (by simp)
  have e4 := splice_of_length m.monitored_cores.length
    (opened_fds env m.monitored_cores.length).cpu_instructions_fds
    (List.replicate m.monitored_cores.length (-1)) (by simp [opened_fds]) (by simp)
  cases hp : env.process_cputime with
  | none =>
    simp only []
    rw [start_phase_loop env m.monitored_cores _ _ le_rfl]
    simp only [started_monitor, start_events, hp, e1, e2, e3, e4, resize_nil]
    rfl
  | some ts =>
    simp only []
    rw [start_phase_loop env m.monitored_cores _ _ le_rfl]
    simp only [started_monitor, start_events, hp, e1, e2, e3, e4, resize_nil]
    rfl

/-- After `start_phase` the phase has a snapshot in the maps, with per-core vectors
as long as `monitored_cores`. -/
theorem started_monitor_started (env : Env) (m : PerformanceMonitor) (phase_name : String)
    (io : IOStats) :
    StartedWith (started_monitor env m phase_name io) phase_name env.now env.self_rusage io
      (core_times_now env m.monitored_cores) (opened_fds env m.monitored_cores.length) := by
  refine ⟨?_, ?_, ?_, ?_, ?_, ?_, ?_, ?_, ?_, ?_, ?_, ?_⟩ <;>
    simp [started_monitor, PhaseMap.insert, core_times_now_length, opened_fds]

theorem start_phase_envStart :
    ∃ ev, start_phase envStart mon0 "A" = .ok (monA, ev) := ⟨_, rfl⟩

theorem start_phase_envStartCounters :
    ∃ ev, start_phase envStartCounters mon0 "A" = .ok (monB, ev) := ⟨_, rfl⟩

/-! ## Start followed by end -/

theorem bind_eq_ok {α β : Type} (x : Except Fault α) (f : α → Except Fault β) (b : β)
    (h : (x >>= f) = .ok b) : ∃ a, x = .ok a ∧ f a = .ok b := by
  cases x with
  | error e => cases h
  | ok a => exact ⟨a, rfl, h⟩

theorem start_phase_error (env : Env) (m : PerformanceMonitor) (phase_name : String)
    (e : Fault) (hio : get_io_stats env.proc_self_io = .error e) :
    start_phase env m phase_name = .error e := by
  unfold start_phase
  simp only [hio, bind, Except.bind]

/-- A `start_phase` call that returns stored the closed forms. -/
theorem start_phase_ok_inv (env : Env) (m m1 : PerformanceMonitor) (phase_name : String)
    (ev : List Event) (h : start_phase env m phase_name = .ok (m1, ev)) :
    ∃ io, get_io_stats env.proc_self_io = .ok io ∧
      m1 = started_monitor env m phase_name io ∧ ev = start_events env m := by
  cases hio : get_io_stats env.proc_self_io with
  | error e =>
    rw [start_phase_error env m phase_name e hio] at h
    cases h
  | ok io =>
    rw [start_phase_eq env m phase_name io hio] at h
    simp only [Except.ok.injEq, Prod.mk.injEq] at h
    exact ⟨io, rfl, h.1.symm, h.2.symm⟩

theorem started_of_same {a b : PerformanceMonitor} {phase_name : String} {start : Int}
    {ru : rusage} {io : IOStats} {ticks : List (ℚ × ℚ)} {fds : CoreEventFds}
    (hs : StartedWith a phase_name start ru io ticks fds) (h : SameSnapshot a b phase_name) :
    StartedWith b phase_name start ru io ticks fds :=
  ⟨h.time.trans hs.time, h.rusage.trans hs.rusage, h.io.trans hs.io,
    h.core_times.trans hs.core_times, h.core_fds.trans hs.core_fds,
    by rw [h.cores]; exact hs.len_ticks, by rw [h.cores]; exact hs.len_user,
    by rw [h.cores]; exact hs.len_system, by rw [h.cores]; exact hs.len_io_wait,
    by rw [h.cores]; exact hs.len_cycles, by rw [h.cores]; exact hs.len_instructions,
    by rw [h.cores]; exact hs.len_ref_cycles⟩

theorem SameSnapshot.refl (a : PerformanceMonitor) (phase_name : String) :
    SameSnapshot a a phase_name :=
  ⟨rfl, rfl, rfl, rfl, rfl, rfl, rfl, rfl⟩

theorem started_monitor_cores (env : Env) (m : PerformanceMonitor) (phase_name : String)
    (io : IOStats) : (started_monitor env m phase_name io).monitored_cores = m.monitored_cores :=
  rfl

/-- The snapshot of a phase that `start_phase` started under `env0` and that nothing
touched since. -/
theorem started_after_start (env0 : Env) (m m1 m2 : PerformanceMonitor) (phase_name : String)
    (ev0 : List Event) (h0 : start_phase env0 m phase_name = .ok (m1, ev0))
    (hsame : SameSnapshot m1 m2 phase_name) :
    ∃ io0, get_io_stats env0.proc_self_io = .ok io0 ∧ ev0 = start_events env0 m ∧
      m2.monitored_cores = m.monitored_cores ∧
      StartedWith m2 phase_name env0.now env0.self_rusage io0
        (core_times_now env0 m.monitored_cores) (opened_fds env0 m.monitored_cores.length) := by
  obtain ⟨io0, hio0, hm1, hev⟩ := start_phase_ok_inv env0 m m1 phase_name ev0 h0
  subst hm1
  exact ⟨io0, hio0, hev, hsame.cores, started_of_same (started_monitor_started env0 m phase_name io0) hsame⟩

theorem cycles_scaled_absent (env : Env) (c : ℚ) : cycles_scaled env (-1) c = c := by
  simp [cycles_scaled, counter_read_ok]

theorem zipWith_replicate_id {α β : Type} (f : α → β → β) (a : α) (n : Nat) (l : List β)
    (hf : ∀ x, f a x = x) (hl : l.length ≤ n) : List.zipWith f (List.replicate n a) l = l := by
  apply List.ext_getElem?
  intro i
  rw [List.getElem?_zipWith, List.getElem?_replicate]
  by_cases hi : i < l.length
  · obtain ⟨x, hx⟩ := exists_getElem? l i hi
    have hin : i < n := by omega
    simp [hin, hx, hf]
  · rw [List.getElem?_eq_none (by omega)]
    by_cases hin : i < n
    · simp [hin]
    · simp [hin]

theorem end_stats_core_cpu_no_cycles (env : Env) (m : PerformanceMonitor) (phase_name : String)
    (start : Int) (ru : rusage) (io0 io1 : IOStats) (ticks : List (ℚ × ℚ)) (fds : CoreEventFds)
    (hs : StartedWith m phase_name start ru io0 ticks fds)
    (hcyc : fds.cpu_cycles_fds = List.replicate m.monitored_cores.length (-1)) :
    (end_stats env m phase_name start ru io0 io1 ticks fds).core_cpu_times =
      List.zipWith (· + ·)
        (end_stats env m phase_name start ru io0 io1 ticks fds).core_user_times
        (end_stats env m phase_name start ru io0 io1 ticks fds).core_system_times := by
  simp only [end_stats]
  rw [hcyc]
  apply zipWith_replicate_id _ _ _ _ (cycles_scaled_absent env)
  simp [tick_user_times, tick_system_times, core_times_now_length, hs.len_ticks, hs.len_user,
    hs.len_system]


/-! ## The monitor after `end_phase`, for an arbitrary monitor before -/

theorem read_user_time_monitor (env : Env) (fd : Int) (i : Nat) (s : EndState) :
    (read_user_time env fd i s).monitor = s.monitor := by
  unfold read_user_time EndState.log
  split
  · simp only []
    split
    · split <;> rfl
    · rfl
  · rfl

theorem read_system_time_monitor (env : Env) (fd : Int) (i : Nat) (s : EndState) :
    (read_system_time env fd i s).monitor = s.monitor := by
  unfold read_system_time EndState.log
  split
  · simp only []
    split
    · split <;> rfl
    · rfl
  · rfl

theorem read_io_wait_monitor (env : Env) (fd : Int) (s : EndState) :
    (read_io_wait env fd s).monitor = s.monitor := by
  rw [read_io_wait_eq]

theorem read_unused_monitor (env : Env) (fd : Int) (s : EndState) :
    (read_unused env fd s).monitor = s.monitor := by
  rw [read_unused_eq]

theorem update_core_cpu_monitor (i : Nat) (s s1 : EndState)
    (h : update_core_cpu i s = .ok s1) : s1.monitor = s.monitor := by
  unfold update_core_cpu at h
  split at h
  · obtain ⟨u, _, h⟩ := bind_eq_ok _ _ _ h
    obtain ⟨sy, _, h⟩ := bind_eq_ok _ _ _ h
    simp only [pure, Except.pure, Except.ok.injEq] at h
    rw [← h]
  · simp only [pure, Except.pure, Except.ok.injEq] at h
    rw [← h]

theorem read_cpu_cycles_monitor (env : Env) (fd : Int) (i : Nat) (s s1 : EndState)
    (h : read_cpu_cycles env fd i s = .ok s1) : s1.monitor = s.monitor := by
  unfold read_cpu_cycles at h
  by_cases h1 : fd = -1
  · simp only [h1, ne_eq, not_true_eq_false, if_false, pure, Except.pure, Except.ok.injEq] at h
    rw [← h]
  · by_cases h2 : (env.read fd 24).1 = 24
    · by_cases h3 : (env.read fd 24).2.time_enabled > 0
      · by_cases h4 : ((env.read fd 24).2.time_running : ℚ) /
            ((env.read fd 24).2.time_enabled : ℚ) < 1 ∧ i < s.stats.core_cpu_times.length
        · cases hc : idx s.stats.core_cpu_times i with
          | error e =>
            simp [h1, h2, h3, h4, hc, bind, Except.bind, pure, Except.pure, EndState.log] at h
          | ok c =>
            simp [h1, h2, h3, h4, hc, bind, Except.bind, pure, Except.pure, EndState.log] at h
            rw [← h]
        · simp [h1, h2, h3, h4, bind, Except.bind, pure, Except.pure, EndState.log] at h
          rw [← h]
      · simp [h1, h2, h3, bind, Except.bind, pure, Except.pure, EndState.log] at h
        rw [← h]
    · simp [h1, h2, bind, Except.bind, pure, Except.pure, EndState.log] at h
      rw [← h]

theorem end_phase_core_monitor (env : Env) (fds : CoreEventFds) (s s1 : EndState) (i : Nat)
    (h : end_phase_core env fds s i = .ok s1) : s1.monitor = s.monitor := by
  unfold end_phase_core at h
  obtain ⟨ufd, _, h⟩ := bind_eq_ok _ _ _ h
  obtain ⟨sfd, _, h⟩ := bind_eq_ok _ _ _ h
  obtain ⟨s2, h2, h⟩ := bind_eq_ok _ _ _ h
  obtain ⟨wfd, _, h⟩ := bind_eq_ok _ _ _ h
  obtain ⟨cfd, _, h⟩ := bind_eq_ok _ _ _ h
  obtain ⟨s3, h3, h⟩ := bind_eq_ok _ _ _ h
  obtain ⟨ifd, _, h⟩ := bind_eq_ok _ _ _ h
  obtain ⟨rfd, _, h⟩ := bind_eq_ok _ _ _ h
  simp only [pure, Except.pure, Except.ok.injEq] at h
  rw [← h, read_unused_monitor, read_unused_monitor, read_cpu_cycles_monitor _ _ _ _ _ h3,
    read_io_wait_monitor, update_core_cpu_monitor _ _ _ h2, read_system_time_monitor,
    read_user_time_monitor]

theorem end_core_fds_loop_monitor (env : Env) (fds : CoreEventFds) (l : List Nat) :
    ∀ (s s1 : EndState), l.foldlM (end_phase_core env fds) s = .ok s1 →
      s1.monitor = s.monitor := by
  induction l with
  | nil =>
    intro s s1 h
    simp only [List.foldlM, pure, Except.pure, Except.ok.injEq] at h
    rw [h]
  | cons i l ih =>
    intro s s1 h
    simp only [List.foldlM] at h
    obtain ⟨s2, h2, h⟩ := bind_eq_ok _ _ _ h
    rw [ih s2 s1 h, end_phase_core_monitor env fds s s2 i h2]

theorem end_wall_clock_monitor (env : Env) (phase_name : String) (it : Option Int)
    (s : EndState) (h : s.monitor.phase_start_times phase_name = it) :
    (end_wall_clock env phase_name it s).monitor =
      { s.monitor with phase_start_times := s.monitor.phase_start_times.erase phase_name } := by
  unfold end_wall_clock
  cases it with
  | none => simp [EndState.log, PhaseMap.erase_of_none _ _ h]
  | some a => rfl

theorem end_rusage_monitor (env : Env) (phase_name : String) (it : Option rusage)
    (s : EndState) (h : s.monitor.phase_start_rusage phase_name = it) :
    (end_rusage env phase_name it s).monitor =
      { s.monitor with phase_start_rusage := s.monitor.phase_start_rusage.erase phase_name } := by
  unfold end_rusage
  cases it with
  | none => simp [EndState.log, PhaseMap.erase_of_none _ _ h]
  | some a => rfl

theorem end_io_monitor (env : Env) (phase_name : String) (it : Option IOStats)
    (s s1 : EndState) (h : s.monitor.phase_start_io phase_name = it)
    (hr : end_io env phase_name it s = .ok s1) :
    s1.monitor =
      { s.monitor with phase_start_io := s.monitor.phase_start_io.erase phase_name } := by
  unfold end_io at hr
  cases it with
  | none =>
    simp only [pure, Except.pure, Except.ok.injEq] at hr
    rw [← hr]
    simp [EndState.log, PhaseMap.erase_of_none _ _ h]
  | some a =>
    simp only at hr
    obtain ⟨io1, _, hr⟩ := bind_eq_ok _ _ _ hr
    obtain ⟨t, _, hr⟩ := bind_eq_ok _ _ _ hr
    simp only [pure, Except.pure, Except.ok.injEq] at hr
    rw [← hr]

theorem end_core_times_monitor (env : Env) (phase_name : String)
    (it : Option (List (ℚ × ℚ))) (s s1 : EndState)
    (h : s.monitor.phase_start_core_times phase_name = it)
    (hr : end_core_times env phase_name it s = .ok s1) :
    s1.monitor =
      { s.monitor with
        phase_start_core_times := s.monitor.phase_start_core_times.erase phase_name } := by
  unfold end_core_times at hr
  cases it with
  | none =>
    simp only [pure, Except.pure, Except.ok.injEq] at hr
    rw [← hr]
    simp [EndState.log, PhaseMap.erase_of_none _ _ h]
  | some a =>
    simp only at hr
    obtain ⟨st, _, hr⟩ := bind_eq_ok _ _ _ hr
    simp only [pure, Except.pure, Except.ok.injEq] at hr
    rw [← hr]

theorem end_core_fds_monitor (env : Env) (phase_name : String) (it : Option CoreEventFds)
    (s s1 : EndState) (h : s.monitor.phase_core_fds phase_name = it)
    (hr : end_core_fds env phase_name it s = .ok s1) :
    s1.monitor =
      { s.monitor with phase_core_fds := s.monitor.phase_core_fds.erase phase_name } := by
  unfold end_core_fds at hr
  cases it with
  | none =>
    simp only [pure, Except.pure, Except.ok.injEq] at hr
    rw [← hr]
    simp [EndState.log, PhaseMap.erase_of_none _ _ h]
  | some a =>
    simp only at hr
    obtain ⟨s2, h2, hr⟩ := bind_eq_ok _ _ _ hr
    simp only [pure, Except.pure, Except.ok.injEq] at hr
    rw [← hr, end_core_fds_loop_monitor env a _ s s2 h2]

/-- Whenever `end_phase` returns, the monitor it returns is the one before with the
phase erased from all seven maps. -/
theorem end_phase_monitor (env : Env) (m m1 : PerformanceMonitor) (phase_name : String)
    (stats : PerfStats) (ev : List Event)
    (h : end_phase env m phase_name = .ok (stats, m1, ev)) : m1 = erase_phase m phase_name := by
  unfold end_phase at h
  obtain ⟨s3, h3, h⟩ := bind_eq_ok _ _ _ h
  obtain ⟨s5, h5, h⟩ := bind_eq_ok _ _ _ h
  obtain ⟨s7, h7, h⟩ := bind_eq_ok _ _ _ h
  simp only [pure, Except.pure, Except.ok.injEq, Prod.mk.injEq] at h
  have e1 := end_wall_clock_monitor env phase_name (m.phase_start_times phase_name)
    ⟨PerfStats.init, m, []⟩ rfl
  have e2 := end_rusage_monitor env phase_name (m.phase_start_rusage phase_name)
    (end_wall_clock env phase_name (m.phase_start_times phase_name) ⟨PerfStats.init, m, []⟩)
    (by rw [e1])
  have e3 := end_io_monitor env phase_name (m.phase_start_io phase_name) _ s3
    (by rw [e2, e1]) h3
  have e4 := end_process_time_eq env phase_name (m.phase_start_process_time phase_name) s3
    (by rw [e3, e2, e1])
  have e5 := end_core_times_monitor env phase_name (m.phase_start_core_times phase_name) _ s5
    (by rw [e4]; simp only []; rw [e3, e2, e1]) h5
  have e7 := end_core_fds_monitor env phase_name (m.phase_core_fds phase_name) _ s7
    (by simp only []; rw [e5, e4]; simp only []; rw [e3, e2, e1]) h7
  have e8 := end_core_timespec_eq phase_name (m.phase_core_timespec phase_name) s7
    (by rw [e7]; simp only []; rw [e5, e4]; simp only []; rw [e3, e2, e1])
  rw [← h.2.1, e8]
  simp only []
  rw [e7]
  simp only []
  rw [e5, e4]
  simp only []
  rw [e3, e2, e1]
  rfl

theorem erase_phase_never_started (m : PerformanceMonitor) (phase_name : String) :
    NeverStarted (erase_phase m phase_name) phase_name := by
  refine ⟨?_, ?_, ?_, ?_, ?_, ?_, ?_⟩ <;> simp [erase_phase, PhaseMap.erase]


/-! ## Descriptors opened and closed -/

theorem opened_of_append (a b : List Event) : opened_of (a ++ b) = opened_of a ++ opened_of b := by
  induction a with
  | nil => rfl
  | cons e a ih =>
    cases e with
    | perf_event_open k c fd =>
      by_cases h : fd = -1
      · simp [opened_of, h, ih]
      · simp [opened_of, h, ih]
    | warning w => simpa [opened_of] using ih
    | ioctl fd r => simpa [opened_of] using ih
    | read fd n r => simpa [opened_of] using ih
    | close fd => simpa [opened_of] using ih

theorem closed_of_append (a b : List Event) : closed_of (a ++ b) = closed_of a ++ closed_of b := by
  induction a with
  | nil => rfl
  | cons e a ih =>
    cases e with
    | close fd => simp [closed_of, ih]
    | warning w => simpa [closed_of] using ih
    | ioctl fd r => simpa [closed_of] using ih
    | read fd n r => simpa [closed_of] using ih
    | perf_event_open k c fd => simpa [closed_of] using ih

theorem open_handles_append (a b : List Event) :
    ∀ h : Multiset Int, open_handles h (a ++ b) = open_handles (open_handles h a) b := by
  induction a with
  | nil => intro h; rfl
  | cons e a ih =>
    intro h
    cases e with
    | close fd => simp [open_handles, ih]
    | warning w => simpa [open_handles] using ih h
    | ioctl fd r => simpa [open_handles] using ih h
    | read fd n r => simpa [open_handles] using ih h
    | perf_event_open k c fd => simp [open_handles, ih]

theorem opened_of_flatMap {α : Type} (l : List α) (f : α → List Event) :
    opened_of (l.flatMap f) = l.flatMap (fun x => opened_of (f x)) := by
  induction l with
  | nil => rfl
  | cons x l ih => simp [List.flatMap_cons, opened_of_append, ih]

theorem closed_of_flatMap {α : Type} (l : List α) (f : α → List Event) :
    closed_of (l.flatMap f) = l.flatMap (fun x => closed_of (f x)) := by
  induction l with
  | nil => rfl
  | cons x l ih => simp [List.flatMap_cons, closed_of_append, ih]

/-- Events that close nothing add the opened descriptors. -/
theorem open_handles_of_no_close (ev : List Event) (hc : closed_of ev = []) :
    ∀ h : Multiset Int, open_handles h ev = h + (opened_of ev : Multiset Int) := by
  induction ev with
  | nil => intro h; simp [open_handles, opened_of]
  | cons e ev ih =>
    intro h
    cases e with
    | close fd => simp [closed_of] at hc
    | warning w => simpa [open_handles, opened_of] using ih (by simpa [closed_of] using hc) h
    | ioctl fd r => simpa [open_handles, opened_of] using ih (by simpa [closed_of] using hc) h
    | read fd n r => simpa [open_handles, opened_of] using ih (by simpa [closed_of] using hc) h
    | perf_event_open k c fd =>
      have hc2 : closed_of ev = [] := by simpa [closed_of] using hc
      by_cases hfd : fd = -1
      · simp [open_handles, opened_of, hfd, ih hc2]
      · simp only [open_handles, opened_of, ne_eq, hfd, not_false_eq_true, if_true, ih hc2]
        rw [← Multiset.cons_coe, Multiset.add_cons, Multiset.cons_add]

/-- Events that open nothing remove the closed descriptors. -/
theorem open_handles_of_no_open (ev : List Event) (ho : opened_of ev = []) :
    ∀ h : Multiset Int, open_handles h ev = h - (closed_of ev : Multiset Int) := by
  induction ev with
  | nil => intro h; simp [open_handles, closed_of]
  | cons e ev ih =>
    intro h
    cases e with
    | close fd =>
      have ho2 : opened_of ev = [] := by simpa [opened_of] using ho
      simp only [open_handles, closed_of, ih ho2]
      rw [← Multiset.cons_coe, Multiset.sub_cons]
    | warning w => simpa [open_handles, closed_of] using ih (by simpa [opened_of] using ho) h
    | ioctl fd r => simpa [open_handles, closed_of] using ih (by simpa [opened_of] using ho) h
    | read fd n r => simpa [open_handles, closed_of] using ih (by simpa [opened_of] using ho) h
    | perf_event_open k c fd =>
      by_cases hfd : fd = -1
      · have ho2 : opened_of ev = [] := by simpa [opened_of, hfd] using ho
        simp [open_handles, closed_of, hfd, ih ho2]
      · simp [opened_of, hfd] at ho

theorem flatMap_congr_range {β : Type} (n : Nat) (f g : Nat → List β)
    (h : ∀ i, i < n → f i = g i) : (List.range n).flatMap f = (List.range n).flatMap g := by
  induction n with
  | zero => rfl
  | succ n ih =>
    rw [List.range_succ, List.flatMap_append, List.flatMap_append,
      ih (fun i hi => h i (Nat.lt_succ_of_lt hi))]
    simp [h n (Nat.lt_succ_self n)]

theorem counter_events_opened (env : Env) (fd : Int) (nbytes : Nat) :
    opened_of (counter_events env fd nbytes) = [] := by
  unfold counter_events
  by_cases h : fd = -1
  · simp [h, opened_of]
  · by_cases h2 : (env.read fd nbytes).1 = (nbytes : Int)
    · simp [h, h2, opened_of]
    · simp [h, h2, opened_of]

theorem counter_events_closed (env : Env) (fd : Int) (nbytes : Nat) :
    closed_of (counter_events env fd nbytes) = [fd].filter (fun x => decide (x ≠ -1)) := by
  unfold counter_events
  by_cases h : fd = -1
  · simp [h, closed_of]
  · by_cases h2 : (env.read fd nbytes).1 = (nbytes : Int)
    · simp [h, h2, closed_of]
    · simp [h, h2, closed_of]

theorem counter_events_fd (env : Env) (fd : Int) (nbytes : Nat) :
    ∀ e ∈ counter_events env fd nbytes, e.fd? = some fd ∧ fd ≠ -1 := by
  unfold counter_events
  by_cases h : fd = -1
  · simp [h]
  · by_cases h2 : (env.read fd nbytes).1 = (nbytes : Int)
    · simp [h, h2, Event.fd?]
    · simp [h, h2, Event.fd?]

theorem core_events_opened (env : Env) (fds : CoreEventFds) (i : Nat) :
    opened_of (core_events env fds i) = [] := by
  simp [core_events, opened_of_append, counter_events_opened]

theorem core_events_closed (env : Env) (fds : CoreEventFds) (i : Nat) :
    closed_of (core_events env fds i) =
      [fds.user_time_fds.getD i (-1), fds.system_time_fds.getD i (-1),
        fds.io_wait_fds.getD i (-1), fds.cpu_cycles_fds.getD i (-1),
        fds.cpu_instructions_fds.getD i (-1), fds.cpu_ref_cycles_fds.getD i (-1)].filter
        (fun x => decide (x ≠ -1)) := by
  simp only [core_events, closed_of_append, counter_events_closed]
  simp only [List.filter_cons, List.filter_nil]
  repeat' split
  all_goals simp

theorem core_events_fd (env : Env) (fds : CoreEventFds) (i : Nat) :
    ∀ e ∈ core_events env fds i, e.fd? ≠ some (-1) := by
  intro e he
  simp only [core_events, List.mem_append] at he
  have key : ∀ fd nb, e ∈ counter_events env fd nb → e.fd? ≠ some (-1) := by
    intro fd nb h
    obtain ⟨h1, h2⟩ := counter_events_fd env fd nb e h
    rw [h1]
    intro hc
    exact h2 (Option.some.inj hc)
  rcases he with ((((h | h) | h) | h) | h) | h <;> exact key _ _ h

theorem end_events_opened (env : Env) (m : PerformanceMonitor) (fds : CoreEventFds) :
    opened_of (end_events env m fds) = [] := by
  simp [end_events, opened_of_flatMap, core_events_opened]

theorem end_events_fd (env : Env) (m : PerformanceMonitor) (fds : CoreEventFds) :
    ∀ e ∈ end_events env m fds, e.fd? ≠ some (-1) := by
  intro e he
  simp only [end_events, List.mem_flatMap] at he
  obtain ⟨i, _, hi⟩ := he
  exact core_events_fd env fds i e hi

theorem setup_activate_opened (env : Env) (kind : CounterKind) (i : Nat) (c : Int) :
    opened_of (slot_start_events env kind i c) =
      [env.perf_open kind i].filter (fun x => decide (x ≠ -1)) := by
  unfold slot_start_events setup_counter activate
  by_cases h : env.perf_open kind i = -1
  · simp [h, opened_of]
  · simp [h, opened_of]

theorem setup_activate_closed (env : Env) (kind : CounterKind) (i : Nat) (c : Int) :
    closed_of (slot_start_events env kind i c) = [] := by
  unfold slot_start_events setup_counter activate
  by_cases h : env.perf_open kind i = -1
  · simp [h, closed_of]
  · simp [h, closed_of]

theorem setup_activate_fd (env : Env) (kind : CounterKind) (i : Nat) (c : Int) :
    ∀ e ∈ slot_start_events env kind i c, e.fd? ≠ some (-1) := by
  unfold slot_start_events setup_counter activate
  by_cases h : env.perf_open kind i = -1
  · simp [h, Event.fd?]
  · simp only [ne_eq, h, not_false_eq_true, if_true, if_false]
    intro e he
    simp only [List.append_nil, List.mem_append, List.mem_cons, List.mem_singleton,
      List.not_mem_nil, or_false] at he
    rcases he with he | he | he
    · rw [he]; simp [Event.fd?]
    · rw [he]; simp [Event.fd?, h]
    · rw [he]; simp [Event.fd?, h]

theorem start_core_events_split (env : Env) (cores : List Int) (i : Nat) :
    start_core_events env cores i =
      slot_start_events env CounterKind.user_time i (cores.getD i 0) ++
      (slot_start_events env CounterKind.system_time i (cores.getD i 0) ++
      (slot_start_events env CounterKind.io_wait i (cores.getD i 0) ++
      slot_start_events env CounterKind.cpu_instructions i (cores.getD i 0))) := by
  simp only [start_core_events, slot_start_events, List.append_assoc]

theorem start_core_events_opened (env : Env) (cores : List Int) (i : Nat) :
    opened_of (start_core_events env cores i) =
      (slot_fds env i).filter (fun x => decide (x ≠ -1)) := by
  rw [start_core_events_split]
  simp only [opened_of_append, setup_activate_opened, slot_fds]
  simp only [List.filter_cons, List.filter_nil]
  repeat' split
  all_goals simp

theorem start_core_events_closed (env : Env) (cores : List Int) (i : Nat) :
    closed_of (start_core_events env cores i) = [] := by
  rw [start_core_events_split]
  simp only [closed_of_append, setup_activate_closed, List.append_nil]

theorem start_core_events_fd (env : Env) (cores : List Int) (i : Nat) :
    ∀ e ∈ start_core_events env cores i, e.fd? ≠ some (-1) := by
  intro e he
  rw [start_core_events_split] at he
  simp only [List.mem_append] at he
  rcases he with h | h | h | h <;> exact setup_activate_fd env _ i _ e h

theorem start_events_opened (env : Env) (m : PerformanceMonitor) :
    opened_of (start_events env m) =
      (List.range m.monitored_cores.length).flatMap
        (fun i => (slot_fds env i).filter (fun x => decide (x ≠ -1))) := by
  unfold start_events
  rw [opened_of_append, opened_of_flatMap]
  have h0 : opened_of (match env.process_cputime with
      | some _ => []
      | none => [Event.warning Warning.process_cputime_failed]) = [] := by
    cases env.process_cputime <;> rfl
  rw [h0, List.nil_append]
  exact flatMap_congr_range _ _ _ (fun i _ => start_core_events_opened env _ i)

theorem start_events_closed (env : Env) (m : PerformanceMonitor) :
    closed_of (start_events env m) = [] := by
  unfold start_events
  rw [closed_of_append, closed_of_flatMap]
  have h0 : closed_of (match env.process_cputime with
      | some _ => []
      | none => [Event.warning Warning.process_cputime_failed]) = [] := by
    cases env.process_cputime <;> rfl
  rw [h0, List.nil_append]
  simp [start_core_events_closed]

theorem start_events_fd (env : Env) (m : PerformanceMonitor) :
    ∀ e ∈ start_events env m, e.fd? ≠ some (-1) := by
  intro e he
  unfold start_events at he
  rcases List.mem_append.mp he with h | h
  · cases hp : env.process_cputime with
    | none =>
      rw [hp] at h
      simp only [List.mem_singleton] at h
      rw [h]; simp [Event.fd?]
    | some ts => rw [hp] at h; cases h
  · simp only [List.mem_flatMap] at h
    obtain ⟨i, _, hi⟩ := h
    exact start_core_events_fd env _ i e hi

/-- What `end_phase` closes for a snapshot whose descriptors are those that
`start_phase` stored under `env0`. -/
theorem end_events_closed_opened (env0 env1 : Env) (m : PerformanceMonitor) :
    closed_of (end_events env1 m (opened_fds env0 m.monitored_cores.length)) =
      (List.range m.monitored_cores.length).flatMap
        (fun i => (slot_fds env0 i).filter (fun x => decide (x ≠ -1))) := by
  unfold end_events
  rw [closed_of_flatMap]
  apply flatMap_congr_range
  intro i hi
  rw [core_events_closed]
  have hu : (opened_fds env0 m.monitored_cores.length).user_time_fds.getD i (-1) =
      env0.perf_open CounterKind.user_time i := by
    simp [opened_fds, List.getD, List.getElem?_range hi]
  have hs : (opened_fds env0 m.monitored_cores.length).system_time_fds.getD i (-1) =
      env0.perf_open CounterKind.system_time i := by
    simp [opened_fds, List.getD, List.getElem?_range hi]
  have hw : (opened_fds env0 m.monitored_cores.length).io_wait_fds.getD i (-1) =
      env0.perf_open CounterKind.io_wait i := by
    simp [opened_fds, List.getD, List.getElem?_range hi]
  have hc : (opened_fds env0 m.monitored_cores.length).cpu_cycles_fds.getD i (-1) = -1 := by
    simp [opened_fds, List.getD, hi]
  have hn : (opened_fds env0 m.monitored_cores.length).cpu_instructions_fds.getD i (-1) =
      env0.perf_open CounterKind.cpu_instructions i := by
    simp [opened_fds, List.getD, List.getElem?_range hi]
  have hr : (opened_fds env0 m.monitored_cores.length).cpu_ref_cycles_fds.getD i (-1) = -1 := by
    simp [opened_fds, List.getD, hi]
  rw [hu, hs, hw, hc, hn, hr]
  have hf : ∀ (a b c d : Int) (p : Int → Bool), p (-1) = false →
      [a, b, c, -1, d, -1].filter p = [a, b, c, d].filter p := by
    intro a b c d p hp
    simp [List.filter_cons, hp]
  exact hf _ _ _ _ _ (by decide)

theorem warnings_no_fd :
    closed_of [Event.warning Warning.time_not_found, Event.warning Warning.rusage_not_found,
      Event.warning Warning.io_not_found, Event.warning Warning.core_times_not_found,
      Event.warning Warning.core_fds_not_found] = [] ∧
    ∀ e ∈ [Event.warning Warning.time_not_found, Event.warning Warning.rusage_not_found,
      Event.warning Warning.io_not_found, Event.warning Warning.core_times_not_found,
      Event.warning Warning.core_fds_not_found], e.fd? = none := by
  constructor
  · rfl
  · intro e he
    simp only [List.mem_cons, List.mem_singleton, List.not_mem_nil, or_false] at he
    rcases he with h | h | h | h | h <;> (rw [h]; rfl)

/-- A phase started under `env0` and ended under `env1`: the result of `end_phase`
and the descriptors it closes. -/
theorem end_after_start (env0 env1 : Env) (m m1 m2 : PerformanceMonitor) (phase_name : String)
    (ev0 : List Event) (io1 : IOStats)
    (h0 : start_phase env0 m phase_name = .ok (m1, ev0))
    (hsame : SameSnapshot m1 m2 phase_name)
    (hio : get_io_stats env1.proc_self_io = .ok io1)
    (hub : ∀ io0, m2.phase_start_io phase_name = some io0 →
      io_total io0 io1 < U64) :
    ∃ io0, get_io_stats env0.proc_self_io = .ok io0 ∧ ev0 = start_events env0 m ∧
      m2.monitored_cores = m.monitored_cores ∧
      StartedWith m2 phase_name env0.now env0.self_rusage io0
        (core_times_now env0 m.monitored_cores) (opened_fds env0 m.monitored_cores.length) ∧
      end_phase env1 m2 phase_name =
        .ok (end_stats env1 m2 phase_name env0.now env0.self_rusage io0 io1
              (core_times_now env0 m.monitored_cores) (opened_fds env0 m.monitored_cores.length),
            erase_phase m2 phase_name,
            end_events env1 m2 (opened_fds env0 m.monitored_cores.length)) ∧
      closed_of (end_events env1 m2 (opened_fds env0 m.monitored_cores.length)) =
        opened_of ev0 := by
  obtain ⟨io0, hio0, hev, hcores, hs⟩ := started_after_start env0 m m1 m2 phase_name ev0 h0 hsame
  refine ⟨io0, hio0, hev, hcores, hs,
    end_phase_started env1 m2 phase_name _ _ io0 io1 _ _ hs hio (hub io0 hs.io), ?_⟩
  rw [hev, start_events_opened, ← hcores]
  exact end_events_closed_opened env0 env1 m2


/-! ## Starting a phase twice; slots whose open failed -/

theorem foldl_set_range {α : Type} (f : Nat → α) (k : Nat) (v : List α) (hk : k ≤ v.length) :
    (List.range k).foldl (fun v i => v.set i (f i)) v = (List.range k).map f ++ v.drop k := by
  induction k with
  | zero => simp
  | succ k ih =>
    have hlt : k < v.length := by omega
    rw [List.range_succ, List.foldl_append, ih (by omega)]
    simp only [List.foldl_cons, List.foldl_nil, List.map_append, List.map_cons, List.map_nil]
    rw [List.set_append_right _ _ (by simp)]
    have hd : (List.drop k v).set (k - (List.map f (List.range k)).length) (f k) =
        f k :: List.drop (k + 1) v := by
      rw [List.drop_eq_getElem_cons hlt]
      simp only [List.length_map, List.length_range, Nat.sub_self, List.set_cons_zero]
    rw [hd]
    simp

/-- The per-core monotonic clock values that `start_phase` stores: one reading of
the clock per monitored core, in order. -/
theorem started_monitor_timespec (env : Env) (m : PerformanceMonitor) (phase_name : String)
    (io : IOStats) :
    (started_monitor env m phase_name io).phase_core_timespec phase_name =
      some ⟨(List.range m.monitored_cores.length).map env.monotonic⟩ := by
  have h := foldl_set_range env.monotonic m.monitored_cores.length
    (resize [] m.monitored_cores.length (⟨0, 0⟩ : timespec)) (by simp [resize_nil])
  simp only [started_monitor, PhaseMap.insert, if_true, beq_self_eq_true]
  rw [h]
  simp [resize_nil]

/-- The process clock value that `start_phase` stores: the reading of the clock when
`clock_gettime` succeeds, and otherwise what the map held before. -/
theorem started_monitor_process_time (env : Env) (m : PerformanceMonitor)
    (phase_name : String) (io : IOStats) :
    (∀ ts, env.process_cputime = some ts →
      (started_monitor env m phase_name io).phase_start_process_time phase_name = some ts) ∧
    (env.process_cputime = none →
      (started_monitor env m phase_name io).phase_start_process_time phase_name =
        m.phase_start_process_time phase_name) := by
  constructor
  · intro ts h
    simp [started_monitor, h, PhaseMap.insert]
  · intro h
    simp [started_monitor, h]

theorem PhaseMap.erase_insert {α : Type} (m : PhaseMap α) (key : String) (v : α) :
    (m.insert key v).erase key = m.erase key := by
  funext k
  unfold PhaseMap.erase PhaseMap.insert
  by_cases hk : k = key
  · simp [hk]
  · simp [hk]

theorem erase_started_monitor (env : Env) (m : PerformanceMonitor) (phase_name : String)
    (io : IOStats) :
    erase_phase (started_monitor env m phase_name io) phase_name = erase_phase m phase_name := by
  unfold erase_phase started_monitor
  cases env.process_cputime with
  | none => simp only [PhaseMap.erase_insert]
  | some ts => simp only [PhaseMap.erase_insert]

theorem migration_ms_absent (env : Env) : migration_ms env (-1) = 0 := by
  simp [migration_ms, counter_read_ok]

theorem sum_map_filter {α : Type} (l : List α) (f : α → ℚ) (p : α → Bool)
    (h : ∀ x, p x = false → f x = 0) : (l.map f).sum = ((l.filter p).map f).sum := by
  induction l with
  | nil => rfl
  | cons x l ih =>
    by_cases hp : p x = true
    · simp [List.filter_cons, hp, ih]
    · have hp2 : p x = false := by simpa using hp
      simp [List.filter_cons, hp2, ih, h x hp2]

theorem slot_start_events_kind (env : Env) (kind k : CounterKind) (i : Nat) (c0 c fd : Int)
    (h : Event.perf_event_open k c fd ∈ slot_start_events env kind i c0) : k = kind := by
  unfold slot_start_events setup_counter activate at h
  by_cases hfd : env.perf_open kind i = -1
  · simp [hfd] at h
    exact h.1
  · simp [hfd] at h
    exact h.1

theorem slot_start_events_mem (env : Env) (kind : CounterKind) (i : Nat) (c0 : Int) :
    Event.perf_event_open kind c0 (env.perf_open kind i) ∈ slot_start_events env kind i c0 := by
  unfold slot_start_events setup_counter
  simp

theorem start_events_kind (env : Env) (m : PerformanceMonitor) (k : CounterKind) (c fd : Int)
    (h : Event.perf_event_open k c fd ∈ start_events env m) :
    k = CounterKind.user_time ∨ k = CounterKind.system_time ∨ k = CounterKind.io_wait ∨
      k = CounterKind.cpu_instructions := by
  unfold start_events at h
  rcases List.mem_append.mp h with h | h
  · cases hp : env.process_cputime with
    | none => rw [hp] at h; simp at h
    | some ts => rw [hp] at h; cases h
  · simp only [List.mem_flatMap] at h
    obtain ⟨i, _, hi⟩ := h
    rw [start_core_events_split] at hi
    simp only [List.mem_append] at hi
    rcases hi with h | h | h | h
    · exact Or.inl (slot_start_events_kind env _ k i _ c fd h)
    · exact Or.inr (Or.inl (slot_start_events_kind env _ k i _ c fd h))
    · exact Or.inr (Or.inr (Or.inl (slot_start_events_kind env _ k i _ c fd h)))
    · exact Or.inr (Or.inr (Or.inr (slot_start_events_kind env _ k i _ c fd h)))

theorem start_events_mem (env : Env) (m : PerformanceMonitor) (i : Nat) (c : Int)
    (hc : m.monitored_cores[i]? = some c) (k : CounterKind)
    (hk : k = CounterKind.user_time ∨ k = CounterKind.system_time ∨ k = CounterKind.io_wait ∨
      k = CounterKind.cpu_instructions) :
    Event.perf_event_open k c (env.perf_open k i) ∈ start_events env m := by
  have hi : i < m.monitored_cores.length := by
    by_contra hcon
    rw [List.getElem?_eq_none (by omega)] at hc
    cases hc
  have hgd : m.monitored_cores.getD i 0 = c := by simp [List.getD, hc]
  unfold start_events
  apply List.mem_append_right
  simp only [List.mem_flatMap, List.mem_range]
  refine ⟨i, hi, ?_⟩
  rw [start_core_events_split, hgd]
  simp only [List.mem_append]
  rcases hk with h | h | h | h
  · rw [h]; exact Or.inl (slot_start_events_mem env _ i c)
  · rw [h]; exact Or.inr (Or.inl (slot_start_events_mem env _ i c))
  · rw [h]; exact Or.inr (Or.inr (Or.inl (slot_start_events_mem env _ i c)))
  · rw [h]; exact Or.inr (Or.inr (Or.inr (slot_start_events_mem env _ i c)))


theorem infix_flatMap_of_mem {α β : Type} (f : α → List β) (l : List α) (a : α) (h : a ∈ l) :
    List.IsInfix (f a) (l.flatMap f) := by
  induction l with
  | nil => cases h
  | cons x l ih =>
    rw [List.flatMap_cons]
    rcases List.mem_cons.mp h with hx | hx
    · rw [hx]
      exact (List.prefix_append _ _).isInfix
    · exact (ih hx).trans (List.suffix_append _ _).isInfix

/-- The events of one counter slot stand together, in order, in the events of
`start_phase`. -/
theorem start_events_slot_infix (env : Env) (m : PerformanceMonitor) (i : Nat) (c : Int)
    (hc : m.monitored_cores[i]? = some c) (k : CounterKind)
    (hk : k = CounterKind.user_time ∨ k = CounterKind.system_time ∨ k = CounterKind.io_wait ∨
      k = CounterKind.cpu_instructions) :
    slot_start_events env k i c <:+: start_events env m := by
  have hi : i < m.monitored_cores.length := by
    by_contra hcon
    rw [List.getElem?_eq_none (by omega)] at hc
    cases hc
  have hgd : m.monitored_cores.getD i 0 = c := by simp [List.getD, hc]
  have h1 : start_core_events env m.monitored_cores i <:+: start_events env m := by
    unfold start_events
    exact (infix_flatMap_of_mem (start_core_events env m.monitored_cores)
      (List.range m.monitored_cores.length) i (List.mem_range.mpr hi)).trans
      (List.suffix_append _ _).isInfix
  refine List.IsInfix.trans ?_ h1
  rw [start_core_events_split, hgd]
  rcases hk with h | h | h | h
  · rw [h]
    exact (List.prefix_append _ _).isInfix
  · rw [h]
    exact ⟨slot_start_events env CounterKind.user_time i c,
      slot_start_events env CounterKind.io_wait i c ++
        slot_start_events env CounterKind.cpu_instructions i c, by simp⟩
  · rw [h]
    exact ⟨slot_start_events env CounterKind.user_time i c ++
        slot_start_events env CounterKind.system_time i c,
      slot_start_events env CounterKind.cpu_instructions i c, by simp⟩
  · rw [h]
    exact ⟨slot_start_events env CounterKind.user_time i c ++
        (slot_start_events env CounterKind.system_time i c ++
          slot_start_events env CounterKind.io_wait i c), [], by simp⟩

theorem slot_start_events_opened (env : Env) (k : CounterKind) (i : Nat) (c : Int)
    (h : env.perf_open k i ≠ -1) :
    slot_start_events env k i c =
      [Event.perf_event_open k c (env.perf_open k i),
        Event.ioctl (env.perf_open k i) IoctlReq.RESET,
        Event.ioctl (env.perf_open k i) IoctlReq.ENABLE] := by
  simp [slot_start_events, setup_counter, activate, h]

theorem slot_start_events_failed (env : Env) (k : CounterKind) (i : Nat) (c : Int)
    (h : env.perf_open k i = -1) :
    slot_start_events env k i c =
      [Event.perf_event_open k c (-1), Event.warning (Warning.perf_open_failed k c)] := by
  simp [slot_start_events, setup_counter, activate, h]


/-! ## Values of `/proc/self/io` that `std::stoull` rejects -/

theorem get_io_stats_line_ok_iff (stats : IOStats) (line : List Char) :
    (∃ r, get_io_stats_line stats line = .ok r) ↔
      (io_label line = true → ∃ v, stoull (afterColon line) = .ok v) := by
  unfold get_io_stats_line io_label
  generalize find "read_bytes:".toList line = f1
  generalize find "write_bytes:".toList line = f2
  generalize find "syscr:".toList line = f3
  generalize find "syscw:".toList line = f4
  generalize stoull (afterColon line) = sv
  cases f1 <;> cases f2 <;> cases f3 <;> cases f4 <;> cases sv <;>
    simp [bind, Except.bind, pure, Except.pure]

theorem get_io_stats_lines_ok_iff (lines : List (List Char)) :
    ∀ stats : IOStats, (∃ r, lines.foldlM get_io_stats_line stats = .ok r) ↔
      ∀ line ∈ lines, io_label line = true → ∃ v, stoull (afterColon line) = .ok v := by
  induction lines with
  | nil => intro stats; simp [pure, Except.pure]
  | cons l ls ih =>
    intro stats
    rw [List.foldlM_cons]
    constructor
    · rintro ⟨r, hr⟩
      cases hl : get_io_stats_line stats l with
      | error e => rw [hl] at hr; cases hr
      | ok s1 =>
        rw [hl] at hr
        intro line hmem
        rcases List.mem_cons.mp hmem with h | h
        · rw [h]; exact (get_io_stats_line_ok_iff stats l).mp ⟨s1, hl⟩
        · exact (ih s1).mp ⟨r, hr⟩ line h
    · intro hall
      obtain ⟨s1, hs1⟩ := (get_io_stats_line_ok_iff stats l).mpr (hall l (List.mem_cons_self l ls))
      rw [hs1]
      exact (ih s1).mpr (fun line hmem => hall line (List.mem_cons_of_mem l hmem))

theorem get_io_stats_line_unlabelled (stats : IOStats) (line : List Char)
    (h : io_label line = false) : get_io_stats_line stats line = .ok stats := by
  unfold io_label at h
  unfold get_io_stats_line
  generalize find "read_bytes:".toList line = f1 at *
  generalize find "write_bytes:".toList line = f2 at *
  generalize find "syscr:".toList line = f3 at *
  generalize find "syscw:".toList line = f4 at *
  cases f1 <;> cases f2 <;> cases f3 <;> cases f4 <;>
    simp [pure, Except.pure] at h ⊢

theorem get_io_stats_line_rejected (stats : IOStats) (line : List Char) (e : Fault)
    (h : io_label line = true) (he : stoull (afterColon line) = .error e) :
    get_io_stats_line stats line = .error e := by
  unfold io_label at h
  unfold get_io_stats_line
  rw [he]
  generalize find "read_bytes:".toList line = f1 at *
  generalize find "write_bytes:".toList line = f2 at *
  generalize find "syscr:".toList line = f3 at *
  generalize find "syscw:".toList line = f4 at *
  cases f1 <;> cases f2 <;> cases f3 <;> cases f4 <;>
    simp [bind, Except.bind] at h ⊢

/-- The exception of `get_io_stats` is that of the first labelled line whose value
`std::stoull` rejects. -/
theorem get_io_stats_lines_first_error (pre : List (List Char)) (line : List Char)
    (post : List (List Char)) (e : Fault)
    (hpre : ∀ l ∈ pre, io_label l = true → ∃ v, stoull (afterColon l) = .ok v)
    (hl : io_label line = true) (he : stoull (afterColon line) = .error e) :
    ∀ stats : IOStats, (pre ++ line :: post).foldlM get_io_stats_line stats = .error e := by
  induction pre with
  | nil =>
    intro stats
    rw [List.nil_append, List.foldlM_cons, get_io_stats_line_rejected stats line e hl he]
    rfl
  | cons l ls ih =>
    intro stats
    obtain ⟨s1, hs1⟩ := (get_io_stats_line_ok_iff stats l).mpr (hpre l (List.mem_cons_self l ls))
    rw [List.cons_append, List.foldlM_cons, hs1]
    exact ih (fun x hx => hpre x (List.mem_cons_of_mem l hx)) s1

theorem end_phase_io_error (env : Env) (m : PerformanceMonitor) (phase_name : String)
    (io0 : IOStats) (e : Fault) (h0 : m.phase_start_io phase_name = some io0)
    (he : get_io_stats env.proc_self_io = .error e) :
    end_phase env m phase_name = .error e := by
  unfold end_phase
  simp only [h0, end_io, he, bind, Except.bind]


/-! ## Recording and printing samples -/

theorem RecordStats_same (pm : PerformanceMetrics) (phase : String) (stats : PerfStats) :
    (RecordStats pm phase stats).phase_stats phase = some (history pm phase ++ [stats]) := by
  unfold RecordStats history
  cases h : pm.phase_stats phase <;> simp [PhaseMap.insert, h]

theorem RecordStats_other (pm : PerformanceMetrics) (phase : String) (stats : PerfStats)
    (q : String) (hq : q ≠ phase) :
    (RecordStats pm phase stats).phase_stats q = pm.phase_stats q := by
  unfold RecordStats
  cases h : pm.phase_stats phase <;> simp [PhaseMap.insert, h, hq]

theorem history_run (pm : PerformanceMetrics) (call : MetricsCall) (q : String) :
    List.IsPrefix (history pm q) (history (call.run pm) q) := by
  cases call with
  | print order => exact List.prefix_refl _
  | record phase stats =>
    by_cases hq : q = phase
    · subst hq
      have h := RecordStats_same pm q stats
      show List.IsPrefix (history pm q) (((RecordStats pm q stats).phase_stats q).getD [])
      rw [h]
      exact List.prefix_append _ _
    · have h := RecordStats_other pm phase stats q hq
      show List.IsPrefix (history pm q) (((RecordStats pm phase stats).phase_stats q).getD [])
      rw [h]
      exact List.prefix_refl _

theorem history_run_calls (calls : List MetricsCall) :
    ∀ (pm : PerformanceMetrics) (q : String),
      List.IsPrefix (history pm q) (history (run_calls pm calls) q) := by
  induction calls with
  | nil => intro pm q; exact List.prefix_refl _
  | cons c cs ih =>
    intro pm q
    exact (history_run pm c q).trans (ih (c.run pm) q)

theorem present_run (pm : PerformanceMetrics) (call : MetricsCall) (q : String)
    (h : pm.phase_stats q ≠ none) : (call.run pm).phase_stats q ≠ none := by
  cases call with
  | print order => exact h
  | record phase stats =>
    by_cases hq : q = phase
    · subst hq
      show (RecordStats pm q stats).phase_stats q ≠ none
      rw [RecordStats_same]; simp
    · show (RecordStats pm phase stats).phase_stats q ≠ none
      rw [RecordStats_other pm phase stats q hq]; exact h

theorem present_run_calls (calls : List MetricsCall) :
    ∀ (pm : PerformanceMetrics) (q : String), pm.phase_stats q ≠ none →
      (run_calls pm calls).phase_stats q ≠ none := by
  induction calls with
  | nil => intro pm q h; exact h
  | cons c cs ih =>
    intro pm q h
    exact ih (c.run pm) q (present_run pm c q h)

theorem foldlM_emit {ι : Type} (g : ι → Except Fault (List OutItem)) (h : ι → List OutItem)
    (l : List ι) (hl : ∀ i ∈ l, g i = .ok (h i)) :
    ∀ out : List OutItem,
      l.foldlM (fun out i => do
        let x ← g i
        pure (out ++ x)) out = .ok (out ++ l.flatMap h) := by
  induction l with
  | nil => intro out; simp [pure, Except.pure]
  | cons a l ih =>
    intro out
    rw [List.foldlM_cons, hl a (List.mem_cons_self a l)]
    show List.foldlM _ (out ++ h a) l = _
    rw [ih (fun i hi => hl i (List.mem_cons_of_mem a hi))]
    simp [List.flatMap_cons, List.append_assoc]

theorem idx_of_lt {α : Type} (v : List α) (i : Nat) (d : α) (hi : i < v.length) :
    idx v i = .ok (v.getD i d) := by
  unfold idx
  simp [List.getD, List.getElem?_eq_getElem hi]

theorem PrintSinglePhaseStat_core_eq (stats : PerfStats) (pfx : String) (i : Nat)
    (hwf : PerCoreInBounds stats) (hi : i < stats.core_user_times.length) :
    PrintSinglePhaseStat_core stats pfx i = .ok (core_line stats pfx i) := by
  unfold PrintSinglePhaseStat_core core_line
  rw [idx_of_lt stats.core_user_times i 0 hi,
    idx_of_lt stats.core_system_times i 0 (Nat.lt_of_lt_of_le hi hwf)]
  rfl

theorem PrintSinglePhaseStat_eq (stats : PerfStats) (pfx : String)
    (hwf : PerCoreInBounds stats) :
    PrintSinglePhaseStat stats pfx = .ok (single_report stats pfx) := by
  unfold PrintSinglePhaseStat single_report per_core_lines
  by_cases he : stats.core_user_times.isEmpty = true
  · simp [he, single_lines, pure, Except.pure]
  · simp only [he, not_false_eq_true, if_true, if_false, Bool.false_eq_true]
    rw [foldlM_emit (PrintSinglePhaseStat_core stats pfx) (core_line stats pfx) _
      (fun i hi => PrintSinglePhaseStat_core_eq stats pfx i hwf (List.mem_range.mp hi))]
    simp [single_lines, List.append_assoc]

theorem PrintStats_step_eq (stats_vec : List PerfStats) (i : Nat)
    (hwf : ∀ s ∈ stats_vec, PerCoreInBounds s) (hi : i < stats_vec.length) :
    PrintStats_step stats_vec i = .ok (step_lines stats_vec i) := by
  unfold PrintStats_step step_lines idx
  rw [List.getElem?_eq_getElem hi]
  simp only [bind, Except.bind, pure, Except.pure]
  rw [PrintSinglePhaseStat_eq _ _ (hwf _ (List.getElem_mem hi))]

theorem foldl_Averages_add (stats_vec : List PerfStats) :
    ∀ a : Averages, stats_vec.foldl Averages.add a =
      { avg_wall_time := a.avg_wall_time + (stats_vec.map PerfStats.wall_time_ms).sum
        avg_user_time := a.avg_user_time + (stats_vec.map PerfStats.user_time_sec).sum
        avg_system_time := a.avg_system_time + (stats_vec.map PerfStats.system_time_sec).sum
        avg_cpu_time := a.avg_cpu_time + (stats_vec.map PerfStats.cpu_time_sec).sum
        avg_io_wait_time := a.avg_io_wait_time + (stats_vec.map PerfStats.io_wait_time_ms).sum
        avg_io_bytes_read := a.avg_io_bytes_read + (stats_vec.map PerfStats.io_bytes_read).sum
        avg_io_bytes_written :=
          a.avg_io_bytes_written + (stats_vec.map PerfStats.io_bytes_written).sum } := by
  induction stats_vec with
  | nil => intro a; simp
  | cons s v ih =>
    intro a
    rw [List.foldl_cons, ih]
    simp [Averages.add, add_assoc]

theorem PrintStats_phase_empty (phase : String) : PrintStats_phase phase [] = .ok [] := rfl

theorem PrintStats_phase_single (phase : String) (stats : PerfStats)
    (hwf : PerCoreInBounds stats) :
    PrintStats_phase phase [stats] = .ok (phase_header phase ++ single_report stats "") := by
  unfold PrintStats_phase
  simp only [List.isEmpty_cons, Bool.false_eq_true, if_false, List.length_singleton, if_true,
    idx, List.getElem?_cons_zero, bind, Except.bind, pure, Except.pure]
  rw [PrintSinglePhaseStat_eq stats "" hwf]
  rfl

theorem PrintStats_phase_many (phase : String) (stats_vec : List PerfStats)
    (hn : 2 ≤ stats_vec.length) (hwf : ∀ s ∈ stats_vec, PerCoreInBounds s) :
    PrintStats_phase phase stats_vec =
      .ok (phase_header phase ++ (average_lines stats_vec ++ step_details stats_vec)) := by
  unfold PrintStats_phase
  have hne : stats_vec.isEmpty = false := by
    cases stats_vec with
    | nil => simp at hn
    | cons a l => rfl
  have h1 : ¬ stats_vec.length = 1 := by omega
  simp only [hne, Bool.false_eq_true, if_false, h1, foldl_Averages_add, Averages.div,
    zero_add]
  unfold step_details
  by_cases h10 : stats_vec.length ≤ 10
  · simp only [h10, if_true]
    rw [foldlM_emit (PrintStats_step stats_vec) (step_lines stats_vec) _
      (fun i hi => PrintStats_step_eq stats_vec i hwf (List.mem_range.mp hi))]
    simp [phase_header, average_lines, mean, List.append_assoc]
  · simp only [h10, if_false]
    simp [phase_header, average_lines, mean, pure, Except.pure]

theorem PrintStats_phase_returns (phase : String) (stats_vec : List PerfStats)
    (hwf : ∀ s ∈ stats_vec, PerCoreInBounds s) :
    ∃ report, PrintStats_phase phase stats_vec = .ok report := by
  match stats_vec, hwf with
  | [], _ => exact ⟨_, PrintStats_phase_empty phase⟩
  | [s], hwf => exact ⟨_, PrintStats_phase_single phase s (hwf s (List.mem_singleton.mpr rfl))⟩
  | a :: b :: l, hwf =>
    exact ⟨_, PrintStats_phase_many phase (a :: b :: l) (by simp) hwf⟩

theorem history_metricsAB : history metricsAB "Decode_Token" = [sampleA, sampleB] := rfl

theorem metricsAB_in_bounds :
    ∀ p ∈ ["Decode_Token"], ∀ s ∈ history metricsAB p, PerCoreInBounds s := by
  intro p hp s hs
  rw [List.mem_singleton.mp hp, history_metricsAB] at hs
  simp only [List.mem_cons, List.mem_singleton, List.not_mem_nil, or_false] at hs
  rcases hs with h | h <;> rw [h] <;> simp [PerCoreInBounds, sampleA, sampleB, PerfStats.init]


/-! ## Reachable monitors -/

theorem same_of_ne_start (env : Env) (m : PerformanceMonitor) (name0 : String) (io : IOStats)
    (phase_name : String) (h : phase_name ≠ name0) :
    SameSnapshot m (started_monitor env m name0 io) phase_name := by
  have hp : (started_monitor env m name0 io).phase_start_process_time phase_name =
      m.phase_start_process_time phase_name := by
    unfold started_monitor
    cases env.process_cputime <;> simp [PhaseMap.insert, h]
  refine ⟨?_, ?_, ?_, hp, ?_, ?_, ?_, rfl⟩ <;> simp [started_monitor, PhaseMap.insert, h]

theorem same_of_ne_erase (m : PerformanceMonitor) (name0 : String) (phase_name : String)
    (h : phase_name ≠ name0) : SameSnapshot m (erase_phase m name0) phase_name := by
  refine ⟨?_, ?_, ?_, ?_, ?_, ?_, ?_, rfl⟩ <;> simp [erase_phase, PhaseMap.erase, h]

theorem never_of_same {a b : PerformanceMonitor} {phase_name : String}
    (hn : NeverStarted a phase_name) (h : SameSnapshot a b phase_name) :
    NeverStarted b phase_name :=
  ⟨h.time.trans hn.time, h.rusage.trans hn.rusage, h.io.trans hn.io,
    h.process_time.trans hn.process_time, h.core_times.trans hn.core_times,
    h.core_fds.trans hn.core_fds, h.core_timespec.trans hn.core_timespec⟩

theorem snapshot_of_same {a b : PerformanceMonitor} {phase_name : String}
    (hs : Snapshot a phase_name) (h : SameSnapshot a b phase_name) : Snapshot b phase_name := by
  obtain ⟨start, ru, io, ticks, fds, ts, h1, h2, h3⟩ := hs
  exact ⟨start, ru, io, ticks, fds, ts, started_of_same h1 h, h.core_timespec.trans h2,
    by rw [h.cores]; exact h3⟩

theorem foldl_set_length {α : Type} (f : Nat → α) (l : List Nat) :
    ∀ v : List α, (l.foldl (fun v i => v.set i (f i)) v).length = v.length := by
  induction l with
  | nil => intro v; rfl
  | cons a l ih => intro v; rw [List.foldl_cons, ih, List.length_set]

theorem started_monitor_snapshot (env : Env) (m : PerformanceMonitor) (phase_name : String)
    (io : IOStats) : Snapshot (started_monitor env m phase_name io) phase_name := by
  refine ⟨_, _, _, _, _,
    ⟨(List.range m.monitored_cores.length).foldl (fun v i => v.set i (env.monotonic i))
      (resize [] m.monitored_cores.length (⟨0, 0⟩ : timespec))⟩,
    started_monitor_started env m phase_name io, ?_, ?_⟩
  · simp [started_monitor, PhaseMap.insert]
  · show List.length (List.foldl (fun v i => v.set i (env.monotonic i))
      (resize [] m.monitored_cores.length (⟨0, 0⟩ : timespec))
      (List.range m.monitored_cores.length)) = m.monitored_cores.length
    rw [foldl_set_length, resize_nil, List.length_replicate]

theorem consistent_create (detected cores : List Int) :
    Consistent (PerformanceMonitor.create detected cores) :=
  fun _ => Or.inl ⟨rfl, rfl, rfl, rfl, rfl, rfl, rfl⟩

theorem consistent_start (env : Env) (m m1 : PerformanceMonitor) (name0 : String)
    (ev : List Event) (hc : Consistent m) (h : start_phase env m name0 = .ok (m1, ev)) :
    Consistent m1 := by
  obtain ⟨io, _, hm1, _⟩ := start_phase_ok_inv env m m1 name0 ev h
  subst hm1
  intro phase_name
  by_cases hn : phase_name = name0
  · subst hn
    exact Or.inr (started_monitor_snapshot env m phase_name io)
  · have hsame := same_of_ne_start env m name0 io phase_name hn
    rcases hc phase_name with h1 | h1
    · exact Or.inl (never_of_same h1 hsame)
    · exact Or.inr (snapshot_of_same h1 hsame)

theorem consistent_end (env : Env) (m m1 : PerformanceMonitor) (name0 : String)
    (stats : PerfStats) (ev : List Event) (hc : Consistent m)
    (h : end_phase env m name0 = .ok (stats, m1, ev)) : Consistent m1 := by
  have hm1 := end_phase_monitor env m m1 name0 stats ev h
  subst hm1
  intro phase_name
  by_cases hn : phase_name = name0
  · subst hn
    exact Or.inl (erase_phase_never_started m phase_name)
  · have hsame := same_of_ne_erase m name0 phase_name hn
    rcases hc phase_name with h1 | h1
    · exact Or.inl (never_of_same h1 hsame)
    · exact Or.inr (snapshot_of_same h1 hsame)

theorem consistent_reachable_from (m0 m : PerformanceMonitor) (h0 : Consistent m0)
    (h : ReachableFrom m0 m) : Consistent m := by
  induction h with
  | init => exact h0
  | start env m m1 phase_name ev _ hs ih => exact consistent_start env m m1 phase_name ev ih hs
  | stop env m m1 phase_name stats ev _ hs ih =>
    exact consistent_end env m m1 phase_name stats ev ih hs

theorem consistent_reachable (m : PerformanceMonitor) (h : Reachable m) : Consistent m := by
  obtain ⟨affinity, cores, hr⟩ := h
  exact consistent_reachable_from _ m (consistent_create _ cores) hr

theorem cores_reachable_from (m0 m : PerformanceMonitor) (h : ReachableFrom m0 m) :
    m.monitored_cores = m0.monitored_cores := by
  induction h with
  | init => rfl
  | start env m m1 phase_name ev _ hs ih =>
    obtain ⟨io, _, hm1, _⟩ := start_phase_ok_inv env m m1 phase_name ev hs
    rw [hm1, started_monitor_cores, ih]
  | stop env m m1 phase_name stats ev _ hs ih =>
    rw [end_phase_monitor env m m1 phase_name stats ev hs]
    exact ih

theorem create_cores_ne_nil (detected cores : List Int) :
    (PerformanceMonitor.create detected cores).monitored_cores ≠ [] := by
  unfold PerformanceMonitor.create
  cases cores with
  | cons a l => simp
  | nil =>
    cases detected with
    | cons a l => simp
    | nil => simp

theorem double_to_u64_natCast_ge (n : Nat) (h : ¬ n < U64) :
    double_to_u64 (n : ℚ) = .error Fault.undefined := by
  have h2 : ¬ (n : ℚ) < (U64 : ℚ) := by
    intro hc
    exact h (by exact_mod_cast hc)
  simp [double_to_u64, h2]

theorem end_phase_io_overflow (env : Env) (m : PerformanceMonitor) (phase_name : String)
    (io0 io1 : IOStats) (h0 : m.phase_start_io phase_name = some io0)
    (hio : get_io_stats env.proc_self_io = .ok io1)
    (hub : ¬ io_total io0 io1 < U64) :
    end_phase env m phase_name = .error Fault.undefined := by
  have hconv := double_to_u64_natCast_ge _ hub
  unfold io_total io_delta at hconv
  unfold end_phase
  simp only [h0, end_io, hio, bind, Except.bind, pure, Except.pure, hconv]

/-- A started phase for which `end_phase` returns had a readable `/proc/self/io`
and a byte total that fits 64 bits. -/
theorem end_phase_started_inv (env : Env) (m m1 : PerformanceMonitor) (phase_name : String)
    (start : Int) (ru : rusage) (io0 : IOStats) (ticks : List (ℚ × ℚ)) (fds : CoreEventFds)
    (stats : PerfStats) (ev : List Event)
    (hs : StartedWith m phase_name start ru io0 ticks fds)
    (h : end_phase env m phase_name = .ok (stats, m1, ev)) :
    ∃ io1, get_io_stats env.proc_self_io = .ok io1 ∧
      io_total io0 io1 < U64 ∧
      stats = end_stats env m phase_name start ru io0 io1 ticks fds ∧
      ev = end_events env m fds := by
  cases hio : get_io_stats env.proc_self_io with
  | error e =>
    rw [end_phase_io_error env m phase_name io0 e hs.io hio] at h
    cases h
  | ok io1 =>
    by_cases hub : io_total io0 io1 < U64
    · rw [end_phase_started env m phase_name start ru io0 io1 ticks fds hs hio hub] at h
      simp only [Except.ok.injEq, Prod.mk.injEq] at h
      exact ⟨io1, rfl, hub, h.1.symm, h.2.2.symm⟩
    · rw [end_phase_io_overflow env m phase_name io0 io1 hs.io hio hub] at h
      cases h

theorem end_events_no_warning (env : Env) (m : PerformanceMonitor) (fds : CoreEventFds)
    (w : Warning) : Event.warning w ∉ end_events env m fds := by
  intro he
  simp only [end_events, List.mem_flatMap] at he
  obtain ⟨i, _, hi⟩ := he
  simp only [core_events, List.mem_append] at hi
  have key : ∀ fd nb, Event.warning w ∉ counter_events env fd nb := by
    intro fd nb h
    have := (counter_events_fd env fd nb _ h).1
    simp [Event.fd?] at this
  rcases hi with ((((h | h) | h) | h) | h) | h <;> exact key _ _ h


/-! ## The I/O wait sum and the events of one slot -/

theorem reachable_monB : Reachable monB := by
  obtain ⟨ev, h⟩ := start_phase_envStartCounters
  exact ⟨none, [0], ReachableFrom.start envStartCounters mon0 monB "A" ev ReachableFrom.init h⟩

theorem stoull_error (s : List Char) (e : Fault) (h : stoull s = .error e) :
    e ≠ Fault.undefined := by
  unfold stoull at h
  simp only at h
  split_ifs at h <;> cases h <;> simp

theorem get_io_stats_line_error (stats : IOStats) (line : List Char) (e : Fault)
    (h : get_io_stats_line stats line = .error e) : e ≠ Fault.undefined := by
  unfold get_io_stats_line at h
  cases hv : stoull (afterColon line) with
  | ok v =>
    simp only [hv, bind, Except.bind, pure, Except.pure] at h
    split_ifs at h
  | error e2 =>
    simp only [hv, bind, Except.bind, pure, Except.pure] at h
    have he2 := stoull_error _ e2 hv
    split_ifs at h <;> cases h <;> exact he2

theorem get_io_stats_lines_error (lines : List (List Char)) :
    ∀ (stats : IOStats) (e : Fault), lines.foldlM get_io_stats_line stats = .error e →
      e ≠ Fault.undefined := by
  induction lines with
  | nil => intro stats e h; cases h
  | cons l ls ih =>
    intro stats e h
    rw [List.foldlM_cons] at h
    cases hl : get_io_stats_line stats l with
    | error e2 =>
      rw [hl] at h
      cases h
      exact get_io_stats_line_error stats l e hl
    | ok s1 =>
      rw [hl] at h
      exact ih s1 e h

theorem get_io_stats_error (text : Option (List Char)) (e : Fault)
    (h : get_io_stats text = .error e) : e ≠ Fault.undefined := by
  cases text with
  | none => cases h
  | some t => exact get_io_stats_lines_error _ _ e h


/-! ## Rounding to `float` -/

theorem to_float_zero : to_float 0 = 0 := by
  simp [to_float]

theorem to_float_nonneg (x : ℚ) (h : 0 ≤ x) : 0 ≤ to_float x := by
  unfold to_float
  split
  · exact le_refl 0
  · rw [if_neg (not_lt.mpr h)]
    exact div_nonneg (Nat.cast_nonneg _) (Nat.cast_nonneg _)

theorem bit_length_zero (fuel : Nat) : bit_length fuel 0 = 0 := by
  cases fuel <;> simp [bit_length]

theorem bit_length_spec (fuel : Nat) : ∀ n, n < 2 ^ fuel →
    n < 2 ^ bit_length fuel n ∧ (n ≠ 0 → 2 ^ (bit_length fuel n - 1) ≤ n) := by
  induction fuel with
  | zero =>
    intro n h
    have h0 : n = 0 := by simpa using h
    subst h0
    simp [bit_length]
  | succ k ih =>
    intro n h
    unfold bit_length
    by_cases h0 : n = 0
    · simp [h0]
    · rw [if_neg h0]
      have h2 : n / 2 < 2 ^ k := by
        rw [pow_succ] at h
        omega
      obtain ⟨hu, hl⟩ := ih (n / 2) h2
      refine ⟨by rw [pow_succ]; omega, fun _ => ?_⟩
      simp only [Nat.add_sub_cancel]
      by_cases h1 : n / 2 = 0
      · rw [h1, bit_length_zero]
        simp
        omega
      · have hl1 := hl h1
        obtain ⟨b, hb⟩ : ∃ b, bit_length k (n / 2) = b + 1 := by
          refine ⟨bit_length k (n / 2) - 1, ?_⟩
          have : bit_length k (n / 2) ≠ 0 := by
            intro hc
            rw [hc] at hu
            simp at hu
            exact h1 hu
          omega
        rw [hb] at hl1 ⊢
        simp only [Nat.add_sub_cancel] at hl1
        rw [pow_succ]
        omega

/-- When the exponent that `log2_floor` delivers is not negative, that power of
two times the divisor is at most the dividend. -/
theorem log2_floor_le (n d : Nat) (hn : n ≠ 0) (h : 0 ≤ log2_floor n d) :
    d * 2 ^ (log2_floor n d).toNat ≤ n := by
  have hd := (bit_length_spec d d (Nat.lt_two_pow d)).1
  have hnl := (bit_length_spec n n (Nat.lt_two_pow n)).2 hn
  unfold log2_floor at h ⊢
  simp only at h ⊢
  generalize bit_length n n = a at *
  generalize bit_length d d = b at *
  by_cases hc : (if 0 ≤ (a : Int) - (b : Int) then d * 2 ^ ((a : Int) - (b : Int)).toNat ≤ n
      else d ≤ n * 2 ^ (-((a : Int) - (b : Int))).toNat)
  · rw [if_pos hc] at h ⊢
    rw [if_pos h] at hc
    exact hc
  · rw [if_neg hc] at h ⊢
    have hge : b + 1 ≤ a := by omega
    have ht : ((a : Int) - (b : Int) - 1).toNat = a - 1 - b := by omega
    rw [ht]
    have hpow : 2 ^ b * 2 ^ (a - 1 - b) = 2 ^ (a - 1) := by
      rw [← pow_add]
      congr 1
      omega
    calc d * 2 ^ (a - 1 - b)
        ≤ 2 ^ b * 2 ^ (a - 1 - b) := Nat.mul_le_mul_right _ (le_of_lt hd)
      _ = 2 ^ (a - 1) := hpow
      _ ≤ n := hnl

/-- A value of at least 1 is not rounded below 1. -/
theorem one_le_to_float (x : ℚ) (h : 1 ≤ x) : 1 ≤ to_float x := by
  have hpos : 0 < x := by linarith
  have hx0 : x ≠ 0 := ne_of_gt hpos
  have hneg : ¬ x < 0 := not_lt.mpr hpos.le
  have hnum : 0 < x.num := Rat.num_pos.mpr hpos
  have hdn : x.den ≤ x.num.natAbs := by
    have hx := Rat.num_div_den x
    rw [← hx, le_div_iff₀ (by exact_mod_cast x.den_pos)] at h
    have h2 : ((x.den : Int) : ℚ) ≤ ((x.num : Int) : ℚ) := by simpa using h
    have h3 : (x.den : Int) ≤ x.num := by exact_mod_cast h2
    omega
  have hn0 : x.num.natAbs ≠ 0 := by omega
  unfold to_float
  rw [if_neg hx0]
  simp only [hneg, if_false]
  rw [le_div_iff₀ (by positivity), one_mul]
  norm_cast
  by_cases hs : 0 ≤ float_shift x
  · have hs2 : (-(float_shift x)).toNat = 0 := by omega
    rw [hs2, pow_zero, mul_one]
    have he : 0 ≤ log2_floor x.num.natAbs x.den := by
      unfold float_shift at hs
      omega
    have hle := log2_floor_le x.num.natAbs x.den hn0 he
    have hsle : (float_shift x).toNat ≤ (log2_floor x.num.natAbs x.den).toNat := by
      unfold float_shift
      omega
    have hdle : x.den * 2 ^ (float_shift x).toNat ≤ x.num.natAbs :=
      le_trans (Nat.mul_le_mul_left _ (Nat.pow_le_pow_right (by norm_num) hsle)) hle
    have hdpos : 0 < x.den * 2 ^ (float_shift x).toNat :=
      Nat.mul_pos x.den_pos (by positivity)
    have h1 : 1 ≤ x.num.natAbs / (x.den * 2 ^ (float_shift x).toNat) :=
      (Nat.one_le_div_iff hdpos).mpr hdle
    have h2 := round_half_even_ge x.num.natAbs (x.den * 2 ^ (float_shift x).toNat)
    have h3 : 1 ≤ round_half_even x.num.natAbs (x.den * 2 ^ (float_shift x).toNat) :=
      le_trans h1 h2
    exact Nat.one_le_iff_ne_zero.mpr (Nat.mul_ne_zero (by omega) (by positivity))
  · have hs2 : (float_shift x).toNat = 0 := by omega
    rw [hs2, pow_zero, mul_one, mul_one]
    have h1 : 2 ^ (-(float_shift x)).toNat ≤
        x.num.natAbs * 2 ^ (-(float_shift x)).toNat / x.den :=
      (Nat.le_div_iff_mul_le x.den_pos).mpr (by
        rw [Nat.mul_comm]
        exact Nat.mul_le_mul_right _ hdn)
    exact le_trans h1 (round_half_even_ge _ _)

theorem float_sum_cons (c x : ℚ) (xs : List ℚ) :
    float_sum c (x :: xs) = float_sum (to_float (c + x)) xs := rfl

theorem float_sum_nil (c : ℚ) : float_sum c [] = c := rfl

theorem float_sum_ge_one (l : List ℚ) (hl : ∀ x ∈ l, 0 ≤ x) :
    ∀ c : ℚ, 1 ≤ c → 1 ≤ float_sum c l := by
  induction l with
  | nil => intro c h; exact h
  | cons x xs ih =>
    intro c h
    rw [float_sum_cons]
    apply ih (fun y hy => hl y (List.mem_cons_of_mem x hy))
    apply one_le_to_float
    have := hl x (List.mem_cons_self x xs)
    linarith

/-- A sum of values that are not negative, one of which is 1, is at least 1 also
when it is accumulated in a `float`. -/
theorem float_sum_ge_one_of_mem (l : List ℚ) (hl : ∀ x ∈ l, 0 ≤ x) (h1 : (1 : ℚ) ∈ l) :
    ∀ c : ℚ, 0 ≤ c → 1 ≤ float_sum c l := by
  induction l with
  | nil => cases h1
  | cons x xs ih =>
    intro c hc
    rw [float_sum_cons]
    have hx := hl x (List.mem_cons_self x xs)
    have hxs : ∀ y ∈ xs, 0 ≤ y := fun y hy => hl y (List.mem_cons_of_mem x hy)
    rcases List.mem_cons.mp h1 with h | h
    · apply float_sum_ge_one xs hxs
      apply one_le_to_float
      rw [← h]
      linarith
    · exact ih hxs h _ (to_float_nonneg _ (by linarith))


/-! ## The sampler -/

instance : IsTotal (ℚ × Int) pair_ge where
  total a b := by
    unfold pair_ge
    rcases lt_trichotomy a.1 b.1 with h | h | h
    · exact Or.inr (Or.inl h)
    · rcases le_total a.2 b.2 with h2 | h2
      · exact Or.inr (Or.inr ⟨h, h2⟩)
      · exact Or.inl (Or.inr ⟨h.symm, h2⟩)
    · exact Or.inl (Or.inl h)

instance : IsTrans (ℚ × Int) pair_ge where
  trans a b c hab hbc := by
    unfold pair_ge at *
    rcases hab with h1 | ⟨h1, h2⟩ <;> rcases hbc with h3 | ⟨h3, h4⟩
    · exact Or.inl (lt_trans h3 h1)
    · exact Or.inl (by rw [h3]; exact h1)
    · exact Or.inl (by rw [← h1]; exact h3)
    · exact Or.inr ⟨by rw [h3, h1], le_trans h4 h2⟩

theorem resize_of_le {α : Type} (v : List α) (n : Nat) (x : α) (h : n ≤ v.length) :
    resize v n x = v.take n := by
  simp [resize, Nat.sub_eq_zero_of_le h]

theorem top_p_cutoff_some (p : ℚ) (l : List (ℚ × Int)) :
    ∀ (c : ℚ) (i j : Nat), top_p_cutoff p l c i = some j →
      ∃ t, j = i + t ∧ t < l.length ∧ p < float_sum c ((l.take (t + 1)).map Prod.fst) ∧
        ∀ u, 0 < u → u ≤ t → float_sum c ((l.take u).map Prod.fst) ≤ p := by
  induction l with
  | nil => intro c i j h; cases h
  | cons x xs ih =>
    intro c i j h
    unfold top_p_cutoff at h
    by_cases hx : to_float (c + x.1) > p
    · rw [if_pos hx] at h
      cases h
      refine ⟨0, rfl, by simp, by simpa [float_sum_cons, float_sum_nil] using hx, ?_⟩
      intro u h0 hu
      omega
    · rw [if_neg hx] at h
      obtain ⟨t, hj, ht, hp, hall⟩ := ih (to_float (c + x.1)) (i + 1) j h
      refine ⟨t + 1, by omega, by simp [ht], ?_, ?_⟩
      · simpa [List.take_succ_cons, float_sum_cons] using hp
      · intro u h0 hu
        cases u with
        | zero => omega
        | succ u =>
          cases u with
          | zero => simpa [float_sum_cons, float_sum_nil] using not_lt.mp hx
          | succ u =>
            have := hall (u + 1) (by omega) (by omega)
            simpa [List.take_succ_cons, float_sum_cons] using this

theorem top_p_cutoff_none (p : ℚ) (l : List (ℚ × Int)) :
    ∀ (c : ℚ) (i : Nat), top_p_cutoff p l c i = none →
      ∀ u, 0 < u → u ≤ l.length → float_sum c ((l.take u).map Prod.fst) ≤ p := by
  induction l with
  | nil => intro c i _ u h0 hu; simp at hu; omega
  | cons x xs ih =>
    intro c i h u h0 hu
    unfold top_p_cutoff at h
    by_cases hx : to_float (c + x.1) > p
    · rw [if_pos hx] at h
      cases h
    · rw [if_neg hx] at h
      cases u with
      | zero => omega
      | succ u =>
        cases u with
        | zero => simpa [float_sum_cons, float_sum_nil] using not_lt.mp hx
        | succ u =>
          have := ih (to_float (c + x.1)) (i + 1) h (u + 1) (by omega) (by simpa using hu)
          simpa [List.take_succ_cons, float_sum_cons] using this

theorem foldl_max_ge (xs : List ℚ) : ∀ x : ℚ, ∀ y ∈ x :: xs, y ≤ xs.foldl max x := by
  induction xs with
  | nil =>
    intro x y hy
    rw [List.mem_singleton.mp hy]
    exact le_refl _
  | cons z zs ih =>
    intro x y hy
    rw [List.foldl_cons]
    rcases List.mem_cons.mp hy with h | h
    · rw [h]
      exact le_trans (le_max_left x z) (ih (max x z) _ (List.mem_cons_self _ _))
    · rcases List.mem_cons.mp h with h2 | h2
      · rw [h2]
        exact le_trans (le_max_right x z) (ih (max x z) _ (List.mem_cons_self _ _))
      · exact ih (max x z) y (List.mem_cons_of_mem _ h2)

theorem foldl_max_mem (xs : List ℚ) : ∀ x : ℚ, xs.foldl max x ∈ x :: xs := by
  induction xs with
  | nil => intro x; simp
  | cons y ys ih =>
    intro x
    rw [List.foldl_cons]
    have h := ih (max x y)
    rcases List.mem_cons.mp h with h1 | h1
    · rw [h1]
      rcases max_choice x y with hm | hm
      · rw [hm]; simp
      · rw [hm]; simp
    · exact List.mem_cons_of_mem _ (List.mem_cons_of_mem _ h1)

/-- The pairs of step 2 for a vocabulary that is not empty: the probabilities are
the values of `expf` at the scaled logits less their maximum, each divided by
their sum; the sum is accumulated in a `float` and is at least 1, so that the
division is a division of finite numbers. -/
theorem softmax_pairs_eq (expf : ℚ → ℚ) (logits : List ℚ) (temperature : ℚ)
    (hlog : logits ≠ []) (hexp0 : expf 0 = 1) (hexp : ∀ x, 0 ≤ expf x) :
    ∃ max_logit sum_exp, max_logit ∈ logits.map (fun x => to_float (x / temperature)) ∧
      (∀ y ∈ logits.map (fun x => to_float (x / temperature)), y ≤ max_logit) ∧
      sum_exp = float_sum 0
        (logits.map (fun x => expf (to_float (to_float (x / temperature) - max_logit)))) ∧
      1 ≤ sum_exp ∧
      softmax_pairs expf logits temperature =
        .ok ((logits.map (fun x =>
            to_float (expf (to_float (to_float (x / temperature) - max_logit)) / sum_exp))).enum.map
          (fun ix => (ix.2, (ix.1 : Int)))) := by
  cases logits with
  | nil => exact absurd rfl hlog
  | cons a l =>
    have hmem := foldl_max_mem (l.map (fun x => to_float (x / temperature)))
      (to_float (a / temperature))
    refine ⟨(l.map (fun x => to_float (x / temperature))).foldl max (to_float (a / temperature)),
      _, hmem, ?_, rfl, ?_, ?_⟩
    · intro y hy
      rw [List.map_cons] at hy
      exact foldl_max_ge _ _ y hy
    · apply float_sum_ge_one_of_mem _ _ _ 0 (le_refl 0)
      · intro x hx
        obtain ⟨y, _, hy⟩ := List.mem_map.mp hx
        rw [← hy]
        exact hexp _
      · have hmem2 : (l.map (fun x => to_float (x / temperature))).foldl max
            (to_float (a / temperature)) ∈
            List.map (fun x => to_float (x / temperature)) (a :: l) := by
          rw [List.map_cons]
          exact hmem
        obtain ⟨y, hy, hym⟩ := List.mem_map.mp hmem2
        refine List.mem_map.mpr ⟨y, hy, ?_⟩
        show expf (to_float (to_float (y / temperature) - _)) = 1
        rw [hym, sub_self, to_float_zero, hexp0]
    · simp [softmax_pairs, max_element, bind, Except.bind, pure, Except.pure, List.map_map,
        Function.comp_def]

theorem enum_pairs_mem {l : List ℚ} {x : ℚ × Int}
    (h : x ∈ l.enum.map (fun ix => (ix.2, (ix.1 : Int)))) :
    0 ≤ x.2 ∧ x.2 < (l.length : Int) ∧ l[x.2.toNat]? = some x.1 := by
  obtain ⟨ix, hix, hx⟩ := List.mem_map.mp h
  obtain ⟨i, v⟩ := ix
  have hget := List.mk_mem_enum_iff_getElem?.mp hix
  have hlt : i < l.length := by
    by_contra hc
    rw [List.getElem?_eq_none (by omega)] at hget
    cases hget
  rw [← hx]
  refine ⟨by simp, by simpa using hlt, ?_⟩
  simpa using hget

theorem enum_pairs_fst (l : List ℚ) :
    (l.enum.map (fun ix => (ix.2, (ix.1 : Int)))).map Prod.fst = l := by
  rw [List.map_map]
  exact List.enum_map_snd l

/-- The candidates are a prefix of the `min k vocab_size` first sorted pairs that
is not empty, is the shortest one whose sum, accumulated in a `float`, exceeds `p`
and is the whole list when no such sum does. -/
theorem sampler_candidates_eq (expf : ℚ → ℚ) (logits : List ℚ) (temperature : ℚ) (k : Int)
    (p : ℚ) (pairs : List (ℚ × Int)) (hpairs : softmax_pairs expf logits temperature = .ok pairs)
    (hlen : pairs.length = logits.length) (hlog : logits ≠ []) (hk : 1 ≤ k) :
    ∃ c, 0 < c ∧
      c ≤ ((pairs.insertionSort pair_ge).take (min k (logits.length : Int)).toNat).length ∧
      ((pairs.insertionSort pair_ge).take (min k (logits.length : Int)).toNat).length =
        (min k (logits.length : Int)).toNat ∧
      sampler_candidates expf logits temperature k p =
        .ok (((pairs.insertionSort pair_ge).take (min k (logits.length : Int)).toNat).take c) ∧
      (∀ j, 0 < j → j < c →
        float_sum 0
          ((((pairs.insertionSort pair_ge).take (min k (logits.length : Int)).toNat).take j).map
            Prod.fst) ≤ p) ∧
      (p < float_sum 0
          ((((pairs.insertionSort pair_ge).take (min k (logits.length : Int)).toNat).take c).map
            Prod.fst) ∨
        c = ((pairs.insertionSort pair_ge).take (min k (logits.length : Int)).toNat).length) := by
  have hn : 1 ≤ logits.length := by
    cases logits with
    | nil => exact absurd rfl hlog
    | cons a l => simp
  have htk1 : 1 ≤ min k (logits.length : Int) := le_min hk (by exact_mod_cast hn)
  have htk2 : (min k (logits.length : Int)).toNat ≤ (pairs.insertionSort pair_ge).length := by
    rw [List.length_insertionSort, hlen]
    have : min k (logits.length : Int) ≤ (logits.length : Int) := min_le_right _ _
    omega
  have htop : ((pairs.insertionSort pair_ge).take (min k (logits.length : Int)).toNat).length =
      (min k (logits.length : Int)).toNat := by
    rw [List.length_take]
    exact min_eq_left htk2
  have hres : resize (pairs.insertionSort pair_ge) (min k (logits.length : Int)).toNat (0, 0) =
      (pairs.insertionSort pair_ge).take (min k (logits.length : Int)).toNat :=
    resize_of_le _ _ _ htk2
  have hneg : ¬ min k (logits.length : Int) < 0 := by omega
  have hcode : sampler_candidates expf logits temperature k p =
      .ok (resize ((pairs.insertionSort pair_ge).take (min k (logits.length : Int)).toNat)
        (((match top_p_cutoff p
            ((pairs.insertionSort pair_ge).take (min k (logits.length : Int)).toNat) 0 0 with
          | some i => (i : Int)
          | none => min k (logits.length : Int) - 1) + 1).toNat) (0, 0)) := by
    unfold sampler_candidates
    simp only [hpairs, bind, Except.bind, pure, Except.pure, hneg, if_false, hres]
  rw [hcode]
  cases hcut : top_p_cutoff p
      ((pairs.insertionSort pair_ge).take (min k (logits.length : Int)).toNat) 0 0 with
  | some i =>
    obtain ⟨t, hi, ht, hp, hall⟩ := top_p_cutoff_some p _ 0 0 i hcut
    have hit : i = t := by omega
    subst hit
    have hnat : (((i : Int)) + 1).toNat = i + 1 := by omega
    refine ⟨i + 1, by omega, by omega, htop, ?_, ?_, ?_⟩
    · simp only [hnat]
      rw [resize_of_le _ _ _ (by omega)]
    · intro j h0 hj
      have := hall j h0 (by omega)
      simpa using this
    · left
      simpa using hp
  | none =>
    have hall := top_p_cutoff_none p _ 0 0 hcut
    have hnat : (min k (logits.length : Int) - 1 + 1).toNat =
        ((pairs.insertionSort pair_ge).take (min k (logits.length : Int)).toNat).length := by
      rw [htop]
      congr 1
      omega
    refine ⟨_, by rw [htop]; omega, le_refl _, htop, ?_, ?_, Or.inr rfl⟩
    · simp only [hnat]
      rw [resize_of_le _ _ _ (le_refl _)]
    · intro j h0 hj
      have := hall j h0 (le_of_lt hj)
      simpa using this

/-- The draw picks one of the candidates. -/
theorem sampler_token (expf : ℚ → ℚ) (dist : List ℚ → Nat) (logits : List ℚ)
    (temperature : ℚ) (k : Int) (p : ℚ) (cands : List (ℚ × Int))
    (hc : sampler_candidates expf logits temperature k p = .ok cands) (hne : cands ≠ [])
    (hdist : ∀ w : List ℚ, w ≠ [] → dist w < w.length) :
    ∃ x ∈ cands, TemperatureTopKTopPSampler expf dist logits temperature k p = .ok x.2 := by
  have hdraw := hdist
    (cands.map (fun pair => to_float (pair.1 / float_sum 0 (cands.map Prod.fst))))
    (by simpa using hne)
  rw [List.length_map] at hdraw
  refine ⟨cands[dist
      (cands.map (fun pair => to_float (pair.1 / float_sum 0 (cands.map Prod.fst))))],
    List.getElem_mem hdraw, ?_⟩
  unfold TemperatureTopKTopPSampler
  simp only [hc, bind, Except.bind, pure, Except.pure, idx, List.getElem?_eq_getElem hdraw]


/-! ## The choice of the prefill runner -/

theorem int_to_size_of_nonneg (x : Int) (h0 : 0 ≤ x) (h1 : x ≤ INT_MAX) :
    int_to_size x = x.toNat := by
  unfold int_to_size
  have hlt : x < (U64 : Int) := by
    have : INT_MAX < (U64 : Int) := by decide
    omega
  rw [Int.emod_eq_of_lt h0 hlt]

theorem size_to_int_of_le (n : Nat) (h : (n : Int) ≤ INT_MAX) : size_to_int n = (n : Int) := by
  unfold size_to_int
  unfold INT_MAX at h
  omega

/-- One iteration on a key with a sequence size in `0 .. INT_MAX`. -/
theorem GetPrefillRunner_step_eq (n : Nat) (s : PrefillChoice) (key : String × Int)
    (h0 : 0 ≤ key.2) (h1 : key.2 ≤ INT_MAX) :
    GetPrefillRunner_step n false s key =
      .ok (if Eligible n key ∧ key.2 - (n : Int) < s.delta then
        ⟨some key.1, key.2, key.2 - (n : Int)⟩ else s) := by
  unfold GetPrefillRunner_step Eligible
  by_cases hp : StrContains key.1 "prefill" = true
  · by_cases hl : StrContains key.1 "lora" = true
    · simp [hp, hl, pure, Except.pure]
    · have hl2 : StrContains key.1 "lora" = false := by simpa using hl
      have hsz := int_to_size_of_nonneg key.2 h0 h1
      by_cases hn : (n : Int) ≤ key.2
      · have hn2 : n ≤ key.2.toNat := by omega
        have hn3 : (n : Int) ≤ INT_MAX := le_trans hn h1
        have hsub : int_sub key.2 (size_to_int n) = .ok (key.2 - (n : Int)) := by
          rw [size_to_int_of_le n hn3]
          unfold int_sub
          have : INT_MIN ≤ key.2 - (n : Int) ∧ key.2 - (n : Int) ≤ INT_MAX := by
            unfold INT_MIN
            omega
          rw [if_pos this]
        by_cases hd : key.2 - (n : Int) < s.delta
        · simp [hp, hl2, hsz, hn, hn2, hsub, hd, bind, Except.bind, pure, Except.pure]
        · simp [hp, hl2, hsz, hn, hn2, hsub, hd, bind, Except.bind, pure, Except.pure]
      · have hn2 : ¬ n ≤ key.2.toNat := by omega
        simp [hp, hl2, hsz, hn, hn2, pure, Except.pure]
  · have hp2 : StrContains key.1 "prefill" = false := by simpa using hp
    simp [hp2, pure, Except.pure]

/-- Keys that do not improve on the current choice leave it as it is. -/
theorem GetPrefillRunner_loop_keep (n : Nat) (keys : List (String × Int))
    (hdim : ∀ k ∈ keys, 0 ≤ k.2 ∧ k.2 ≤ INT_MAX) (s : PrefillChoice)
    (hno : ∀ k ∈ keys, Eligible n k → s.delta ≤ k.2 - (n : Int)) :
    keys.foldlM (GetPrefillRunner_step n false) s = .ok s := by
  induction keys with
  | nil => rfl
  | cons x l ih =>
    have hx := hdim x (List.mem_cons_self x l)
    rw [List.foldlM_cons, GetPrefillRunner_step_eq n s x hx.1 hx.2]
    have hnot : ¬ (Eligible n x ∧ x.2 - (n : Int) < s.delta) := by
      rintro ⟨he, hlt⟩
      have := hno x (List.mem_cons_self x l) he
      omega
    rw [if_neg hnot]
    exact ih (fun k hk => hdim k (List.mem_cons_of_mem x hk))
      (fun k hk => hno k (List.mem_cons_of_mem x hk))

/-- The loop ends with the first key of the smallest eligible size, when that key
improves on the choice at the start. -/
theorem GetPrefillRunner_loop_first_min (n : Nat) (before : List (String × Int))
    (k : String × Int) (after : List (String × Int))
    (hdim : ∀ x ∈ before ++ k :: after, 0 ≤ x.2 ∧ x.2 ≤ INT_MAX)
    (hk : Eligible n k)
    (hbefore : ∀ x ∈ before, Eligible n x → k.2 < x.2)
    (hafter : ∀ x ∈ after, Eligible n x → k.2 ≤ x.2) :
    ∀ s : PrefillChoice, k.2 - (n : Int) < s.delta →
      (before ++ k :: after).foldlM (GetPrefillRunner_step n false) s =
        .ok ⟨some k.1, k.2, k.2 - (n : Int)⟩ := by
  induction before with
  | nil =>
    intro s hs
    have hkd := hdim k (by simp)
    rw [List.nil_append, List.foldlM_cons, GetPrefillRunner_step_eq n s k hkd.1 hkd.2,
      if_pos ⟨hk, hs⟩]
    exact GetPrefillRunner_loop_keep n after (fun x hx => hdim x (by simp [hx])) _
      (fun x hx he => by
        have := hafter x hx he
        show k.2 - (n : Int) ≤ x.2 - (n : Int)
        omega)
  | cons x l ih =>
    intro s hs
    have hxd := hdim x (by simp)
    rw [List.cons_append, List.foldlM_cons, GetPrefillRunner_step_eq n s x hxd.1 hxd.2]
    have ih2 := ih (fun y hy => hdim y (by
        rw [List.cons_append]
        exact List.mem_cons_of_mem x hy))
      (fun y hy => hbefore y (List.mem_cons_of_mem x hy))
    by_cases hx : Eligible n x ∧ x.2 - (n : Int) < s.delta
    · rw [if_pos hx]
      apply ih2
      have := hbefore x (List.mem_cons_self x l) hx.1
      show k.2 - (n : Int) < x.2 - (n : Int)
      omega
    · rw [if_neg hx]
      exact ih2 s hs

/-- A list with an eligible key has a first key of the smallest eligible size. -/
theorem exists_first_min (n : Nat) (keys : List (String × Int))
    (hex : ∃ k ∈ keys, Eligible n k) :
    ∃ before k after, keys = before ++ k :: after ∧ Eligible n k ∧
      (∀ x ∈ before, Eligible n x → k.2 < x.2) ∧
      (∀ x ∈ after, Eligible n x → k.2 ≤ x.2) := by
  induction keys with
  | nil =>
    obtain ⟨k, hk, _⟩ := hex
    cases hk
  | cons x l ih =>
    by_cases hl : ∃ k ∈ l, Eligible n k
    · obtain ⟨before, k, after, hsplit, hk, hb, ha⟩ := ih hl
      by_cases hx : Eligible n x ∧ x.2 ≤ k.2
      · refine ⟨[], x, l, rfl, hx.1, by simp, ?_⟩
        intro y hy he
        rw [hsplit] at hy
        rcases List.mem_append.mp hy with h | h
        · have := hb y h he
          omega
        · rcases List.mem_cons.mp h with h | h
          · rw [h]; exact hx.2
          · have := ha y h he
            omega
      · refine ⟨x :: before, k, after, by rw [hsplit]; rfl, hk, ?_, ha⟩
        intro y hy he
        rcases List.mem_cons.mp hy with h | h
        · rw [h] at he
          rw [h]
          by_contra hc
          exact hx ⟨he, by omega⟩
        · exact hb y h he
    · obtain ⟨k, hk, he⟩ := hex
      rcases List.mem_cons.mp hk with h | h
      · refine ⟨[], x, l, rfl, by rw [← h]; exact he, by simp, ?_⟩
        intro y hy hey
        exact absurd ⟨y, hy, hey⟩ hl
      · exact absurd ⟨k, h, he⟩ hl


/-! # The claims -/

/-- Claim C1. For a phase name that has no snapshot in any map of the monitor,
`end_phase` returns normally, every numeric field of the returned `PerfStats` is
`0`, no per-core entry is different from `0`, and the monitor is returned
unchanged. -/
theorem C1_end_phase_never_started (env : Env) (m : PerformanceMonitor) (phase_name : String)
    (h : NeverStarted m phase_name) :
    ∃ stats ev, end_phase env m phase_name = .ok (stats, m, ev) ∧
      stats.wall_time_ms = 0 ∧ stats.user_time_sec = 0 ∧ stats.system_time_sec = 0 ∧
      stats.cpu_time_sec = 0 ∧ stats.process_cpu_time_sec = 0 ∧ stats.io_wait_time_ms = 0 ∧
      stats.io_bytes_read = 0 ∧ stats.io_bytes_written = 0 ∧
      (∀ x ∈ stats.core_user_times, x = 0) ∧ (∀ x ∈ stats.core_system_times, x = 0) ∧
      (∀ x ∈ stats.core_cpu_times, x = 0) := by
  refine ⟨_, _, end_phase_never_started env m phase_name h, ?_⟩
  simp [PerfStats.init]

/-- Witness of C1: the fresh monitor `mon0` and the phase `"A"`. -/
theorem C1_end_phase_never_started_witness :
    NeverStarted mon0 "A" ∧
    ∃ stats ev, end_phase envEndLost mon0 "A" = .ok (stats, mon0, ev) ∧
      stats.wall_time_ms = 0 ∧ stats.user_time_sec = 0 ∧ stats.system_time_sec = 0 ∧
      stats.cpu_time_sec = 0 ∧ stats.process_cpu_time_sec = 0 ∧ stats.io_wait_time_ms = 0 ∧
      stats.io_bytes_read = 0 ∧ stats.io_bytes_written = 0 ∧
      (∀ x ∈ stats.core_user_times, x = 0) ∧ (∀ x ∈ stats.core_system_times, x = 0) ∧
      (∀ x ∈ stats.core_cpu_times, x = 0) :=
  ⟨⟨rfl, rfl, rfl, rfl, rfl, rfl, rfl⟩,
    C1_end_phase_never_started envEndLost mon0 "A" ⟨rfl, rfl, rfl, rfl, rfl, rfl, rfl⟩⟩

/-- Counterexample to C2 as stated: `end_phase("A")` on the fresh monitor `mon0`
(one monitored core, phase never started) returns a `PerfStats` whose
`core_user_times` and `core_system_times` are empty, not of length one. -/
theorem C2_counterexample :
    ∃ stats m ev, end_phase envEndLost mon0 "A" = .ok (stats, m, ev) ∧
      mon0.monitored_cores.length = 1 ∧
      stats.core_user_times.length = 0 ∧ stats.core_system_times.length = 0 ∧
      stats.core_user_times.length ≠ mon0.monitored_cores.length := by
  refine ⟨_, _, _, end_phase_never_started envEndLost mon0 "A"
    ⟨rfl, rfl, rfl, rfl, rfl, rfl, rfl⟩, rfl, rfl, rfl, ?_⟩
  decide

/-- Claim C2, amended. For a started phase the three per-core vectors of the
returned `PerfStats` have the length of `monitored_cores`, and entry `i` of
`core_user_times` and `core_system_times` is computed from the `i`-th configured
core: from its line of the per-CPU table, its stored tick pair and its counter
descriptor. For a phase that was never started only `core_cpu_times` has that
length (all zero); `core_user_times` and `core_system_times` are empty. -/
theorem C2_per_core_vector_lengths (env : Env) (m : PerformanceMonitor) (phase_name : String) :
    (∀ (start : Int) (ru : rusage) (io0 io1 : IOStats) (ticks : List (ℚ × ℚ))
        (fds : CoreEventFds),
      StartedWith m phase_name start ru io0 ticks fds →
      get_io_stats env.proc_self_io = .ok io1 →
      io_total io0 io1 < U64 →
      ∃ stats m1 ev, end_phase env m phase_name = .ok (stats, m1, ev) ∧
        stats.core_user_times.length = m.monitored_cores.length ∧
        stats.core_system_times.length = m.monitored_cores.length ∧
        stats.core_cpu_times.length = m.monitored_cores.length ∧
        ∀ (i : Nat) (c : Int) (b : ℚ × ℚ) (ufd sfd : Int),
          m.monitored_cores[i]? = some c → ticks[i]? = some b →
          fds.user_time_fds[i]? = some ufd → fds.system_time_fds[i]? = some sfd →
          stats.core_user_times[i]? = some (counter_seconds env ufd
            (((get_core_cpu_time (env.junk i) (env.proc_stat i) c).1 - b.1) / 100)) ∧
          stats.core_system_times[i]? = some (counter_seconds env sfd
            (((get_core_cpu_time (env.junk i) (env.proc_stat i) c).2 - b.2) / 100))) ∧
    (NeverStarted m phase_name →
      ∃ stats ev, end_phase env m phase_name = .ok (stats, m, ev) ∧
        stats.core_user_times = [] ∧ stats.core_system_times = [] ∧
        stats.core_cpu_times = List.replicate m.monitored_cores.length 0) := by
  constructor
  · intro start ru io0 io1 ticks fds hs hio hub
    obtain ⟨l1, l2, l3⟩ := end_stats_lengths env m phase_name start ru io0 io1 ticks fds hs
    refine ⟨_, _, _, end_phase_started env m phase_name start ru io0 io1 ticks fds hs hio hub,
      l1, l2, l3, ?_⟩
    intro i c b ufd sfd hc hb hu hsys
    exact ⟨end_stats_core_user env m phase_name start ru io0 io1 ticks fds i c b ufd hc hb hu,
      end_stats_core_system env m phase_name start ru io0 io1 ticks fds i c b sfd hc hb hsys⟩
  · intro h
    exact ⟨_, _, end_phase_never_started env m phase_name h, rfl, rfl, rfl⟩

/-- Witness of C2 (amended): the started monitor `monB` at `envEndGrown`, and the
fresh monitor `mon0`. -/
theorem C2_per_core_vector_lengths_witness :
    (∃ stats m1 ev, end_phase envEndGrown monB "A" = .ok (stats, m1, ev) ∧
      stats.core_user_times.length = 1 ∧ stats.core_system_times.length = 1 ∧
      stats.core_cpu_times.length = 1) ∧
    (∃ stats ev, end_phase envEndGrown mon0 "A" = .ok (stats, mon0, ev) ∧
      stats.core_user_times = [] ∧ stats.core_system_times = [] ∧
      stats.core_cpu_times = [0]) := by
  constructor
  · obtain ⟨stats, m1, ev, h, l1, l2, l3, _⟩ :=
      (C2_per_core_vector_lengths envEndGrown monB "A").1 0 ⟨⟨0, 0⟩, ⟨0, 0⟩⟩ ⟨4096, 0, 0, 0⟩
        ⟨4196, 20, 0, 0⟩ [(5, 3)] ⟨[3], [4], [-1], [-1], [-1], [-1]⟩
        ⟨rfl, rfl, rfl, rfl, rfl, rfl, rfl, rfl, rfl, rfl, rfl, rfl⟩ rfl (by decide)
    exact ⟨stats, m1, ev, h, l1, l2, l3⟩
  · exact (C2_per_core_vector_lengths envEndGrown mon0 "A").2 ⟨rfl, rfl, rfl, rfl, rfl, rfl, rfl⟩

/-- Claim C3, the code at the failing input. On the usual content of
`/proc/self/io`, which has a line `write_bytes: 8192` followed by a line
`cancelled_write_bytes: 512`, `get_io_stats` returns `bytes_written = 512`: the
test `line.find("write_bytes:") != npos` also holds on the line with the key
`cancelled_write_bytes`, whose value replaces that of the `write_bytes` line. -/
theorem C3_cancelled_write_bytes_replaces_write_bytes :
    "write_bytes: 8192".toList ∈ getlines procSelfIo ∧
    "cancelled_write_bytes: 512".toList ∈ getlines procSelfIo ∧
    get_io_stats (some procSelfIo) = .ok ⟨4096, 512, 30, 20⟩ :=
  ⟨by decide, by decide, rfl⟩

/-- Claim C4, the code at the failing input. The table `procStatNoCpu1` has no line
whose label is `cpu1`, yet `get_core_cpu_time(1)` returns `(11 + 3, 5 + 1 + 2)`,
the sums of the line labelled `cpu10`, and not `(0, 0)`: the test
`line.find("cpu1") == 0` holds for every line that begins with these
characters. -/
theorem C4_line_of_core_10_taken_for_core_1 :
    (∀ line ∈ getlines procStatNoCpu1, (extract_word ⟨line, false⟩).1 ≠ cpu_label_of 1) ∧
    "cpu10 11 3 5 120 3 1 2 0 0 0".toList ∈ getlines procStatNoCpu1 ∧
    ∀ junk : StatFields, get_core_cpu_time junk (some procStatNoCpu1) 1 = (14, 8) := by
  refine ⟨by decide, by decide, fun junk => ?_⟩
  have h : get_core_cpu_time junk (some procStatNoCpu1) 1 =
      (((to_double 14 : Nat) : ℚ), ((to_double 8 : Nat) : ℚ)) := rfl
  have h14 : to_double 14 = 14 := by decide
  have h8 : to_double 8 = 8 := by decide
  rw [h, h14, h8]
  rfl

/-- Claim C5. When the line labelled `cpuN` followed by eight unsigned integers
that each fit an `unsigned long` is the first line of the table that begins with
the characters `cpuN`, as it is in the ascending order in which the kernel writes
the table, `get_core_cpu_time(N)` returns the pair
`(user + nice, system + irq + softirq)` of that line, whatever lines stand after
it and before it: each sum is taken in `unsigned long long` and stored in a
`double`, and it is the exact sum when it is below `2 ^ 53`. -/
theorem C5_first_line_with_label (junk : StatFields) (text : List Char) (core_id : Int)
    (pre post : List (List Char)) (rest : List Char)
    (f1 f2 f3 f4 f5 f6 f7 f8 : List Char × List Char)
    (hl : getlines text =
      pre ++ stat_line (cpu_label_of core_id) [f1, f2, f3, f4, f5, f6, f7, f8] rest :: post)
    (hpre : ∀ l ∈ pre, ¬ cpu_label_of core_id <+: l)
    (h1 : IsField f1.1 f1.2) (h2 : IsField f2.1 f2.2) (h3 : IsField f3.1 f3.2)
    (h4 : IsField f4.1 f4.2) (h5 : IsField f5.1 f5.2) (h6 : IsField f6.1 f6.2)
    (h7 : IsField f7.1 f7.2) (h8 : IsField f8.1 f8.2)
    (hrest : ∀ c ∈ rest.head?, c.isDigit = false) :
    get_core_cpu_time junk (some text) core_id =
      (((to_double ((decVal f1.2 + decVal f2.2) % U64) : Nat) : ℚ),
        ((to_double ((decVal f3.2 + decVal f6.2 + decVal f7.2) % U64) : Nat) : ℚ)) ∧
    (decVal f1.2 + decVal f2.2 < 2 ^ 53 → decVal f3.2 + decVal f6.2 + decVal f7.2 < 2 ^ 53 →
      get_core_cpu_time junk (some text) core_id =
        ((decVal f1.2 : ℚ) + (decVal f2.2 : ℚ),
          (decVal f3.2 : ℚ) + (decVal f6.2 : ℚ) + (decVal f7.2 : ℚ))) := by
  have hp := parse_stat_line_fields junk (cpu_label_of core_id) rest f1 f2 f3 f4 f5 f6 f7 f8
    (cpu_label_of_ne_nil core_id) (cpu_label_of_no_space core_id) h1 h2 h3 h4 h5 h6 h7 h8 hrest
  have hg := get_core_cpu_time_first junk text core_id pre post _ hl hpre
    (by unfold stat_line; exact List.prefix_append _ _)
  rw [hp] at hg
  refine ⟨hg, ?_⟩
  intro ha hb
  have h53 : 2 ^ 53 < U64 := by unfold U64; norm_num
  rw [hg, Nat.mod_eq_of_lt (lt_trans ha h53), Nat.mod_eq_of_lt (lt_trans hb h53),
    to_double_of_lt _ ha, to_double_of_lt _ hb]
  push_cast
  rfl

/-- Witness of C5: core 1 in `procStatKernel`, a table of eleven cores in the order
of the kernel, where the line of core 10 also begins with `cpu1` and stands after
the line of core 1. -/
theorem C5_first_line_with_label_witness :
    "cpu10 1 1 1 1 1 1 1 1".toList ∈ getlines procStatKernel ∧
    get_core_cpu_time junk0 (some procStatKernel) 1 = ((2 : ℚ) + 2, (2 : ℚ) + 2 + 2) := by
  have hf : IsField fieldTwo.1 fieldTwo.2 := ⟨by decide, by decide, by decide, by decide, by decide⟩
  have h := (C5_first_line_with_label junk0 procStatKernel 1
    ["cpu  3 3 3 3 3 3 3 3".toList, "cpu0 4 4 4 4 4 4 4 4".toList]
    ["cpu2 1 1 1 1 1 1 1 1".toList, "cpu3 1 1 1 1 1 1 1 1".toList,
      "cpu4 1 1 1 1 1 1 1 1".toList, "cpu5 1 1 1 1 1 1 1 1".toList,
      "cpu6 1 1 1 1 1 1 1 1".toList, "cpu7 1 1 1 1 1 1 1 1".toList,
      "cpu8 1 1 1 1 1 1 1 1".toList, "cpu9 1 1 1 1 1 1 1 1".toList,
      "cpu10 1 1 1 1 1 1 1 1".toList, "intr 5".toList] []
    fieldTwo fieldTwo fieldTwo fieldTwo fieldTwo fieldTwo fieldTwo fieldTwo
    (by decide) (by decide) hf hf hf hf hf hf hf hf (by decide)).2 (by decide) (by decide)
  have h2 : decVal fieldTwo.2 = 2 := by decide
  rw [h2] at h
  exact ⟨by decide, by exact_mod_cast h⟩

/-- Counterexample to C6 as stated: phase `"A"` was started with 4096 bytes read; at
the end `/proc/self/io` cannot be opened, so the end value reads as 0. The reported
`io_bytes_read` is `2 ^ 64 - 4096`, not `max(0, 0 - 4096) = 0`. -/
theorem C6_counterexample :
    monA.phase_start_io "A" = some ⟨4096, 0, 0, 0⟩ ∧
    get_io_stats envEndLost.proc_self_io = .ok ⟨0, 0, 0, 0⟩ ∧
    ∃ stats m ev, end_phase envEndLost monA "A" = .ok (stats, m, ev) ∧
      stats.io_bytes_read = 18446744073709547520 ∧
      stats.io_bytes_read ≠ max 0 ((0 : ℚ) - 4096) := by
  refine ⟨rfl, rfl, _, _, _, end_phase_started envEndLost monA "A" 0 ⟨⟨0, 0⟩, ⟨0, 0⟩⟩
    ⟨4096, 0, 0, 0⟩ ⟨0, 0, 0, 0⟩ [(5, 3)] ⟨[-1], [-1], [-1], [-1], [-1], [-1]⟩ monA_started rfl
    (by decide), ?_, ?_⟩
  · rw [end_stats_monA_envEndLost]
  · rw [end_stats_monA_envEndLost]
    norm_num

/-- Claim C6, amended. For a started phase, `io_bytes_read` and `io_bytes_written`
are the differences of the end and start counters in unsigned 64-bit arithmetic,
stored in a `double`. They are never negative; when the end value is at least the
start value they are `end - start` rounded to a `double`, which is `end - start`
itself below `2 ^ 53`; when the end value is smaller, the difference wraps to
`2 ^ 64 - (start - end)`, rounded to a `double`: it is positive and not clamped to
`0`. -/
theorem C6_io_deltas_wrap (env : Env) (m : PerformanceMonitor) (phase_name : String)
    (start : Int) (ru : rusage) (io0 io1 : IOStats) (ticks : List (ℚ × ℚ)) (fds : CoreEventFds)
    (hs : StartedWith m phase_name start ru io0 ticks fds)
    (hio : get_io_stats env.proc_self_io = .ok io1)
    (hub : io_total io0 io1 < U64)
    (h0 : io0.Fits) :
    ∃ stats m1 ev, end_phase env m phase_name = .ok (stats, m1, ev) ∧
      stats.io_bytes_read =
        ((to_double (u64_sub io1.bytes_read io0.bytes_read) : Nat) : ℚ) ∧
      stats.io_bytes_written =
        ((to_double (u64_sub io1.bytes_written io0.bytes_written) : Nat) : ℚ) ∧
      0 ≤ stats.io_bytes_read ∧ 0 ≤ stats.io_bytes_written ∧
      (io0.bytes_read ≤ io1.bytes_read →
        stats.io_bytes_read = ((to_double (io1.bytes_read - io0.bytes_read) : Nat) : ℚ) ∧
        (io1.bytes_read - io0.bytes_read < 2 ^ 53 →
          stats.io_bytes_read = (io1.bytes_read : ℚ) - (io0.bytes_read : ℚ))) ∧
      (io1.bytes_read < io0.bytes_read →
        stats.io_bytes_read =
          ((to_double (U64 - (io0.bytes_read - io1.bytes_read)) : Nat) : ℚ) ∧
        0 < stats.io_bytes_read) ∧
      (io0.bytes_written ≤ io1.bytes_written →
        stats.io_bytes_written =
          ((to_double (io1.bytes_written - io0.bytes_written) : Nat) : ℚ) ∧
        (io1.bytes_written - io0.bytes_written < 2 ^ 53 →
          stats.io_bytes_written = (io1.bytes_written : ℚ) - (io0.bytes_written : ℚ))) ∧
      (io1.bytes_written < io0.bytes_written →
        stats.io_bytes_written =
          ((to_double (U64 - (io0.bytes_written - io1.bytes_written)) : Nat) : ℚ) ∧
        0 < stats.io_bytes_written) := by
  obtain ⟨f1, f2, _, _⟩ := get_io_stats_fits _ _ hio
  obtain ⟨g1, g2, _, _⟩ := h0
  have hU : U64 = 18446744073709551616 := by unfold U64; norm_num
  refine ⟨_, _, _, end_phase_started env m phase_name start ru io0 io1 ticks fds hs hio hub,
    rfl, rfl, ?_, ?_, ?_, ?_, ?_, ?_⟩
  · simp only [end_stats]; exact Nat.cast_nonneg _
  · simp only [end_stats]; exact Nat.cast_nonneg _
  · intro h
    simp only [end_stats, io_delta]
    rw [u64_sub_of_le _ _ h f1]
    refine ⟨rfl, fun hlt => ?_⟩
    rw [to_double_of_lt _ hlt, Nat.cast_sub h]
  · intro h
    simp only [end_stats, io_delta]
    rw [u64_sub_of_lt _ _ h g1]
    exact ⟨rfl, Nat.cast_pos.mpr (to_double_pos _ (by omega))⟩
  · intro h
    simp only [end_stats, io_delta]
    rw [u64_sub_of_le _ _ h f2]
    refine ⟨rfl, fun hlt => ?_⟩
    rw [to_double_of_lt _ hlt, Nat.cast_sub h]
  · intro h
    simp only [end_stats, io_delta]
    rw [u64_sub_of_lt _ _ h g2]
    exact ⟨rfl, Nat.cast_pos.mpr (to_double_pos _ (by omega))⟩

/-- Witness of C6 (amended): `monB` at `envEndGrown`, where 4196 - 4096 bytes were read
and 20 - 0 written. -/
theorem C6_io_deltas_wrap_witness :
    ∃ stats m1 ev, end_phase envEndGrown monB "A" = .ok (stats, m1, ev) ∧
      stats.io_bytes_read = 100 ∧ stats.io_bytes_written = 20 := by
  obtain ⟨stats, m1, ev, h, _, _, _, _, hr, _, hw, _⟩ :=
    C6_io_deltas_wrap envEndGrown monB "A" 0 ⟨⟨0, 0⟩, ⟨0, 0⟩⟩ ⟨4096, 0, 0, 0⟩ ⟨4196, 20, 0, 0⟩
      [(5, 3)] ⟨[3], [4], [-1], [-1], [-1], [-1]⟩ monB_started rfl (by decide)
      (by unfold IOStats.Fits; decide)
  refine ⟨stats, m1, ev, h, ?_, ?_⟩
  · rw [(hr (by decide)).2 (by decide)]; norm_num
  · rw [(hw (by decide)).2 (by decide)]; norm_num

/-- Counterexample to C7 as stated: phase `"A"` was started with the tick pair
`(5, 3)` for core 0 and without any counter (all descriptors `-1`); at the end the
table has no line for core 0, so the end read is `(0, 0)`. The reported
`core_user_times[0]` is `-1/20` and `core_system_times[0]` is `-3/100`. -/
theorem C7_counterexample :
    monA.phase_start_core_times "A" = some [(5, 3)] ∧
    monA.phase_core_fds "A" = some ⟨[-1], [-1], [-1], [-1], [-1], [-1]⟩ ∧
    get_core_cpu_time (envEndLost.junk 0) (envEndLost.proc_stat 0) 0 = (0, 0) ∧
    ∃ stats m ev, end_phase envEndLost monA "A" = .ok (stats, m, ev) ∧
      stats.core_user_times = [-1 / 20] ∧ stats.core_system_times = [-3 / 100] ∧
      ∃ x ∈ stats.core_user_times, x < 0 := by
  refine ⟨rfl, rfl, rfl, _, _, _, end_phase_started envEndLost monA "A" 0 ⟨⟨0, 0⟩, ⟨0, 0⟩⟩
    ⟨4096, 0, 0, 0⟩ ⟨0, 0, 0, 0⟩ [(5, 3)] ⟨[-1], [-1], [-1], [-1], [-1], [-1]⟩ monA_started rfl
    (by decide), ?_, ?_, ?_⟩
  · rw [end_stats_monA_envEndLost]
  · rw [end_stats_monA_envEndLost]
  · rw [end_stats_monA_envEndLost]
    exact ⟨-1 / 20, by simp, by norm_num⟩

/-- Claim C7, amended. For a started phase the CPU values of `end_phase` are plain
differences: `user_time_sec` and `system_time_sec` are the `rusage` values at the
end minus those at the start, and an entry of `core_user_times` or
`core_system_times` that no counter overrides is `(end - start) / 100` of the tick
counts. Each of these is negative exactly when the end value is smaller than the
start value, and non-negative otherwise. -/
theorem C7_cpu_deltas_signed (env : Env) (m : PerformanceMonitor) (phase_name : String)
    (start : Int) (ru : rusage) (io0 io1 : IOStats) (ticks : List (ℚ × ℚ)) (fds : CoreEventFds)
    (hs : StartedWith m phase_name start ru io0 ticks fds)
    (hio : get_io_stats env.proc_self_io = .ok io1)
    (hub : io_total io0 io1 < U64) :
    ∃ stats m1 ev, end_phase env m phase_name = .ok (stats, m1, ev) ∧
      stats.user_time_sec = toSeconds env.self_rusage.ru_utime - toSeconds ru.ru_utime ∧
      stats.system_time_sec = toSeconds env.self_rusage.ru_stime - toSeconds ru.ru_stime ∧
      (stats.user_time_sec < 0 ↔ toSeconds env.self_rusage.ru_utime < toSeconds ru.ru_utime) ∧
      (stats.system_time_sec < 0 ↔
        toSeconds env.self_rusage.ru_stime < toSeconds ru.ru_stime) ∧
      ∀ (i : Nat) (c : Int) (b : ℚ × ℚ) (ufd sfd : Int),
        m.monitored_cores[i]? = some c → ticks[i]? = some b →
        fds.user_time_fds[i]? = some ufd → fds.system_time_fds[i]? = some sfd →
        (¬ (ufd ≠ -1 ∧ (env.read ufd 24).1 = 24) →
          stats.core_user_times[i]? =
            some (((get_core_cpu_time (env.junk i) (env.proc_stat i) c).1 - b.1) / 100) ∧
          (((get_core_cpu_time (env.junk i) (env.proc_stat i) c).1 - b.1) / 100 < 0 ↔
            (get_core_cpu_time (env.junk i) (env.proc_stat i) c).1 < b.1)) ∧
        (¬ (sfd ≠ -1 ∧ (env.read sfd 24).1 = 24) →
          stats.core_system_times[i]? =
            some (((get_core_cpu_time (env.junk i) (env.proc_stat i) c).2 - b.2) / 100) ∧
          (((get_core_cpu_time (env.junk i) (env.proc_stat i) c).2 - b.2) / 100 < 0 ↔
            (get_core_cpu_time (env.junk i) (env.proc_stat i) c).2 < b.2)) := by
  have hdiv : ∀ x y : ℚ, ((x - y) / 100 < 0 ↔ x < y) := by
    intro x y
    constructor
    · intro h
      have h2 : x - y < 0 := by
        by_contra hc
        have : 0 ≤ (x - y) / 100 := div_nonneg (not_lt.mp hc) (by norm_num)
        linarith
      linarith
    · intro h
      exact div_neg_of_neg_of_pos (by linarith) (by norm_num)
  refine ⟨_, _, _, end_phase_started env m phase_name start ru io0 io1 ticks fds hs hio hub,
    rfl, rfl, ?_, ?_, ?_⟩
  · simp only [end_stats]; exact sub_neg
  · simp only [end_stats]; exact sub_neg
  · intro i c b ufd sfd hc hb hu hsy
    constructor
    · intro hno
      rw [end_stats_core_user env m phase_name start ru io0 io1 ticks fds i c b ufd hc hb hu,
        counter_seconds_of_not_ok env ufd _ hno]
      exact ⟨rfl, hdiv _ _⟩
    · intro hno
      rw [end_stats_core_system env m phase_name start ru io0 io1 ticks fds i c b sfd hc hb hsy,
        counter_seconds_of_not_ok env sfd _ hno]
      exact ⟨rfl, hdiv _ _⟩

/-- Witness of C7 (amended): `monB` at `envEndGrown`; the read of the system time
counter (descriptor 4) is short, and the system ticks of core 0 grew from 3 to 4. -/
theorem C7_cpu_deltas_signed_witness :
    ∃ stats m1 ev, end_phase envEndGrown monB "A" = .ok (stats, m1, ev) ∧
      stats.user_time_sec = 0 ∧ stats.core_system_times[0]? = some (1 / 100) := by
  obtain ⟨stats, m1, ev, h, hu, _, _, _, hcore⟩ :=
    C7_cpu_deltas_signed envEndGrown monB "A" 0 ⟨⟨0, 0⟩, ⟨0, 0⟩⟩ ⟨4096, 0, 0, 0⟩ ⟨4196, 20, 0, 0⟩
      [(5, 3)] ⟨[3], [4], [-1], [-1], [-1], [-1]⟩ monB_started rfl (by decide)
  refine ⟨stats, m1, ev, h, ?_, ?_⟩
  · rw [hu]
    simp [envEndGrown, envStart, toSeconds]
  · have h4 := ((hcore 0 0 (5, 3) 3 4 rfl rfl rfl rfl).2 (by decide)).1
    have hg : get_core_cpu_time (envEndGrown.junk 0) (envEndGrown.proc_stat 0) 0 = (7, 4) := rfl
    rw [h4, hg]
    norm_num

/-- Claim C8. When each cumulative counter is at the end at least what it was at the
start (process I/O bytes; user and system ticks of every monitored core), the
values that `end_phase` computes are non-negative: `io_bytes_read` and
`io_bytes_written` are the `double` that holds `end - start`, which is
`end - start` itself for every difference below `2 ^ 53`; every entry of
`core_user_times` and `core_system_times` is at least `0`, and an entry that no
counter overrides is the tick delta divided by 100. -/
theorem C8_monotone_counters_nonneg (env : Env) (m : PerformanceMonitor)
    (phase_name : String) (start : Int) (ru : rusage) (io0 io1 : IOStats)
    (ticks : List (ℚ × ℚ)) (fds : CoreEventFds)
    (hs : StartedWith m phase_name start ru io0 ticks fds)
    (hio : get_io_stats env.proc_self_io = .ok io1)
    (hr : io0.bytes_read ≤ io1.bytes_read) (hw : io0.bytes_written ≤ io1.bytes_written)
    (hub : io_total io0 io1 < U64)
    (hticks : ∀ (i : Nat) (c : Int) (b : ℚ × ℚ),
      m.monitored_cores[i]? = some c → ticks[i]? = some b →
      b.1 ≤ (get_core_cpu_time (env.junk i) (env.proc_stat i) c).1 ∧
      b.2 ≤ (get_core_cpu_time (env.junk i) (env.proc_stat i) c).2) :
    ∃ stats m1 ev, end_phase env m phase_name = .ok (stats, m1, ev) ∧
      stats.io_bytes_read = ((to_double (io1.bytes_read - io0.bytes_read) : Nat) : ℚ) ∧
      stats.io_bytes_written =
        ((to_double (io1.bytes_written - io0.bytes_written) : Nat) : ℚ) ∧
      (io1.bytes_read - io0.bytes_read < 2 ^ 53 →
        stats.io_bytes_read = (io1.bytes_read : ℚ) - (io0.bytes_read : ℚ)) ∧
      (io1.bytes_written - io0.bytes_written < 2 ^ 53 →
        stats.io_bytes_written = (io1.bytes_written : ℚ) - (io0.bytes_written : ℚ)) ∧
      0 ≤ stats.io_bytes_read ∧ 0 ≤ stats.io_bytes_written ∧
      (∀ x ∈ stats.core_user_times, 0 ≤ x) ∧ (∀ x ∈ stats.core_system_times, 0 ≤ x) ∧
      ∀ (i : Nat) (c : Int) (b : ℚ × ℚ) (ufd sfd : Int),
        m.monitored_cores[i]? = some c → ticks[i]? = some b →
        fds.user_time_fds[i]? = some ufd → fds.system_time_fds[i]? = some sfd →
        (¬ (ufd ≠ -1 ∧ (env.read ufd 24).1 = 24) →
          stats.core_user_times[i]? =
            some (((get_core_cpu_time (env.junk i) (env.proc_stat i) c).1 - b.1) / 100)) ∧
        (¬ (sfd ≠ -1 ∧ (env.read sfd 24).1 = 24) →
          stats.core_system_times[i]? =
            some (((get_core_cpu_time (env.junk i) (env.proc_stat i) c).2 - b.2) / 100)) := by
  obtain ⟨f1, f2, _, _⟩ := get_io_stats_fits _ _ hio
  have e1 := u64_sub_of_le _ _ hr f1
  have e2 := u64_sub_of_le _ _ hw f2
  have hnn : ∀ x y : ℚ, y ≤ x → 0 ≤ (x - y) / 100 := by
    intro x y h
    exact div_nonneg (by linarith) (by norm_num)
  refine ⟨_, _, _, end_phase_started env m phase_name start ru io0 io1 ticks fds hs hio hub,
    ?_, ?_, ?_, ?_, ?_, ?_, ?_, ?_, ?_⟩
  · simp only [end_stats, io_delta]; rw [e1]
  · simp only [end_stats, io_delta]; rw [e2]
  · intro hlt
    simp only [end_stats, io_delta]
    rw [e1, to_double_of_lt _ hlt, Nat.cast_sub hr]
  · intro hlt
    simp only [end_stats, io_delta]
    rw [e2, to_double_of_lt _ hlt, Nat.cast_sub hw]
  · simp only [end_stats]; exact Nat.cast_nonneg _
  · simp only [end_stats]; exact Nat.cast_nonneg _
  · simp only [end_stats, tick_user_times]
    apply zipWith_forall
    intro i fd t _ ht
    apply counter_seconds_nonneg
    exact tick_times_nonneg env m.monitored_cores ticks
      Prod.fst (fun j c b hc hb => (hticks j c b hc hb).1)
      (fun e b => (e.1 - b.1) / 100)
      (fun c b h => hnn _ _ h) t (List.mem_iff_getElem?.mpr ⟨i, ht⟩)
  · simp only [end_stats, tick_system_times]
    apply zipWith_forall
    intro i fd t _ ht
    apply counter_seconds_nonneg
    exact tick_times_nonneg env m.monitored_cores ticks
      Prod.snd (fun j c b hc hb => (hticks j c b hc hb).2)
      (fun e b => (e.2 - b.2) / 100)
      (fun c b h => hnn _ _ h) t (List.mem_iff_getElem?.mpr ⟨i, ht⟩)
  · intro i c b ufd sfd hc hb hu hsy
    constructor
    · intro hno
      rw [end_stats_core_user env m phase_name start ru io0 io1 ticks fds i c b ufd hc hb hu,
        counter_seconds_of_not_ok env ufd _ hno]
    · intro hno
      rw [end_stats_core_system env m phase_name start ru io0 io1 ticks fds i c b sfd hc hb hsy,
        counter_seconds_of_not_ok env sfd _ hno]

/-- Witness of C8: `monB` at `envEndGrown`, where every counter grew. -/
theorem C8_monotone_counters_nonneg_witness :
    ∃ stats m1 ev, end_phase envEndGrown monB "A" = .ok (stats, m1, ev) ∧
      stats.io_bytes_read = 100 ∧ stats.io_bytes_written = 20 ∧
      (∀ x ∈ stats.core_user_times, 0 ≤ x) ∧ (∀ x ∈ stats.core_system_times, 0 ≤ x) := by
  have hg : get_core_cpu_time (envEndGrown.junk 0) (envEndGrown.proc_stat 0) 0 = (7, 4) := rfl
  obtain ⟨stats, m1, ev, h, _, _, hr, hw, _, _, hu, hsy, _⟩ :=
    C8_monotone_counters_nonneg envEndGrown monB "A" 0 ⟨⟨0, 0⟩, ⟨0, 0⟩⟩ ⟨4096, 0, 0, 0⟩
      ⟨4196, 20, 0, 0⟩ [(5, 3)] ⟨[3], [4], [-1], [-1], [-1], [-1]⟩ monB_started rfl
      (by decide) (by decide) (by decide)
      (by
        intro i c b hc hb
        cases i with
        | zero =>
          have hc0 : c = 0 := by
            have : monB.monitored_cores[0]? = some 0 := rfl
            rw [this] at hc
            exact (Option.some.inj hc).symm
          have hb0 : b = (5, 3) := by
            have : ([(5, 3)] : List (ℚ × ℚ))[0]? = some (5, 3) := rfl
            rw [this] at hb
            exact (Option.some.inj hb).symm
          subst hc0 hb0
          rw [hg]
          norm_num
        | succ j =>
          have : monB.monitored_cores[j + 1]? = none := rfl
          rw [this] at hc
          cases hc)
  refine ⟨stats, m1, ev, h, ?_, ?_, hu, hsy⟩
  · rw [hr (by decide)]; norm_num
  · rw [hw (by decide)]; norm_num

/-- Counterexample to C9 as stated: phase `"A"` without any counter ends half a
millisecond after its start, so `wall_time_ms` is `0`; one mebibyte was read in
between. The estimate is `10` ms, which exceeds 90% of `0` ms. -/
theorem C9_counterexample :
    monA.phase_core_fds "A" = some ⟨[-1], [-1], [-1], [-1], [-1], [-1]⟩ ∧
    ∃ stats m ev, end_phase envEndFast monA "A" = .ok (stats, m, ev) ∧
      stats.wall_time_ms = 0 ∧ stats.io_bytes_read = 1048576 ∧ stats.io_bytes_written = 0 ∧
      stats.io_wait_time_ms = 10 ∧
      ¬ stats.io_wait_time_ms ≤ stats.wall_time_ms * (9 / 10) := by
  refine ⟨rfl, _, _, _, end_phase_started envEndFast monA "A" 0 ⟨⟨0, 0⟩, ⟨0, 0⟩⟩
    ⟨4096, 0, 0, 0⟩ ⟨1052672, 0, 0, 0⟩ [(5, 3)] ⟨[-1], [-1], [-1], [-1], [-1], [-1]⟩ monA_started
    rfl (by decide), ?_, ?_, ?_, ?_, ?_⟩
  · rw [end_stats_monA_envEndFast]
  · rw [end_stats_monA_envEndFast]
  · rw [end_stats_monA_envEndFast]
  · rw [end_stats_monA_envEndFast]
  · rw [end_stats_monA_envEndFast]
    norm_num

/-- Claim C9, amended. For a started phase, `io_wait_time_ms` is a volume estimate
`vol` plus the addends of the I/O wait counters. When `wall_time_ms` is positive,
`vol` never exceeds 90% of it, whatever amount of I/O was transferred. When
`wall_time_ms` is `0` (a phase shorter than one millisecond) no limit is applied:
`vol` is the transferred bytes at 100 MiB/s, in milliseconds, where the transferred
bytes are the sum of the two reported deltas as a `double`, their exact sum below
`2 ^ 53`. -/
theorem C9_io_wait_volume_cap (env : Env) (m : PerformanceMonitor) (phase_name : String)
    (start : Int) (ru : rusage) (io0 io1 : IOStats) (ticks : List (ℚ × ℚ)) (fds : CoreEventFds)
    (hs : StartedWith m phase_name start ru io0 ticks fds)
    (hio : get_io_stats env.proc_self_io = .ok io1)
    (hub : io_total io0 io1 < U64) :
    ∃ stats m1 ev vol, end_phase env m phase_name = .ok (stats, m1, ev) ∧
      stats.io_wait_time_ms = vol + (fds.io_wait_fds.map (migration_ms env)).sum ∧
      (0 < stats.wall_time_ms → vol ≤ stats.wall_time_ms * (9 / 10)) ∧
      (stats.wall_time_ms ≤ 0 →
        vol = ((io_total io0 io1 : Nat) : ℚ) / (100 * 1024 * 1024) * 1000 ∧
        (u64_sub io1.bytes_read io0.bytes_read +
            u64_sub io1.bytes_written io0.bytes_written < 2 ^ 53 →
          vol = (stats.io_bytes_read + stats.io_bytes_written) / (100 * 1024 * 1024) * 1000)) := by
  refine ⟨_, _, _, _, end_phase_started env m phase_name start ru io0 io1 ticks fds hs hio hub,
    rfl, ?_, ?_⟩
  · intro h
    exact io_wait_volume_le _ _ h
  · intro h
    simp only [end_stats] at h ⊢
    rw [io_wait_volume_uncapped _ _ h]
    refine ⟨rfl, fun hlt => ?_⟩
    obtain ⟨h1, h2, h3⟩ := io_total_of_lt io0 io1 hlt
    rw [h1, h2, h3]
    push_cast
    rfl

/-- Witness of C9 (amended): `monB` at `envEndGrown`, two milliseconds of wall
time. -/
theorem C9_io_wait_volume_cap_witness :
    ∃ stats m1 ev vol, end_phase envEndGrown monB "A" = .ok (stats, m1, ev) ∧
      stats.wall_time_ms = 2 ∧
      stats.io_wait_time_ms = vol + 0 ∧ vol ≤ 2 * (9 / 10) := by
  obtain ⟨stats, m1, ev, vol, h, hv, hcap, _⟩ :=
    C9_io_wait_volume_cap envEndGrown monB "A" 0 ⟨⟨0, 0⟩, ⟨0, 0⟩⟩ ⟨4096, 0, 0, 0⟩
      ⟨4196, 20, 0, 0⟩ [(5, 3)] ⟨[3], [4], [-1], [-1], [-1], [-1]⟩ monB_started rfl (by decide)
  have hstats := end_phase_started envEndGrown monB "A" 0 ⟨⟨0, 0⟩, ⟨0, 0⟩⟩ ⟨4096, 0, 0, 0⟩
    ⟨4196, 20, 0, 0⟩ [(5, 3)] ⟨[3], [4], [-1], [-1], [-1], [-1]⟩ monB_started rfl (by decide)
  rw [hstats] at h
  simp only [Except.ok.injEq, Prod.mk.injEq] at h
  have hwall : stats.wall_time_ms = 2 := by
    rw [← h.1]
    have hw : Int.tdiv (envEndGrown.now - 0) 1000000 = 2 := by decide
    simp only [end_stats, hw]
    norm_num
  have hm : (List.map (migration_ms envEndGrown) [-1]).sum = 0 := by
    simp [migration_ms, counter_read_ok]
  refine ⟨stats, m1, ev, vol, by rw [hstats, ← h.1, ← h.2.1, ← h.2.2], hwall, ?_, ?_⟩
  · rw [hv, hm]
  · have := hcap (by rw [hwall]; norm_num)
    rw [hwall] at this
    exact this

/-- Claim C10. For a started phase and every monitored core `i`: when the user time
counter of core `i` is open and its read delivers the full 24-byte record,
`core_user_times[i]` is the counter value divided by `10 ^ 9`, whatever the tick
delta was; when the counter is absent (`-1`) or its read is short, the entry is the
tick delta divided by 100. The same holds for the system time counter and
`core_system_times[i]`. -/
theorem C10_counter_overrides_ticks (env : Env) (m : PerformanceMonitor)
    (phase_name : String) (start : Int) (ru : rusage) (io0 io1 : IOStats)
    (ticks : List (ℚ × ℚ)) (fds : CoreEventFds)
    (hs : StartedWith m phase_name start ru io0 ticks fds)
    (hio : get_io_stats env.proc_self_io = .ok io1)
    (hub : io_total io0 io1 < U64) :
    ∃ stats m1 ev, end_phase env m phase_name = .ok (stats, m1, ev) ∧
      ∀ (i : Nat) (c : Int) (b : ℚ × ℚ) (ufd sfd : Int),
        m.monitored_cores[i]? = some c → ticks[i]? = some b →
        fds.user_time_fds[i]? = some ufd → fds.system_time_fds[i]? = some sfd →
        ((ufd ≠ -1 ∧ (env.read ufd 24).1 = 24) →
          stats.core_user_times[i]? = some (((env.read ufd 24).2.value : ℚ) / 1000000000)) ∧
        (¬ (ufd ≠ -1 ∧ (env.read ufd 24).1 = 24) →
          stats.core_user_times[i]? =
            some (((get_core_cpu_time (env.junk i) (env.proc_stat i) c).1 - b.1) / 100)) ∧
        ((sfd ≠ -1 ∧ (env.read sfd 24).1 = 24) →
          stats.core_system_times[i]? = some (((env.read sfd 24).2.value : ℚ) / 1000000000)) ∧
        (¬ (sfd ≠ -1 ∧ (env.read sfd 24).1 = 24) →
          stats.core_system_times[i]? =
            some (((get_core_cpu_time (env.junk i) (env.proc_stat i) c).2 - b.2) / 100)) := by
  refine ⟨_, _, _, end_phase_started env m phase_name start ru io0 io1 ticks fds hs hio hub, ?_⟩
  intro i c b ufd sfd hc hb hu hsy
  have hU := end_stats_core_user env m phase_name start ru io0 io1 ticks fds i c b ufd hc hb hu
  have hS := end_stats_core_system env m phase_name start ru io0 io1 ticks fds i c b sfd hc hb
    hsy
  refine ⟨?_, ?_, ?_, ?_⟩
  · intro hok
    rw [hU, counter_seconds_of_ok env ufd _ hok]
  · intro hno
    rw [hU, counter_seconds_of_not_ok env ufd _ hno]
  · intro hok
    rw [hS, counter_seconds_of_ok env sfd _ hok]
  · intro hno
    rw [hS, counter_seconds_of_not_ok env sfd _ hno]

/-- Witness of C10: `monB` at `envEndGrown`. The user time counter (descriptor 3)
delivers 1 500 000 000 ns although the user ticks grew by 2 only; the read of the
system time counter (descriptor 4) is short and the system ticks grew by 1. -/
theorem C10_counter_overrides_ticks_witness :
    ∃ stats m1 ev, end_phase envEndGrown monB "A" = .ok (stats, m1, ev) ∧
      stats.core_user_times[0]? = some (3 / 2) ∧
      stats.core_system_times[0]? = some (1 / 100) := by
  obtain ⟨stats, m1, ev, h, hcore⟩ :=
    C10_counter_overrides_ticks envEndGrown monB "A" 0 ⟨⟨0, 0⟩, ⟨0, 0⟩⟩ ⟨4096, 0, 0, 0⟩
      ⟨4196, 20, 0, 0⟩ [(5, 3)] ⟨[3], [4], [-1], [-1], [-1], [-1]⟩ monB_started rfl (by decide)
  obtain ⟨h1, _, _, h4⟩ := hcore 0 0 (5, 3) 3 4 rfl rfl rfl rfl
  have hg : get_core_cpu_time (envEndGrown.junk 0) (envEndGrown.proc_stat 0) 0 = (7, 4) := rfl
  have hv : (envEndGrown.read 3 24).2.value = 1500000000 := rfl
  refine ⟨stats, m1, ev, h, ?_, ?_⟩
  · rw [h1 (by decide), hv]
    norm_num
  · rw [h4 (by decide), hg]
    norm_num

/-- Counterexample to C11 as stated: the user time counter of core 0 is read in
full with `value = 1 500 000 000`, `time_enabled = 10` and `time_running = 5`; the
stored `core_user_times[0]` is `3/2`, not `3/2` scaled by `5/10`. -/
theorem C11_counterexample :
    envEndMultiplexed.read 3 24 = (24, ⟨1500000000, 10, 5⟩) ∧
    ∃ stats m ev, end_phase envEndMultiplexed monB "A" = .ok (stats, m, ev) ∧
      stats.core_user_times[0]? = some (3 / 2) ∧
      stats.core_user_times[0]? ≠ some ((1500000000 : ℚ) / 1000000000 * (5 / 10)) := by
  have hu := end_stats_core_user envEndMultiplexed monB "A" 0 ⟨⟨0, 0⟩, ⟨0, 0⟩⟩ ⟨4096, 0, 0, 0⟩
    ⟨4196, 20, 0, 0⟩ [(5, 3)] ⟨[3], [4], [-1], [-1], [-1], [-1]⟩ 0 0 (5, 3) 3 rfl rfl rfl
  rw [counter_seconds_of_ok envEndMultiplexed 3 _ (by decide)] at hu
  have hv : (envEndMultiplexed.read 3 24).2.value = 1500000000 := rfl
  rw [hv] at hu
  refine ⟨rfl, _, _, _, end_phase_started envEndMultiplexed monB "A" 0 ⟨⟨0, 0⟩, ⟨0, 0⟩⟩
    ⟨4096, 0, 0, 0⟩ ⟨4196, 20, 0, 0⟩ [(5, 3)] ⟨[3], [4], [-1], [-1], [-1], [-1]⟩ monB_started rfl
    (by decide), ?_, ?_⟩
  · rw [hu]; norm_num
  · rw [hu]; norm_num

/-- Claim C11, amended. For a started phase and every monitored core `i` whose user
time or system time counter record was read in full, the per-core time that
`end_phase` stores is the counter value divided by `10 ^ 9`, not scaled, whatever
`time_running` and `time_enabled` are. -/
theorem C11_counter_time_not_scaled (env : Env) (m : PerformanceMonitor)
    (phase_name : String) (start : Int) (ru : rusage) (io0 io1 : IOStats)
    (ticks : List (ℚ × ℚ)) (fds : CoreEventFds)
    (hs : StartedWith m phase_name start ru io0 ticks fds)
    (hio : get_io_stats env.proc_self_io = .ok io1)
    (hub : io_total io0 io1 < U64) :
    ∃ stats m1 ev, end_phase env m phase_name = .ok (stats, m1, ev) ∧
      ∀ (i : Nat) (c : Int) (b : ℚ × ℚ) (ufd sfd : Int),
        m.monitored_cores[i]? = some c → ticks[i]? = some b →
        fds.user_time_fds[i]? = some ufd → fds.system_time_fds[i]? = some sfd →
        (∀ rf : read_format, ufd ≠ -1 → env.read ufd 24 = (24, rf) →
          stats.core_user_times[i]? = some ((rf.value : ℚ) / 1000000000)) ∧
        (∀ rf : read_format, sfd ≠ -1 → env.read sfd 24 = (24, rf) →
          stats.core_system_times[i]? = some ((rf.value : ℚ) / 1000000000)) := by
  refine ⟨_, _, _, end_phase_started env m phase_name start ru io0 io1 ticks fds hs hio hub, ?_⟩
  intro i c b ufd sfd hc hb hu hsy
  constructor
  · intro rf hne hr
    rw [end_stats_core_user env m phase_name start ru io0 io1 ticks fds i c b ufd hc hb hu,
      counter_seconds_of_ok env ufd _ ⟨hne, by rw [hr]⟩, hr]
  · intro rf hne hr
    rw [end_stats_core_system env m phase_name start ru io0 io1 ticks fds i c b sfd hc hb hsy,
      counter_seconds_of_ok env sfd _ ⟨hne, by rw [hr]⟩, hr]

/-- Witness of C11 (amended): `monB` at `envEndMultiplexed`. -/
theorem C11_counter_time_not_scaled_witness :
    ∃ stats m1 ev, end_phase envEndMultiplexed monB "A" = .ok (stats, m1, ev) ∧
      stats.core_user_times[0]? = some (3 / 2) := by
  obtain ⟨stats, m1, ev, h, hcore⟩ :=
    C11_counter_time_not_scaled envEndMultiplexed monB "A" 0 ⟨⟨0, 0⟩, ⟨0, 0⟩⟩ ⟨4096, 0, 0, 0⟩
      ⟨4196, 20, 0, 0⟩ [(5, 3)] ⟨[3], [4], [-1], [-1], [-1], [-1]⟩ monB_started rfl (by decide)
  have h1 := (hcore 0 0 (5, 3) 3 4 rfl rfl rfl rfl).1 ⟨1500000000, 10, 5⟩ (by decide) rfl
  refine ⟨stats, m1, ev, h, ?_⟩
  rw [h1]
  norm_num

/-- Claim C12. For a phase started by `start_phase` and ended by `end_phase` (with
nothing else done to that phase in between), and every monitored core `i`, the
returned `core_cpu_times[i]` is `core_user_times[i] + core_system_times[i]`, both
taken from the returned `PerfStats`, that is after any counter override. -/
theorem C12_core_cpu_is_user_plus_system (env0 env1 : Env) (m m1 m2 : PerformanceMonitor)
    (phase_name : String) (ev0 : List Event) (io1 : IOStats)
    (h0 : start_phase env0 m phase_name = .ok (m1, ev0))
    (hsame : SameSnapshot m1 m2 phase_name)
    (hio : get_io_stats env1.proc_self_io = .ok io1)
    (hub : ∀ io0, m2.phase_start_io phase_name = some io0 →
      io_total io0 io1 < U64) :
    ∃ stats m3 ev1, end_phase env1 m2 phase_name = .ok (stats, m3, ev1) ∧
      stats.core_cpu_times.length = m2.monitored_cores.length ∧
      ∀ i, i < m2.monitored_cores.length →
        ∃ u s, stats.core_user_times[i]? = some u ∧ stats.core_system_times[i]? = some s ∧
          stats.core_cpu_times[i]? = some (u + s) := by
  obtain ⟨io0, _, _, hcores, hs⟩ := started_after_start env0 m m1 m2 phase_name ev0 h0 hsame
  have hub2 := hub io0 hs.io
  obtain ⟨l1, l2, l3⟩ := end_stats_lengths env1 m2 phase_name _ _ io0 io1 _ _ hs
  have hcpu := end_stats_core_cpu_no_cycles env1 m2 phase_name _ _ io0 io1 _ _ hs
    (by rw [hcores]; rfl)
  refine ⟨_, _, _, end_phase_started env1 m2 phase_name _ _ io0 io1 _ _ hs hio hub2, l3, ?_⟩
  intro i hi
  obtain ⟨u, hu⟩ := exists_getElem? _ i (by rw [l1]; exact hi)
  obtain ⟨s, hsy⟩ := exists_getElem? _ i (by rw [l2]; exact hi)
  refine ⟨u, s, hu, hsy, ?_⟩
  rw [hcpu]
  exact zipWith_getElem?_some _ _ _ i u s hu hsy

/-- Witness of C12: `start_phase("A")` on `mon0` under `envStartCounters`, then
`end_phase("A")` under `envEndGrown`. -/
theorem C12_core_cpu_is_user_plus_system_witness :
    ∃ stats m3 ev1, end_phase envEndGrown monB "A" = .ok (stats, m3, ev1) ∧
      stats.core_cpu_times.length = 1 ∧
      ∃ u s, stats.core_user_times[0]? = some u ∧ stats.core_system_times[0]? = some s ∧
        stats.core_cpu_times[0]? = some (u + s) := by
  obtain ⟨ev0, h0⟩ := start_phase_envStartCounters
  obtain ⟨stats, m3, ev1, h, hl, hcore⟩ :=
    C12_core_cpu_is_user_plus_system envStartCounters envEndGrown mon0 monB monB "A" ev0
      ⟨4196, 20, 0, 0⟩ h0 (SameSnapshot.refl monB "A") rfl
      (by
        intro io0 hio0
        have h5 : monB.phase_start_io "A" = some ⟨4096, 0, 0, 0⟩ := rfl
        rw [h5] at hio0
        cases hio0
        decide)
  exact ⟨stats, m3, ev1, h, hl, hcore 0 (by decide)⟩

/-- Claim C13. For a `start_phase(name)` followed by the matching `end_phase(name)`
with nothing done to that phase in between, `end_phase` closes exactly the
descriptors that `start_phase` opened, each once and in the same order, whatever
the reads return; it opens none, so the open descriptors after `end_phase` are
those before `start_phase`. Afterwards the phase has no entry left, and a further
`end_phase(name)` reads and closes nothing. -/
theorem C13_opened_handles_closed_once (env0 env1 : Env) (m m1 m2 : PerformanceMonitor)
    (phase_name : String) (ev0 : List Event) (io1 : IOStats)
    (h0 : start_phase env0 m phase_name = .ok (m1, ev0))
    (hsame : SameSnapshot m1 m2 phase_name)
    (hio : get_io_stats env1.proc_self_io = .ok io1)
    (hub : ∀ io0, m2.phase_start_io phase_name = some io0 →
      io_total io0 io1 < U64) :
    ∃ stats m3 ev1, end_phase env1 m2 phase_name = .ok (stats, m3, ev1) ∧
      closed_of ev1 = opened_of ev0 ∧ opened_of ev1 = [] ∧ closed_of ev0 = [] ∧
      (∀ H : Multiset Int, open_handles H (ev0 ++ ev1) = H) ∧
      NeverStarted m3 phase_name ∧
      ∀ env2 : Env, ∃ stats2 ev2, end_phase env2 m3 phase_name = .ok (stats2, m3, ev2) ∧
        closed_of ev2 = [] ∧ ∀ e ∈ ev2, e.fd? = none := by
  obtain ⟨io0, _, hev, _, _, hend, hclosed⟩ :=
    end_after_start env0 env1 m m1 m2 phase_name ev0 io1 h0 hsame hio hub
  have hop := end_events_opened env1 m2 (opened_fds env0 m.monitored_cores.length)
  have hc0 : closed_of ev0 = [] := by rw [hev]; exact start_events_closed env0 m
  refine ⟨_, _, _, hend, hclosed, hop, hc0, ?_, erase_phase_never_started m2 phase_name, ?_⟩
  · intro H
    rw [open_handles_append, open_handles_of_no_close ev0 hc0,
      open_handles_of_no_open _ hop, hclosed]
    exact add_tsub_cancel_right _ _
  · intro env2
    exact ⟨_, _, end_phase_never_started env2 _ phase_name
      (erase_phase_never_started m2 phase_name), warnings_no_fd.1, warnings_no_fd.2⟩

/-- Witness of C13: `start_phase("A")` on `mon0` under `envStartCounters`, which
opens descriptors 3 and 4, then `end_phase("A")` under `envEndGrown`. -/
theorem C13_opened_handles_closed_once_witness :
    ∃ ev0 stats m3 ev1, start_phase envStartCounters mon0 "A" = .ok (monB, ev0) ∧
      end_phase envEndGrown monB "A" = .ok (stats, m3, ev1) ∧
      opened_of ev0 = [3, 4] ∧ closed_of ev1 = [3, 4] ∧
      open_handles 0 (ev0 ++ ev1) = 0 := by
  obtain ⟨ev0, h0⟩ := start_phase_envStartCounters
  obtain ⟨stats, m3, ev1, h, hc, _, _, hH, _⟩ :=
    C13_opened_handles_closed_once envStartCounters envEndGrown mon0 monB monB "A" ev0
      ⟨4196, 20, 0, 0⟩ h0 (SameSnapshot.refl monB "A") rfl
      (by
        intro io0 hio0
        have h5 : monB.phase_start_io "A" = some ⟨4096, 0, 0, 0⟩ := rfl
        rw [h5] at hio0
        cases hio0
        decide)
  obtain ⟨_, _, _, hev⟩ := start_phase_ok_inv envStartCounters mon0 monB "A" ev0 h0
  have ho : opened_of ev0 = [3, 4] := by rw [hev]; rfl
  exact ⟨ev0, stats, m3, ev1, h0, h, ho, by rw [hc, ho], hH 0⟩

/-- Claim C14. Whenever `end_phase(name)` returns, no map of the monitor holds an
entry for that name any more (wall clock, rusage, process clock, I/O, per-core
ticks, counter descriptors, per-core timespec), and an immediately repeated
`end_phase(name)` behaves as for a name that was never started: it returns the
all-zero statistics, leaves the monitor as it is and emits the five warnings. -/
theorem C14_end_phase_removes_snapshot (env : Env) (m m1 : PerformanceMonitor)
    (phase_name : String) (stats : PerfStats) (ev : List Event)
    (h : end_phase env m phase_name = .ok (stats, m1, ev)) :
    NeverStarted m1 phase_name ∧
    ∀ env2 : Env, end_phase env2 m1 phase_name =
      .ok ({ wall_time_ms := 0, user_time_sec := 0, system_time_sec := 0, cpu_time_sec := 0,
             io_wait_time_ms := 0, io_bytes_read := 0, io_bytes_written := 0,
             core_user_times := [], core_system_times := [],
             core_cpu_times := List.replicate m1.monitored_cores.length 0,
             process_cpu_time_sec := 0 }, m1,
        [Event.warning Warning.time_not_found, Event.warning Warning.rusage_not_found,
          Event.warning Warning.io_not_found, Event.warning Warning.core_times_not_found,
          Event.warning Warning.core_fds_not_found]) := by
  have hm := end_phase_monitor env m m1 phase_name stats ev h
  have hn : NeverStarted m1 phase_name := by
    rw [hm]; exact erase_phase_never_started m phase_name
  exact ⟨hn, fun env2 => end_phase_never_started env2 m1 phase_name hn⟩

/-- Witness of C14: `end_phase("A")` on the started monitor `monB`, which returns. -/
theorem C14_end_phase_removes_snapshot_witness :
    ∃ stats m1 ev, end_phase envEndGrown monB "A" = .ok (stats, m1, ev) ∧
      NeverStarted m1 "A" ∧
      ∃ stats2 ev2, end_phase envEndLost m1 "A" = .ok (stats2, m1, ev2) := by
  have h := end_phase_started envEndGrown monB "A" 0 ⟨⟨0, 0⟩, ⟨0, 0⟩⟩ ⟨4096, 0, 0, 0⟩
    ⟨4196, 20, 0, 0⟩ [(5, 3)] ⟨[3], [4], [-1], [-1], [-1], [-1]⟩ monB_started rfl (by decide)
  obtain ⟨hn, hrep⟩ := C14_end_phase_removes_snapshot envEndGrown monB _ "A" _ _ h
  exact ⟨_, _, _, h, hn, _, _, hrep envEndLost⟩


/-- Claim C15. For `start_phase(name); start_phase(name); end_phase(name)`: after
the second `start_phase` the snapshot of the phase is the one of the second call
in every map: its wall clock, rusage, the I/O counters that `get_io_stats`
returned in the second call, ticks, descriptors, per-core monotonic clocks, and
its process clock when `clock_gettime` succeeded in the second call (when it
failed, nothing is stored and the value of the first call stays). `end_phase`
closes exactly the descriptors that the second call opened, and the descriptors
that the first call opened are all still open afterwards, while the monitor holds
no entry for the phase: it is the monitor from before the first call with the
entries of the phase erased. -/
theorem C15_second_start_orphans_first (env1 env2 env3 : Env) (m m1 m2 : PerformanceMonitor)
    (phase_name : String) (ev1 ev2 : List Event) (io3 : IOStats)
    (h1 : start_phase env1 m phase_name = .ok (m1, ev1))
    (h2 : start_phase env2 m1 phase_name = .ok (m2, ev2))
    (hio : get_io_stats env3.proc_self_io = .ok io3)
    (hub : ∀ io2, m2.phase_start_io phase_name = some io2 →
      io_total io2 io3 < U64) :
    ∃ stats m3 ev3 io2, end_phase env3 m2 phase_name = .ok (stats, m3, ev3) ∧
      get_io_stats env2.proc_self_io = .ok io2 ∧
      StartedWith m2 phase_name env2.now env2.self_rusage io2
        (core_times_now env2 m.monitored_cores) (opened_fds env2 m.monitored_cores.length) ∧
      m2.phase_core_timespec phase_name =
        some ⟨(List.range m.monitored_cores.length).map env2.monotonic⟩ ∧
      (∀ ts, env2.process_cputime = some ts →
        m2.phase_start_process_time phase_name = some ts) ∧
      (env2.process_cputime = none →
        m2.phase_start_process_time phase_name = m1.phase_start_process_time phase_name) ∧
      closed_of ev3 = opened_of ev2 ∧
      (∀ H : Multiset Int,
        open_handles H (ev1 ++ (ev2 ++ ev3)) = H + (↑(opened_of ev1) : Multiset Int)) ∧
      m3 = erase_phase m phase_name ∧ NeverStarted m3 phase_name := by
  obtain ⟨io1, _, hm1, he1⟩ := start_phase_ok_inv env1 m m1 phase_name ev1 h1
  obtain ⟨io2, _, hm2, _⟩ := start_phase_ok_inv env2 m1 m2 phase_name ev2 h2
  obtain ⟨io2', hio2', he2, _, hs, hend, hclosed⟩ :=
    end_after_start env2 env3 m1 m2 m2 phase_name ev2 io3 h2 (SameSnapshot.refl m2 phase_name)
      hio hub
  have hc1 : m1.monitored_cores = m.monitored_cores := by
    rw [hm1]; exact started_monitor_cores env1 m phase_name io1
  have hop := end_events_opened env3 m2 (opened_fds env2 m1.monitored_cores.length)
  have hcl1 : closed_of ev1 = [] := by rw [he1]; exact start_events_closed env1 m
  have hcl2 : closed_of ev2 = [] := by rw [he2]; exact start_events_closed env2 m1
  have hm3 : erase_phase m2 phase_name = erase_phase m phase_name := by
    rw [hm2, erase_started_monitor, hm1, erase_started_monitor]
  have hpt := started_monitor_process_time env2 m1 phase_name io2
  rw [← hm2] at hpt
  refine ⟨_, _, _, io2', hend, hio2', ?_, ?_, hpt.1, hpt.2, hclosed, ?_, hm3, ?_⟩
  · rw [← hc1]; exact hs
  · rw [hm2, started_monitor_timespec, hc1]
  · intro H
    rw [open_handles_append, open_handles_append, open_handles_of_no_close ev1 hcl1,
      open_handles_of_no_close ev2 hcl2, open_handles_of_no_open _ hop, hclosed]
    exact add_tsub_cancel_right _ _
  · rw [hm3]; exact erase_phase_never_started m phase_name

/-- Witness of C15: `start_phase("A")` on `mon0` under `envStartCounters` opens
descriptors 3 and 4 at time 0, the second `start_phase("A")` under
`envStartAgain` opens 6 and 7 one millisecond later and stores its own time and
descriptors, and `end_phase("A")` under `envEndGrown` closes 6 and 7 only. -/
theorem C15_second_start_orphans_first_witness :
    ∃ ev1 m2 ev2 stats m3 ev3, start_phase envStartCounters mon0 "A" = .ok (monB, ev1) ∧
      start_phase envStartAgain monB "A" = .ok (m2, ev2) ∧
      end_phase envEndGrown m2 "A" = .ok (stats, m3, ev3) ∧
      monB.phase_start_times "A" = some 0 ∧ m2.phase_start_times "A" = some 1000000 ∧
      m2.phase_core_fds "A" = some ⟨[6], [7], [-1], [-1], [-1], [-1]⟩ ∧
      opened_of ev1 = [3, 4] ∧ closed_of ev3 = [6, 7] ∧
      open_handles 0 (ev1 ++ (ev2 ++ ev3)) = (↑([3, 4] : List Int) : Multiset Int) ∧
      NeverStarted m3 "A" := by
  obtain ⟨ev1, h1⟩ := start_phase_envStartCounters
  have h2 := start_phase_eq envStartAgain monB "A" ⟨4096, 0, 0, 0⟩ rfl
  obtain ⟨stats, m3, ev3, _, h, _, hs, _, _, _, hc, hH, _, hn⟩ :=
    C15_second_start_orphans_first envStartCounters envStartAgain envEndGrown mon0 monB _ "A"
      ev1 _ ⟨4196, 20, 0, 0⟩ h1 h2 rfl
      (by
        intro io2 hio2
        have h5 : (started_monitor envStartAgain monB "A" ⟨4096, 0, 0, 0⟩).phase_start_io "A" =
            some ⟨4096, 0, 0, 0⟩ := rfl
        rw [h5] at hio2
        cases hio2
        decide)
  obtain ⟨_, _, _, hev⟩ := start_phase_ok_inv envStartCounters mon0 monB "A" ev1 h1
  have ho1 : opened_of ev1 = [3, 4] := by rw [hev]; rfl
  have ho2 : opened_of (start_events envStartAgain monB) = [6, 7] := rfl
  refine ⟨ev1, _, _, stats, m3, ev3, h1, h2, h, rfl, hs.time, hs.core_fds, ho1,
    by rw [hc, ho2], ?_, hn⟩
  rw [hH 0, ho1, zero_add]

/-- Claim C16. For a `start_phase(name)` followed by the matching `end_phase(name)`:
no reset, enable, read, disable or close is ever issued on the descriptor `-1`
that a failed open leaves in a slot; `end_phase` returns; on a core whose user
(system) time counter failed to open the reported user (system) time is the tick
difference of that core divided by 100; and cores whose I/O wait counter failed
to open add nothing to `io_wait_time_ms`. -/
theorem C16_failed_slots_skipped (env0 env1 : Env) (m m1 m2 : PerformanceMonitor)
    (phase_name : String) (ev0 : List Event) (io1 : IOStats)
    (h0 : start_phase env0 m phase_name = .ok (m1, ev0))
    (hsame : SameSnapshot m1 m2 phase_name)
    (hio : get_io_stats env1.proc_self_io = .ok io1)
    (hub : ∀ io0, m2.phase_start_io phase_name = some io0 →
      io_total io0 io1 < U64) :
    ∃ stats m3 ev1 io0, end_phase env1 m2 phase_name = .ok (stats, m3, ev1) ∧
      m2.phase_start_io phase_name = some io0 ∧
      (∀ e ∈ ev0 ++ ev1, e.fd? ≠ some (-1)) ∧
      (∀ i c, m.monitored_cores[i]? = some c →
        (env0.perf_open CounterKind.user_time i = -1 →
          stats.core_user_times[i]? =
            some (((get_core_cpu_time (env1.junk i) (env1.proc_stat i) c).1 -
              (get_core_cpu_time (env0.junk i) (env0.proc_stat i) c).1) / 100)) ∧
        (env0.perf_open CounterKind.system_time i = -1 →
          stats.core_system_times[i]? =
            some (((get_core_cpu_time (env1.junk i) (env1.proc_stat i) c).2 -
              (get_core_cpu_time (env0.junk i) (env0.proc_stat i) c).2) / 100))) ∧
      stats.io_wait_time_ms =
        io_wait_volume stats.wall_time_ms
          (io_total io0 io1) +
        (((List.range m.monitored_cores.length).filter
            (fun i => decide (env0.perf_open CounterKind.io_wait i ≠ -1))).map
          (fun i => migration_ms env1 (env0.perf_open CounterKind.io_wait i))).sum := by
  obtain ⟨io0, _, hev, hcores, hs, hend, _⟩ :=
    end_after_start env0 env1 m m1 m2 phase_name ev0 io1 h0 hsame hio hub
  refine ⟨_, _, _, io0, hend, hs.io, ?_, ?_, ?_⟩
  · intro e he
    rcases List.mem_append.mp he with h | h
    · rw [hev] at h; exact start_events_fd env0 m e h
    · exact end_events_fd env1 m2 _ e h
  · intro i c hc
    have hi : i < m.monitored_cores.length := by
      by_contra hcon
      rw [List.getElem?_eq_none (by omega)] at hc
      cases hc
    have hc2 : m2.monitored_cores[i]? = some c := by rw [hcores]; exact hc
    have hb := core_times_now_getElem? env0 m.monitored_cores i c hc
    constructor
    · intro hfail
      have hu : (opened_fds env0 m.monitored_cores.length).user_time_fds[i]? = some (-1) := by
        simp [opened_fds, List.getElem?_map, List.getElem?_range hi, hfail]
      rw [end_stats_core_user env1 m2 phase_name _ _ io0 io1 _ _ i c _ (-1) hc2 hb hu,
        counter_seconds_of_not_ok env1 (-1) _ (by simp)]
    · intro hfail
      have hu : (opened_fds env0 m.monitored_cores.length).system_time_fds[i]? = some (-1) := by
        simp [opened_fds, List.getElem?_map, List.getElem?_range hi, hfail]
      rw [end_stats_core_system env1 m2 phase_name _ _ io0 io1 _ _ i c _ (-1) hc2 hb hu,
        counter_seconds_of_not_ok env1 (-1) _ (by simp)]
  · have hsum : ((opened_fds env0 m.monitored_cores.length).io_wait_fds.map
        (migration_ms env1)).sum =
        (((List.range m.monitored_cores.length).filter
            (fun i => decide (env0.perf_open CounterKind.io_wait i ≠ -1))).map
          (fun i => migration_ms env1 (env0.perf_open CounterKind.io_wait i))).sum := by
      have hmm : (opened_fds env0 m.monitored_cores.length).io_wait_fds.map (migration_ms env1) =
          (List.range m.monitored_cores.length).map
            (fun i => migration_ms env1 (env0.perf_open CounterKind.io_wait i)) := by
        simp [opened_fds, List.map_map, Function.comp_def]
      rw [hmm]
      apply sum_map_filter
      intro x hx
      have hx2 : env0.perf_open CounterKind.io_wait x = -1 := by simpa using hx
      rw [hx2]
      exact migration_ms_absent env1
    show io_wait_volume _ _ + _ = _
    rw [hsum]
    rfl

/-- Witness of C16: `start_phase("A")` on `mon0` under `envStart`, where every open
fails, then `end_phase("A")` under `envEndGrown`. -/
theorem C16_failed_slots_skipped_witness :
    ∃ ev0 stats m3 ev1, start_phase envStart mon0 "A" = .ok (monA, ev0) ∧
      end_phase envEndGrown monA "A" = .ok (stats, m3, ev1) ∧
      (∀ e ∈ ev0 ++ ev1, e.fd? ≠ some (-1)) ∧
      stats.io_wait_time_ms = io_wait_volume stats.wall_time_ms 120 := by
  obtain ⟨ev0, h0⟩ := start_phase_envStart
  obtain ⟨stats, m3, ev1, io0, h, hio0, hfd, _, hw⟩ :=
    C16_failed_slots_skipped envStart envEndGrown mon0 monA monA "A" ev0
      ⟨4196, 20, 0, 0⟩ h0 (SameSnapshot.refl monA "A") rfl
      (by
        intro io0 hio0
        have h5 : monA.phase_start_io "A" = some ⟨4096, 0, 0, 0⟩ := rfl
        rw [h5] at hio0
        cases hio0
        decide)
  have h5 : monA.phase_start_io "A" = some ⟨4096, 0, 0, 0⟩ := rfl
  rw [h5] at hio0
  cases hio0
  refine ⟨ev0, stats, m3, ev1, h0, h, hfd, ?_⟩
  rw [hw]
  have hz : ((List.range mon0.monitored_cores.length).filter
      (fun i => decide (envStart.perf_open CounterKind.io_wait i ≠ -1))) = [] := by decide
  rw [hz]
  have hv : io_total ⟨4096, 0, 0, 0⟩ ⟨4196, 20, 0, 0⟩ = 120 := by decide
  show io_wait_volume _ (io_total ⟨4096, 0, 0, 0⟩ ⟨4196, 20, 0, 0⟩) + _ = _
  rw [hv]
  simp

/-- Counterexample to C17 as stated: under `envStartHardware` the call
`start_phase("A")` opens the hardware instructions counter of core 0, which comes
back as descriptor 5, enables it, and stores 5 in the instructions slot of the
snapshot. -/
theorem C17_counterexample :
    ∃ m1 ev fds, start_phase envStartHardware mon0 "A" = .ok (m1, ev) ∧
      Event.perf_event_open CounterKind.cpu_instructions 0 5 ∈ ev ∧
      (perf_attr CounterKind.cpu_instructions).type = PerfType.HARDWARE ∧
      m1.phase_core_fds "A" = some fds ∧ fds.cpu_instructions_fds = [5] ∧
      ¬ (fds.cpu_instructions_fds = [-1]) := by
  refine ⟨_, _, opened_fds envStartHardware 1,
    start_phase_eq envStartHardware mon0 "A" ⟨4096, 0, 0, 0⟩ rfl, ?_, rfl, rfl, rfl, by decide⟩
  exact start_events_mem envStartHardware mon0 0 0 rfl CounterKind.cpu_instructions
    (Or.inr (Or.inr (Or.inr rfl)))

/-- Claim C17, amended. Whenever `start_phase(name)` returns, the counters it
opened are, for every monitored core, the three software counters (user time,
system time, I/O wait) and the hardware instructions counter
(`PERF_TYPE_HARDWARE`, `PERF_COUNT_HW_INSTRUCTIONS`), and no other. Each of the
four opens is followed at once by the reset and the enable request on the
descriptor it returned when it succeeded, and by a warning and no request when
it returned `-1`; no request is ever made on `-1`. The cycle and reference cycle
slots of the stored snapshot hold `-1` for every core, and the instructions slot
holds what the open of the instructions counter returned. -/
theorem C17_start_phase_opens_four_counters (env : Env) (m m1 : PerformanceMonitor)
    (phase_name : String) (ev : List Event)
    (h : start_phase env m phase_name = .ok (m1, ev)) :
    (∀ kind c fd, Event.perf_event_open kind c fd ∈ ev →
      kind = CounterKind.user_time ∨ kind = CounterKind.system_time ∨
        kind = CounterKind.io_wait ∨ kind = CounterKind.cpu_instructions) ∧
    (∀ i c, m.monitored_cores[i]? = some c → ∀ kind,
      kind = CounterKind.user_time ∨ kind = CounterKind.system_time ∨
        kind = CounterKind.io_wait ∨ kind = CounterKind.cpu_instructions →
      Event.perf_event_open kind c (env.perf_open kind i) ∈ ev ∧
      (env.perf_open kind i ≠ -1 →
        [Event.perf_event_open kind c (env.perf_open kind i),
          Event.ioctl (env.perf_open kind i) IoctlReq.RESET,
          Event.ioctl (env.perf_open kind i) IoctlReq.ENABLE] <:+: ev) ∧
      (env.perf_open kind i = -1 →
        [Event.perf_event_open kind c (-1),
          Event.warning (Warning.perf_open_failed kind c)] <:+: ev)) ∧
    (∀ e ∈ ev, e.fd? ≠ some (-1)) ∧
    (perf_attr CounterKind.user_time).type = PerfType.SOFTWARE ∧
    (perf_attr CounterKind.user_time).config = PerfConfig.SW_TASK_CLOCK ∧
    (perf_attr CounterKind.system_time).type = PerfType.SOFTWARE ∧
    (perf_attr CounterKind.system_time).config = PerfConfig.SW_TASK_CLOCK ∧
    (perf_attr CounterKind.io_wait).type = PerfType.SOFTWARE ∧
    (perf_attr CounterKind.io_wait).config = PerfConfig.SW_CPU_MIGRATIONS ∧
    (perf_attr CounterKind.cpu_instructions).type = PerfType.HARDWARE ∧
    (perf_attr CounterKind.cpu_instructions).config = PerfConfig.HW_INSTRUCTIONS ∧
    ∃ fds, m1.phase_core_fds phase_name = some fds ∧
      fds.cpu_cycles_fds = List.replicate m.monitored_cores.length (-1) ∧
      fds.cpu_ref_cycles_fds = List.replicate m.monitored_cores.length (-1) ∧
      fds.cpu_instructions_fds =
        (List.range m.monitored_cores.length).map (env.perf_open CounterKind.cpu_instructions) := by
  obtain ⟨io, _, hm1, hev⟩ := start_phase_ok_inv env m m1 phase_name ev h
  refine ⟨?_, ?_, ?_, rfl, rfl, rfl, rfl, rfl, rfl, rfl, rfl,
    opened_fds env m.monitored_cores.length, ?_, rfl, rfl, rfl⟩
  · intro kind c fd hmem
    rw [hev] at hmem
    exact start_events_kind env m kind c fd hmem
  · intro i c hc kind hk
    rw [hev]
    have hinf := start_events_slot_infix env m i c hc kind hk
    refine ⟨start_events_mem env m i c hc kind hk, ?_, ?_⟩
    · intro hfd
      rw [← slot_start_events_opened env kind i c hfd]
      exact hinf
    · intro hfd
      rw [← slot_start_events_failed env kind i c hfd]
      exact hinf
  · intro e he
    rw [hev] at he
    exact start_events_fd env m e he
  · rw [hm1]
    exact (started_monitor_started env m phase_name io).core_fds

/-- Witness of C17 (amended): `start_phase("A")` on `mon0` under `envStartHardware`
returns and has opened the instructions counter of core 0 as descriptor 5, reset
it and enabled it; the open of the user time counter failed and is followed by
its warning. -/
theorem C17_start_phase_opens_four_counters_witness :
    ∃ m1 ev, start_phase envStartHardware mon0 "A" = .ok (m1, ev) ∧
      [Event.perf_event_open CounterKind.cpu_instructions 0 5,
        Event.ioctl 5 IoctlReq.RESET, Event.ioctl 5 IoctlReq.ENABLE] <:+: ev ∧
      [Event.perf_event_open CounterKind.user_time 0 (-1),
        Event.warning (Warning.perf_open_failed CounterKind.user_time 0)] <:+: ev := by
  have h := start_phase_eq envStartHardware mon0 "A" ⟨4096, 0, 0, 0⟩ rfl
  have hc := (C17_start_phase_opens_four_counters envStartHardware mon0 _ "A" _ h).2.1 0 0 rfl
  exact ⟨_, _, h,
    (hc CounterKind.cpu_instructions (Or.inr (Or.inr (Or.inr rfl)))).2.1 (by decide),
    (hc CounterKind.user_time (Or.inl rfl)).2.2 rfl⟩


/-- Counterexample to C18 as stated: a `read_bytes:` line with a value that is not
a number, a `write_bytes:` line with no value, and a `syscr:` line whose value is
`2 ^ 64`, each make `get_io_stats` raise instead of returning; with the first of
them `start_phase("A")` and `end_phase("A")` of a started phase raise too. -/
theorem C18_counterexample :
    get_io_stats (some "rchar: 9\nread_bytes: abc\n".toList) = .error Fault.invalid_argument ∧
    get_io_stats (some "rchar: 9\nwrite_bytes:\n".toList) = .error Fault.invalid_argument ∧
    get_io_stats (some "syscr: 18446744073709551616\n".toList) = .error Fault.out_of_range ∧
    start_phase envIoMalformed mon0 "A" = .error Fault.invalid_argument ∧
    end_phase envIoMalformed monA "A" = .error Fault.invalid_argument :=
  ⟨rfl, rfl, rfl, start_phase_error envIoMalformed mon0 "A" _ rfl,
    end_phase_io_error envIoMalformed monA "A" ⟨4096, 0, 0, 0⟩ _ rfl rfl⟩

/-- Claim C18, amended. An unreadable `/proc/self/io` gives all zeros. On a
readable one, a line without any of the four labels is skipped, and
`get_io_stats` returns an `IOStats` value exactly when on every line that
contains a label the text after the first colon is accepted by `std::stoull`.
`std::stoull` skips white space and an optional sign: no digit after them raises
`std::invalid_argument`, digits whose value is `2 ^ 64` or more raise
`std::out_of_range`, and other digits are accepted. The exception of the first
labelled line that is rejected is the exception of `get_io_stats`. When
`get_io_stats` returns, `start_phase` returns; when it raises, the same exception
leaves `start_phase`, and leaves `end_phase` for every phase that has an I/O
snapshot. -/
theorem C18_io_values_must_parse (env : Env) (m : PerformanceMonitor) (phase_name : String) :
    (env.proc_self_io = none → get_io_stats env.proc_self_io = .ok ⟨0, 0, 0, 0⟩) ∧
    (∀ stats line, io_label line = false → get_io_stats_line stats line = .ok stats) ∧
    (∀ text, env.proc_self_io = some text →
      ((∃ io, get_io_stats env.proc_self_io = .ok io) ↔
        ∀ line ∈ getlines text, io_label line = true →
          ∃ v, stoull (afterColon line) = .ok v)) ∧
    (∀ s : List Char,
      ((splitSign (s.dropWhile isspace)).2.takeWhile Char.isDigit = [] →
        stoull s = .error Fault.invalid_argument) ∧
      ((splitSign (s.dropWhile isspace)).2.takeWhile Char.isDigit ≠ [] →
        U64 ≤ decVal ((splitSign (s.dropWhile isspace)).2.takeWhile Char.isDigit) →
        stoull s = .error Fault.out_of_range) ∧
      ((splitSign (s.dropWhile isspace)).2.takeWhile Char.isDigit ≠ [] →
        decVal ((splitSign (s.dropWhile isspace)).2.takeWhile Char.isDigit) < U64 →
        ∃ v, stoull s = .ok v)) ∧
    (∀ text pre line post e, env.proc_self_io = some text →
      getlines text = pre ++ line :: post →
      (∀ l ∈ pre, io_label l = true → ∃ v, stoull (afterColon l) = .ok v) →
      io_label line = true → stoull (afterColon line) = .error e →
      get_io_stats env.proc_self_io = .error e) ∧
    ((∃ io, get_io_stats env.proc_self_io = .ok io) →
      ∃ m1 ev, start_phase env m phase_name = .ok (m1, ev)) ∧
    (∀ e, get_io_stats env.proc_self_io = .error e →
      start_phase env m phase_name = .error e ∧
      ∀ io0, m.phase_start_io phase_name = some io0 → end_phase env m phase_name = .error e) := by
  refine ⟨?_, get_io_stats_line_unlabelled, ?_, ?_, ?_, ?_, ?_⟩
  · intro h
    rw [h]
    rfl
  · intro text htext
    rw [htext]
    exact get_io_stats_lines_ok_iff (getlines text) ⟨0, 0, 0, 0⟩
  · intro s
    refine ⟨?_, ?_, ?_⟩
    · intro h
      simp [stoull, h]
    · intro h hge
      simp [stoull, h, hge]
    · intro h hlt
      simp [stoull, h, not_le.mpr hlt]
  · intro text pre line post e htext hlines hpre hl he
    rw [htext]
    show (getlines text).foldlM get_io_stats_line ⟨0, 0, 0, 0⟩ = .error e
    rw [hlines]
    exact get_io_stats_lines_first_error pre line post e hpre hl he ⟨0, 0, 0, 0⟩
  · rintro ⟨io, hio⟩
    exact ⟨_, _, start_phase_eq env m phase_name io hio⟩
  · intro e he
    exact ⟨start_phase_error env m phase_name e he,
      fun io0 h0 => end_phase_io_error env m phase_name io0 e h0 he⟩

/-- Witness of C18 (amended): under `envIoMalformed` the `read_bytes:` line has the
value `abc`, in which `std::stoull` finds no digit; `get_io_stats`,
`start_phase("A")` and `end_phase("A")` raise `std::invalid_argument`. -/
theorem C18_io_values_must_parse_witness :
    envIoMalformed.proc_self_io = some "rchar: 9\nread_bytes: abc\n".toList ∧
    stoull " abc".toList = .error Fault.invalid_argument ∧
    get_io_stats envIoMalformed.proc_self_io = .error Fault.invalid_argument ∧
    start_phase envIoMalformed mon0 "A" = .error Fault.invalid_argument ∧
    end_phase envIoMalformed monA "A" = .error Fault.invalid_argument := by
  have h := C18_io_values_must_parse envIoMalformed monA "A"
  have hst : stoull " abc".toList = .error Fault.invalid_argument :=
    (h.2.2.2.1 " abc".toList).1 (by decide)
  have hget : get_io_stats envIoMalformed.proc_self_io = .error Fault.invalid_argument :=
    h.2.2.2.2.1 _ ["rchar: 9".toList] "read_bytes: abc".toList [] _ rfl (by decide)
      (by
        intro l hl hlab
        rw [List.mem_singleton.mp hl] at hlab
        exact absurd hlab (by decide))
      (by decide) hst
  exact ⟨rfl, hst, hget,
    ((C18_io_values_must_parse envIoMalformed mon0 "A").2.2.2.2.2.2 _ hget).1,
    (h.2.2.2.2.2.2 _ hget).2 ⟨4096, 0, 0, 0⟩ rfl⟩


/-- Claim C19. `RecordStats(p, s)` makes the history of `p` its previous history
(empty when `p` had none) followed by `s`, and leaves the history of every other
phase as it was. Over any sequence of `RecordStats` and `PrintStats` calls the
history that a phase had before is an initial part of the history it has
afterwards, and a phase that had a history keeps one: no sample is removed. -/
theorem C19_record_appends (pm : PerformanceMetrics) (p : String) (s : PerfStats) :
    (RecordStats pm p s).phase_stats p = some (history pm p ++ [s]) ∧
    (pm.phase_stats p = none → history pm p = []) ∧
    (∀ old, pm.phase_stats p = some old → history pm p = old) ∧
    (∀ q, q ≠ p → (RecordStats pm p s).phase_stats q = pm.phase_stats q) ∧
    (∀ (calls : List MetricsCall) (q : String),
      List.IsPrefix (history pm q) (history (run_calls pm calls) q)) ∧
    (∀ (calls : List MetricsCall) (q : String), pm.phase_stats q ≠ none →
      (run_calls pm calls).phase_stats q ≠ none) := by
  refine ⟨RecordStats_same pm p s, ?_, ?_, RecordStats_other pm p s,
    fun calls q => history_run_calls calls pm q,
    fun calls q h => present_run_calls calls pm q h⟩
  · intro h; simp [history, h]
  · intro old h; simp [history, h]

/-- Claim C20. When every recorded sample has at least as many per-core system
times as per-core user times, `PrintStats` returns, and what it prints is the
reports of the phases one after the other. The report of a phase with one sample
is the banner and that sample alone, its fields as they are (the two byte counts
in MB), with no average; its utilization line shows
`cpu_time_sec * 1000 * 100 / wall_time_ms`. The report of a phase with `N > 1`
samples is the banner, the average lines and the per-step details, and the
average lines are the count `N`, for each of the seven fields the sum over the
`N` samples of that phase divided by `N` (the two byte means in MB), and the
utilization `(mean cpu_time_sec * 1000 * 100) / mean wall_time_ms`. A wall time
of zero makes the utilization an infinity or a NaN. -/
theorem C20_single_sample_or_means (pm : PerformanceMetrics) (order : List String)
    (hwf : ∀ p ∈ order, ∀ s ∈ history pm p, PerCoreInBounds s) :
    ∃ reports : String → List OutItem,
      PrintStats pm order = .ok (order.flatMap reports) ∧
      ∀ p ∈ order,
        PrintStats_phase p (history pm p) = .ok (reports p) ∧
        (history pm p = [] → reports p = []) ∧
        (∀ s, history pm p = [s] →
          reports p = phase_header p ++ single_report s "" ∧
          single_report s "" = single_lines s "" ++ per_core_lines s "" ∧
          (s.wall_time_ms ≠ 0 →
            [OutItem.text "", OutItem.text "CPU utilization: ",
              OutItem.num (s.cpu_time_sec * 1000 * 100 / s.wall_time_ms),
              OutItem.text "%\n"] <:+ single_lines s "")) ∧
        (2 ≤ (history pm p).length →
          reports p = phase_header p ++
            (average_lines (history pm p) ++ step_details (history pm p)) ∧
          (((history pm p).map PerfStats.wall_time_ms).sum / ((history pm p).length : ℚ) ≠ 0 →
            average_lines (history pm p) =
              [OutItem.text "Number of measurements: ", OutItem.size (history pm p).length,
                OutItem.text "\n",
               OutItem.text "Average wall clock time: ",
                OutItem.num (((history pm p).map PerfStats.wall_time_ms).sum /
                  ((history pm p).length : ℚ)),
                OutItem.text " ms\n",
               OutItem.text "Average user time: ",
                OutItem.num (((history pm p).map PerfStats.user_time_sec).sum /
                  ((history pm p).length : ℚ)),
                OutItem.text " sec\n",
               OutItem.text "Average system time: ",
                OutItem.num (((history pm p).map PerfStats.system_time_sec).sum /
                  ((history pm p).length : ℚ)),
                OutItem.text " sec\n",
               OutItem.text "Average CPU time (user+system): ",
                OutItem.num (((history pm p).map PerfStats.cpu_time_sec).sum /
                  ((history pm p).length : ℚ)),
                OutItem.text " sec\n",
               OutItem.text "Average I/O wait time: ",
                OutItem.num (((history pm p).map PerfStats.io_wait_time_ms).sum /
                  ((history pm p).length : ℚ)),
                OutItem.text " ms\n",
               OutItem.text "Average I/O bytes read: ",
                OutItem.num (((history pm p).map PerfStats.io_bytes_read).sum /
                  ((history pm p).length : ℚ) / (1024 * 1024)),
                OutItem.text " MB\n",
               OutItem.text "Average I/O bytes written: ",
                OutItem.num (((history pm p).map PerfStats.io_bytes_written).sum /
                  ((history pm p).length : ℚ) / (1024 * 1024)),
                OutItem.text " MB\n",
               OutItem.text "CPU utilization: ",
                OutItem.num ((((history pm p).map PerfStats.cpu_time_sec).sum /
                    ((history pm p).length : ℚ)) * 1000 * 100 /
                  (((history pm p).map PerfStats.wall_time_ms).sum /
                    ((history pm p).length : ℚ))),
                OutItem.text "%\n"]) ∧
          (((history pm p).map PerfStats.wall_time_ms).sum / ((history pm p).length : ℚ) = 0 →
            [OutItem.text "CPU utilization: ",
              (if 0 < ((history pm p).map PerfStats.cpu_time_sec).sum /
                  ((history pm p).length : ℚ) * 1000 * 100 then OutItem.inf
                else if ((history pm p).map PerfStats.cpu_time_sec).sum /
                  ((history pm p).length : ℚ) * 1000 * 100 < 0 then OutItem.neg_inf
                else OutItem.nan),
              OutItem.text "%\n"] <:+ average_lines (history pm p))) := by
  refine ⟨fun p =>
    match PrintStats_phase p (history pm p) with
    | .ok r => r
    | .error _ => [], ?_, ?_⟩
  · unfold PrintStats
    rw [foldlM_emit (fun p => PrintStats_phase p (history pm p)) _ order]
    · rfl
    · intro p hp
      obtain ⟨r, hr⟩ := PrintStats_phase_returns p (history pm p) (hwf p hp)
      simp only [hr]
  · intro p hp
    refine ⟨?_, ?_, ?_, ?_⟩
    · obtain ⟨r, hr⟩ := PrintStats_phase_returns p (history pm p) (hwf p hp)
      simp only [hr]
    · intro h
      simp only [h, PrintStats_phase_empty]
    · intro s h
      have hs : PerCoreInBounds s := hwf p hp s (by rw [h]; exact List.mem_singleton.mpr rfl)
      refine ⟨?_, rfl, ?_⟩
      · simp only [h, PrintStats_phase_single p s hs]
      · intro hw
        refine ⟨(single_lines s "").take 32, ?_⟩
        simp [single_lines, div_out, hw]
    · intro h
      refine ⟨?_, ?_, ?_⟩
      · simp only [PrintStats_phase_many p (history pm p) h (hwf p hp)]
      · intro hw
        have hw2 : mean PerfStats.wall_time_ms (history pm p) ≠ 0 := hw
        simp only [average_lines, div_out, if_neg hw2]
        rfl
      · intro hw
        have hw2 : mean PerfStats.wall_time_ms (history pm p) = 0 := hw
        refine ⟨(average_lines (history pm p)).take 24, ?_⟩
        simp only [average_lines, div_out, if_pos hw2]
        rfl

/-- Witness of C20: two samples of 10 ms and 30 ms wall time and of 0.004 s and
0.008 s CPU time recorded for `"Decode_Token"`; `PrintStats` returns and prints
the count 2, the mean wall clock time 20 and the utilization
`0.006 * 1000 * 100 / 20 = 30`. -/
theorem C20_single_sample_or_means_witness :
    (∀ p ∈ ["Decode_Token"], ∀ s ∈ history metricsAB p, PerCoreInBounds s) ∧
    ∃ out, PrintStats metricsAB ["Decode_Token"] = .ok out ∧
      [OutItem.text "Number of measurements: ", OutItem.size 2, OutItem.text "\n",
        OutItem.text "Average wall clock time: ", OutItem.num 20, OutItem.text " ms\n"]
        <:+: out ∧
      [OutItem.text "CPU utilization: ", OutItem.num 30, OutItem.text "%\n",
        OutItem.text "\nPer-step details:\n"] <:+: out := by
  refine ⟨metricsAB_in_bounds, ?_⟩
  obtain ⟨reports, h, hp⟩ :=
    C20_single_sample_or_means metricsAB ["Decode_Token"] metricsAB_in_bounds
  obtain ⟨_, _, _, hmany⟩ := hp "Decode_Token" (List.mem_singleton.mpr rfl)
  rw [history_metricsAB] at hmany
  obtain ⟨hr, havg, _⟩ := hmany (by simp)
  have hwall : (([sampleA, sampleB] : List PerfStats).map PerfStats.wall_time_ms).sum /
      ((([sampleA, sampleB] : List PerfStats).length : Nat) : ℚ) = 20 := by
    norm_num [sampleA, sampleB, PerfStats.init]
  have hcpu : (([sampleA, sampleB] : List PerfStats).map PerfStats.cpu_time_sec).sum /
      ((([sampleA, sampleB] : List PerfStats).length : Nat) : ℚ) = 6 / 1000 := by
    norm_num [sampleA, sampleB, PerfStats.init]
  have havg2 := havg (by rw [hwall]; norm_num)
  rw [hwall, hcpu] at havg2
  have hutil : (6 / 1000 : ℚ) * 1000 * 100 / 20 = 30 := by norm_num
  rw [hutil] at havg2
  have hsteps : step_details [sampleA, sampleB] =
      [OutItem.text "\nPer-step details:\n"] ++
        (List.range 2).flatMap (step_lines [sampleA, sampleB]) := by
    simp [step_details]
  refine ⟨_, h, ?_, ?_⟩
  · rw [List.flatMap_singleton, hr]
    refine ⟨phase_header "Decode_Token",
      (average_lines [sampleA, sampleB]).drop 6 ++ step_details [sampleA, sampleB], ?_⟩
    rw [havg2]
    simp [List.length]
  · rw [List.flatMap_singleton, hr, hsteps]
    refine ⟨phase_header "Decode_Token" ++ (average_lines [sampleA, sampleB]).take 24,
      (List.range 2).flatMap (step_lines [sampleA, sampleB]), ?_⟩
    rw [havg2]
    simp [List.length]


/-- Claim C22. `GetParallelEfficiency` returns `0` when `wall_time_ms ≤ 0`, in
particular when it is `0`, and `(cpu_time_sec * 1000) / wall_time_ms` otherwise;
it never divides by zero. -/
theorem C22_parallel_efficiency (stats : PerfStats) :
    (stats.wall_time_ms ≤ 0 → GetParallelEfficiency stats = some 0) ∧
    (stats.wall_time_ms = 0 → GetParallelEfficiency stats = some 0) ∧
    (0 < stats.wall_time_ms →
      GetParallelEfficiency stats = some ((stats.cpu_time_sec * 1000) / stats.wall_time_ms)) ∧
    GetParallelEfficiency stats ≠ none := by
  unfold GetParallelEfficiency double_div
  by_cases h : stats.wall_time_ms ≤ 0
  · refine ⟨fun _ => by simp [h], fun _ => by simp [h], fun hp => ?_, by simp [h]⟩
    exact absurd hp (not_lt.mpr h)
  · have hne : stats.wall_time_ms ≠ 0 := fun h0 => h (le_of_eq h0)
    exact ⟨fun hle => absurd hle h, fun h0 => absurd h0 hne, fun _ => by simp [h, hne],
      by simp [h, hne]⟩


/-- Claim C23. The constructor keeps a list of cores that is not empty as it is;
for an empty list it takes the detected affinity list, or `[0]` when that is
empty too. Every monitor reached from the constructed one by `start_phase` and
`end_phase` calls has the same list, which is not empty; no single `start_phase`
or `end_phase` changes the list of any monitor. -/
theorem C23_monitored_cores_fixed (affinity : Option (Nat → Bool)) (cores : List Int) :
    (cores ≠ [] →
      (PerformanceMonitor.create (detect_active_cores affinity) cores).monitored_cores =
        cores) ∧
    (cores = [] → detect_active_cores affinity ≠ [] →
      (PerformanceMonitor.create (detect_active_cores affinity) cores).monitored_cores =
        detect_active_cores affinity) ∧
    (cores = [] → detect_active_cores affinity = [] →
      (PerformanceMonitor.create (detect_active_cores affinity) cores).monitored_cores =
        [0]) ∧
    (∀ m, ReachableFrom (PerformanceMonitor.create (detect_active_cores affinity) cores) m →
      m.monitored_cores =
        (PerformanceMonitor.create (detect_active_cores affinity) cores).monitored_cores ∧
      m.monitored_cores ≠ []) ∧
    (∀ env m m1 phase_name ev, start_phase env m phase_name = .ok (m1, ev) →
      m1.monitored_cores = m.monitored_cores) ∧
    (∀ env m m1 phase_name stats ev, end_phase env m phase_name = .ok (stats, m1, ev) →
      m1.monitored_cores = m.monitored_cores) := by
  refine ⟨?_, ?_, ?_, ?_, ?_, ?_⟩
  · intro h
    cases cores with
    | nil => exact absurd rfl h
    | cons a l => rfl
  · intro h hd
    subst h
    cases hdet : detect_active_cores affinity with
    | nil => exact absurd hdet hd
    | cons a l => rfl
  · intro h hd
    subst h
    rw [hd]
    rfl
  · intro m hm
    have hc := cores_reachable_from _ m hm
    exact ⟨hc, by rw [hc]; exact create_cores_ne_nil _ cores⟩
  · intro env m m1 phase_name ev h
    obtain ⟨io, _, hm1, _⟩ := start_phase_ok_inv env m m1 phase_name ev h
    rw [hm1]
    rfl
  · intro env m m1 phase_name stats ev h
    rw [end_phase_monitor env m m1 phase_name stats ev h]
    rfl

/-- Claim C26. In every monitor reachable through the constructor, `start_phase`
and `end_phase`, the maps of the wall clock, rusage, I/O, per-core ticks,
per-core timespec and counter descriptors have an entry for exactly the same
phase names, and a name with an entry in the process clock map has one in the
others. For a name with an entry, `end_phase` returns whenever `/proc/self/io`
can be parsed and the byte total fits 64 bits, and whenever it returns it has
emitted no warning at all, so none of the "not found" family. -/
theorem C26_same_phase_names (m : PerformanceMonitor) (h : Reachable m)
    (phase_name : String) :
    (m.phase_start_rusage phase_name).isSome = (m.phase_start_times phase_name).isSome ∧
    (m.phase_start_io phase_name).isSome = (m.phase_start_times phase_name).isSome ∧
    (m.phase_start_core_times phase_name).isSome = (m.phase_start_times phase_name).isSome ∧
    (m.phase_core_timespec phase_name).isSome = (m.phase_start_times phase_name).isSome ∧
    (m.phase_core_fds phase_name).isSome = (m.phase_start_times phase_name).isSome ∧
    ((m.phase_start_process_time phase_name).isSome = true →
      (m.phase_start_times phase_name).isSome = true) ∧
    ((m.phase_start_times phase_name).isSome = true →
      (∀ env io1, get_io_stats env.proc_self_io = .ok io1 →
        (∀ io0, m.phase_start_io phase_name = some io0 →
          io_total io0 io1 < U64) →
        ∃ stats m1 ev, end_phase env m phase_name = .ok (stats, m1, ev)) ∧
      (∀ env stats m1 ev, end_phase env m phase_name = .ok (stats, m1, ev) →
        ∀ w, Event.warning w ∉ ev)) := by
  rcases consistent_reachable m h phase_name with hn | hsnap
  · simp [hn.time, hn.rusage, hn.io, hn.process_time, hn.core_times, hn.core_fds,
      hn.core_timespec]
  · obtain ⟨start, ru, io0, ticks, fds, ts, hs, hts, _⟩ := hsnap
    refine ⟨by simp [hs.time, hs.rusage], by simp [hs.time, hs.io],
      by simp [hs.time, hs.core_times], by simp [hs.time, hts], by simp [hs.time, hs.core_fds],
      fun _ => by simp [hs.time], fun _ => ⟨?_, ?_⟩⟩
    · intro env io1 hio hub
      exact ⟨_, _, _, end_phase_started env m phase_name start ru io0 io1 ticks fds hs hio
        (hub io0 hs.io)⟩
    · intro env stats m1 ev hend w
      obtain ⟨io1, _, _, _, hev⟩ :=
        end_phase_started_inv env m m1 phase_name start ru io0 ticks fds stats ev hs hend
      rw [hev]
      exact end_events_no_warning env m fds w

/-- Witness of C26: `monB` is reached by `start_phase("A")` on a fresh monitor; the
phase `"A"` has an entry in the rusage map and in the wall clock map. -/
theorem C26_same_phase_names_witness :
    Reachable monB ∧
    (monB.phase_start_rusage "A").isSome = (monB.phase_start_times "A").isSome ∧
    ∃ stats m1 ev, end_phase envEndGrown monB "A" = .ok (stats, m1, ev) ∧
      ∀ w, Event.warning w ∉ ev := by
  have hc := C26_same_phase_names monB reachable_monB "A"
  obtain ⟨hret, hwarn⟩ := hc.2.2.2.2.2.2 rfl
  obtain ⟨stats, m1, ev, hend⟩ := hret envEndGrown ⟨4196, 20, 0, 0⟩ rfl
    (by
      intro io0 hio0
      have h5 : monB.phase_start_io "A" = some ⟨4096, 0, 0, 0⟩ := rfl
      rw [h5] at hio0
      cases hio0
      decide)
  exact ⟨reachable_monB, hc.1, stats, m1, ev, hend, hwarn envEndGrown stats m1 ev hend⟩

/-- Claim C27. In every monitor reachable through the constructor, `start_phase`
and `end_phase`, the stored tick pairs of a phase and each of its six descriptor
vectors are as long as `monitored_cores`. Hence `end_phase` never runs into the
undefined behaviour of a subscript out of bounds: its only undefined behaviour
is the conversion of a byte total that is `2 ^ 64` or more as a `double`; and the `PerfStats` of a
started phase has its three per-core vectors of that length. -/
theorem C27_per_core_vectors_in_bounds (m : PerformanceMonitor) (h : Reachable m)
    (phase_name : String) :
    (∀ ticks, m.phase_start_core_times phase_name = some ticks →
      ticks.length = m.monitored_cores.length) ∧
    (∀ fds, m.phase_core_fds phase_name = some fds →
      fds.user_time_fds.length = m.monitored_cores.length ∧
      fds.system_time_fds.length = m.monitored_cores.length ∧
      fds.io_wait_fds.length = m.monitored_cores.length ∧
      fds.cpu_cycles_fds.length = m.monitored_cores.length ∧
      fds.cpu_instructions_fds.length = m.monitored_cores.length ∧
      fds.cpu_ref_cycles_fds.length = m.monitored_cores.length) ∧
    (∀ env, end_phase env m phase_name = .error Fault.undefined →
      ∃ io0 io1, m.phase_start_io phase_name = some io0 ∧
        get_io_stats env.proc_self_io = .ok io1 ∧
        U64 ≤ io_total io0 io1) ∧
    (∀ env io0 io1, m.phase_start_io phase_name = some io0 →
      get_io_stats env.proc_self_io = .ok io1 →
      io_total io0 io1 < U64 →
      ∃ stats m1 ev, end_phase env m phase_name = .ok (stats, m1, ev) ∧
        stats.core_user_times.length = m.monitored_cores.length ∧
        stats.core_system_times.length = m.monitored_cores.length ∧
        stats.core_cpu_times.length = m.monitored_cores.length) := by
  rcases consistent_reachable m h phase_name with hn | hsnap
  · refine ⟨?_, ?_, ?_, ?_⟩
    · intro ticks ht; rw [hn.core_times] at ht; cases ht
    · intro fds hf; rw [hn.core_fds] at hf; cases hf
    · intro env he; rw [end_phase_never_started env m phase_name hn] at he; cases he
    · intro env io0 io1 h0; rw [hn.io] at h0; cases h0
  · obtain ⟨start, ru, io0, ticks, fds, ts, hs, _, _⟩ := hsnap
    refine ⟨?_, ?_, ?_, ?_⟩
    · intro ticks2 ht
      rw [hs.core_times] at ht
      cases ht
      exact hs.len_ticks
    · intro fds2 hf
      rw [hs.core_fds] at hf
      cases hf
      exact ⟨hs.len_user, hs.len_system, hs.len_io_wait, hs.len_cycles, hs.len_instructions,
        hs.len_ref_cycles⟩
    · intro env he
      cases hio : get_io_stats env.proc_self_io with
      | error e =>
        rw [end_phase_io_error env m phase_name io0 e hs.io hio] at he
        cases he
        exact absurd rfl (get_io_stats_error _ _ hio)
      | ok io1 =>
        by_cases hub : io_total io0 io1 < U64
        · rw [end_phase_started env m phase_name start ru io0 io1 ticks fds hs hio hub] at he
          cases he
        · exact ⟨io0, io1, hs.io, rfl, Nat.le_of_not_lt hub⟩
    · intro env io0' io1 h0 hio hub
      rw [hs.io] at h0
      cases h0
      exact ⟨_, _, _, end_phase_started env m phase_name start ru io0 io1 ticks fds hs hio hub,
        end_stats_lengths env m phase_name start ru io0 io1 ticks fds hs⟩

/-- Witness of C27: the phase `"A"` of the reachable monitor `monB`, ended under
`envEndGrown`, has one entry in each per-core vector. -/
theorem C27_per_core_vectors_in_bounds_witness :
    Reachable monB ∧
    ∃ stats m1 ev, end_phase envEndGrown monB "A" = .ok (stats, m1, ev) ∧
      stats.core_user_times.length = 1 ∧ stats.core_system_times.length = 1 ∧
      stats.core_cpu_times.length = 1 :=
  ⟨reachable_monB,
    (C27_per_core_vectors_in_bounds monB reachable_monB "A").2.2.2 envEndGrown ⟨4096, 0, 0, 0⟩
      ⟨4196, 20, 0, 0⟩ rfl rfl (by decide)⟩


/-- Evaluation for C28: with the stop token 2 and a sampler that returns 2 in the
first iteration, the decoding stage ends with the snapshot of `Decode_Token_0`
still in the profiler, its two counters (descriptors 3 and 4) opened and never
closed, and nothing recorded under `Decode_Token`. -/
theorem C28_stop_token_leaves_phase_started :
    ∃ s, decoding_stage worldStop 2 3 decodeStart = .ok s ∧
      s.perf_monitor.phase_start_times "Decode_Token_0" = some 0 ∧
      s.perf_monitor.phase_core_fds "Decode_Token_0" =
        some ⟨[3], [4], [-1], [-1], [-1], [-1]⟩ ∧
      ¬ NeverStarted s.perf_monitor "Decode_Token_0" ∧
      opened_of s.events = [3, 4] ∧ closed_of s.events = [] ∧
      history s.metrics "Decode_Token" = [] ∧ s.decode_stats_vec = [] := by
  refine ⟨_, rfl, rfl, rfl, ?_, rfl, rfl, rfl, rfl⟩
  intro h
  have := h.time
  cases this


/-- Counterexample to C29 as stated: 40 equal logits with the arguments of `main`
(temperature `0.9f`, `k = 85`, `p = 0.9f`). Every probability is the `float`
nearest to `1 / 40`. The first 36 of them sum to more than `p`, and so do 36
exact probabilities `1 / 40`; yet the candidates are the first 37 pairs, because
the sum that the loop accumulates in a `float` is not above `p` after 36
additions. -/
theorem C29_counterexample :
    ∃ cands, sampler_candidates exp2floor (List.replicate 40 1) (to_float (9 / 10)) 85
        (to_float (9 / 10)) = .ok cands ∧
      cands.length = 37 ∧
      (∀ x ∈ cands, x.1 = to_float (1 / 40)) ∧
      to_float (9 / 10) < ((cands.take 36).map Prod.fst).sum ∧
      to_float (9 / 10) < 36 * ((1 : ℚ) / 40) ∧
      float_sum 0 ((cands.take 36).map Prod.fst) ≤ to_float (9 / 10) := by
  have key : (sampler_candidates exp2floor (List.replicate 40 1) (to_float (9 / 10)) 85
      (to_float (9 / 10))).toOption.map (fun cands => decide (cands.length = 37 ∧
        (∀ x ∈ cands, x.1 = to_float (1 / 40)) ∧
        to_float (9 / 10) < ((cands.take 36).map Prod.fst).sum ∧
        to_float (9 / 10) < 36 * ((1 : ℚ) / 40) ∧
        float_sum 0 ((cands.take 36).map Prod.fst) ≤ to_float (9 / 10))) = some true := by
    decide!
  cases hres : sampler_candidates exp2floor (List.replicate 40 1) (to_float (9 / 10)) 85
      (to_float (9 / 10)) with
  | error e =>
    rw [hres] at key
    cases key
  | ok cands =>
    rw [hres] at key
    have h2 : decide (cands.length = 37 ∧
        (∀ x ∈ cands, x.1 = to_float (1 / 40)) ∧
        to_float (9 / 10) < ((cands.take 36).map Prod.fst).sum ∧
        to_float (9 / 10) < 36 * ((1 : ℚ) / 40) ∧
        float_sum 0 ((cands.take 36).map Prod.fst) ≤ to_float (9 / 10)) = true :=
      Option.some.inj key
    exact ⟨cands, rfl, of_decide_eq_true h2⟩

/-- Claim C29, amended. For a vocabulary that is not empty, a positive temperature,
`k ≥ 1` and any threshold `p`, with `std::exp` a function that is never negative
and is 1 at 0, and a draw that delivers an index below the number of its weights:
the pairs of step 2 hold for every vocabulary index the softmax probability of
its logit divided by the temperature, computed in `float` arithmetic, and these
are not negative; the sampler sorts them in descending order and keeps the first
`min k vocab_size`, none of which has a smaller probability than a pair left
out; the candidates are the shortest prefix of these, not empty, whose
probabilities, added up in a `float` in this order, give more than `p`, or all
of them when no prefix does; and the token returned is the vocabulary index of
one of the candidates and lies in `0 .. vocab_size - 1`. -/
theorem C29_candidates_shortest_prefix (expf : ℚ → ℚ) (dist : List ℚ → Nat)
    (logits : List ℚ) (temperature : ℚ) (k : Int) (p : ℚ)
    (hlog : logits ≠ []) (_ht : 0 < temperature) (hk : 1 ≤ k)
    (hexp0 : expf 0 = 1) (hexp : ∀ x, 0 ≤ expf x)
    (hdist : ∀ w : List ℚ, w ≠ [] → dist w < w.length) :
    ∃ max_logit sum_exp pairs sorted top cands token,
      max_logit ∈ logits.map (fun x => to_float (x / temperature)) ∧
      (∀ y ∈ logits.map (fun x => to_float (x / temperature)), y ≤ max_logit) ∧
      sum_exp = float_sum 0
        (logits.map (fun x => expf (to_float (to_float (x / temperature) - max_logit)))) ∧
      1 ≤ sum_exp ∧
      pairs = (logits.map (fun x =>
          to_float (expf (to_float (to_float (x / temperature) - max_logit)) / sum_exp))).enum.map
        (fun ix => (ix.2, (ix.1 : Int))) ∧
      softmax_pairs expf logits temperature = .ok pairs ∧
      (∀ x ∈ pairs, 0 ≤ x.1) ∧
      sorted = pairs.insertionSort pair_ge ∧ List.Sorted pair_ge sorted ∧
      List.Perm sorted pairs ∧
      top = sorted.take (min k (logits.length : Int)).toNat ∧
      top.length = (min k (logits.length : Int)).toNat ∧
      (∀ x ∈ top, ∀ y ∈ sorted.drop (min k (logits.length : Int)).toNat, y.1 ≤ x.1) ∧
      sampler_candidates expf logits temperature k p = .ok cands ∧
      cands ≠ [] ∧
      (∃ c, 0 < c ∧ c ≤ top.length ∧ cands = top.take c ∧
        (∀ j, 0 < j → j < c → float_sum 0 ((top.take j).map Prod.fst) ≤ p) ∧
        (p < float_sum 0 (cands.map Prod.fst) ∨ cands = top)) ∧
      TemperatureTopKTopPSampler expf dist logits temperature k p = .ok token ∧
      (∃ x ∈ cands, x.2 = token) ∧ 0 ≤ token ∧ token < (logits.length : Int) := by
  obtain ⟨max_logit, sum_exp, hmax, hismax, hsum, hone, hpairs⟩ :=
    softmax_pairs_eq expf logits temperature hlog hexp0 hexp
  have hlen : ((logits.map (fun x =>
      to_float (expf (to_float (to_float (x / temperature) - max_logit)) / sum_exp))).enum.map
      (fun ix => (ix.2, (ix.1 : Int)))).length = logits.length := by simp
  obtain ⟨c, hc0, hc1, htop, hcands, hshort, hexceed⟩ :=
    sampler_candidates_eq expf logits temperature k p _ hpairs hlen hlog hk
  have hcne : (((((logits.map (fun x =>
      to_float (expf (to_float (to_float (x / temperature) - max_logit)) / sum_exp))).enum.map
      (fun ix => (ix.2, (ix.1 : Int)))).insertionSort pair_ge).take
        (min k (logits.length : Int)).toNat).take c) ≠ [] := by
    intro h
    have := congrArg List.length h
    rw [List.length_take, min_eq_left hc1] at this
    simp at this
    omega
  obtain ⟨chosen, hmem, hsampler⟩ :=
    sampler_token expf dist logits temperature k p _ hcands hcne hdist
  have hchosen := (List.mem_insertionSort pair_ge).mp
    (List.mem_of_mem_take (List.mem_of_mem_take hmem))
  obtain ⟨hr0, hr1, _⟩ := enum_pairs_mem hchosen
  rw [List.length_map] at hr1
  refine ⟨max_logit, sum_exp, _, _, _, _, _, hmax, hismax, hsum, hone, rfl, hpairs, ?_, rfl,
    List.sorted_insertionSort pair_ge _, List.perm_insertionSort pair_ge _, rfl, htop, ?_,
    hcands, hcne, ⟨c, hc0, hc1, rfl, hshort, ?_⟩, hsampler, ⟨chosen, hmem, rfl⟩, hr0, hr1⟩
  · intro x hx
    obtain ⟨_, _, hget⟩ := enum_pairs_mem hx
    have hmem := List.getElem?_mem hget
    obtain ⟨y, _, hy⟩ := List.mem_map.mp hmem
    rw [← hy]
    exact to_float_nonneg _ (div_nonneg (hexp _) (le_trans zero_le_one hone))
  · intro x hx y hy
    have hrel := (List.sorted_insertionSort pair_ge _).rel_of_mem_take_of_mem_drop hx hy
    unfold pair_ge at hrel
    rcases hrel with h | ⟨h, _⟩
    · exact le_of_lt h
    · exact le_of_eq h
  · rcases hexceed with h | h
    · exact Or.inl h
    · right
      rw [h, List.take_length]

/-- Witness of C29 (amended): three logits with the arguments of `main`
(temperature `0.9f`, `k = 85`, `p = 0.9f`), with `exp2floor` for `std::exp` and a
draw that delivers 0. -/
theorem C29_candidates_shortest_prefix_witness :
    ∃ token, TemperatureTopKTopPSampler exp2floor drawFirst [1, 3, 2] (to_float (9 / 10)) 85
      (to_float (9 / 10)) = .ok token ∧ 0 ≤ token ∧ token < 3 := by
  obtain ⟨_, _, _, _, _, _, token, _, _, _, _, _, _, _, _, _, _, _, _, _, _, _, _, h, _, h0,
      h1⟩ :=
    C29_candidates_shortest_prefix exp2floor drawFirst [1, 3, 2] (to_float (9 / 10)) 85
      (to_float (9 / 10))
      (by simp) (by decide!) (by norm_num)
      (by simp [exp2floor])
      (fun x => zpow_nonneg (by norm_num) _)
      (fun w hw => List.length_pos.mpr hw)
  exact ⟨token, h, h0, h1⟩


/-- Claim C30. For signature keys whose sequence sizes are at least `0`
and below `INT_MAX`, and a `PrepareRunner` whose checks pass, `GetPrefillRunner`
without LoRA returns the first key, in iteration order, of the smallest sequence
size among the keys that contain `prefill`, do not contain `lora` and have a
sequence size of at least `num_input_tokens`; such a key exists whenever some
key is eligible, and when none is, the check of the runner fails. -/
theorem C30_first_smallest_sufficient (keys : List (String × Int)) (num_input_tokens : Nat)
    (PrepareRunner : String → Except Fault Unit)
    (hdim : ∀ k ∈ keys, 0 ≤ k.2 ∧ k.2 < INT_MAX)
    (hprep : ∀ r, PrepareRunner r = .ok ()) :
    (∀ before k after, keys = before ++ k :: after → Eligible num_input_tokens k →
      (∀ x ∈ before, Eligible num_input_tokens x → k.2 < x.2) →
      (∀ x ∈ after, Eligible num_input_tokens x → k.2 ≤ x.2) →
      GetPrefillRunner keys num_input_tokens none PrepareRunner = .ok k.1) ∧
    ((∃ k ∈ keys, Eligible num_input_tokens k) →
      ∃ before k after, keys = before ++ k :: after ∧ Eligible num_input_tokens k ∧
        (∀ x ∈ before, Eligible num_input_tokens x → k.2 < x.2) ∧
        (∀ x ∈ after, Eligible num_input_tokens x → k.2 ≤ x.2)) ∧
    ((∀ k ∈ keys, ¬ Eligible num_input_tokens k) →
      GetPrefillRunner keys num_input_tokens none PrepareRunner =
        .error Fault.check_failed) := by
  have hdim2 : ∀ k ∈ keys, 0 ≤ k.2 ∧ k.2 ≤ INT_MAX :=
    fun k hk => ⟨(hdim k hk).1, le_of_lt (hdim k hk).2⟩
  refine ⟨?_, exists_first_min num_input_tokens keys, ?_⟩
  · intro before k after hsplit hk hb ha
    have hkd := hdim k (by rw [hsplit]; simp)
    have hloop := GetPrefillRunner_loop_first_min num_input_tokens before k after
      (by rw [← hsplit]; exact hdim2) hk hb ha ⟨none, -1, INT_MAX⟩
      (by
        show k.2 - (num_input_tokens : Int) < INT_MAX
        have := hkd.2
        omega)
    unfold GetPrefillRunner
    rw [hsplit]
    simp only [Option.isSome_none]
    rw [hloop]
    simp [bind, Except.bind, pure, Except.pure, hprep]
  · intro hnone
    have hloop := GetPrefillRunner_loop_keep num_input_tokens keys hdim2 ⟨none, -1, INT_MAX⟩
      (fun k hk he => absurd he (hnone k hk))
    unfold GetPrefillRunner
    simp only [Option.isSome_none]
    rw [hloop]
    rfl

/-- Witness of C30: among `keysUsual`, 20 tokens get the first of the
two keys of size 32. -/
theorem C30_first_smallest_sufficient_witness :
    (∀ k ∈ keysUsual, 0 ≤ k.2 ∧ k.2 < INT_MAX) ∧
    GetPrefillRunner keysUsual 20 none prepareOk = .ok "prefill_32" := by
  have hdim : ∀ k ∈ keysUsual, 0 ≤ k.2 ∧ k.2 < INT_MAX := by decide
  refine ⟨hdim, ?_⟩
  exact (C30_first_smallest_sufficient keysUsual 20 prepareOk hdim (fun _ => rfl)).1
    [("decode", 1), ("prefill_128", 128), ("prefill_lora_8", 8)] ("prefill_32", 32)
    [("prefill_32_b", 32), ("prefill_8", 8)] rfl (by decide) (by decide) (by decide)

end TextGen
